import Mathlib

/-!
# detheme: value resolution and tmTheme serialisation

A shallow embedding of `theme/theme.go` and `converter/converter.go`.

Go strings are byte sequences: `len` and slicing count bytes, and every regular
expression of `theme.go` only tests ASCII bytes, so a string is modelled as the
list of its bytes.  A run-time panic (an index out of range) is the value `none`.
-/

namespace Detheme

/-! ## Strings -/

/-- A Go string: its bytes in order. -/
abbrev Str := List Nat

/-- UTF-8 encoding of one code point. -/
def utf8EncodeNat (n : Nat) : Str :=
  if n < 0x80 then [n]
  else if n < 0x800 then [0xC0 + n / 0x40, 0x80 + n % 0x40]
  else if n < 0x10000 then [0xE0 + n / 0x1000, 0x80 + n / 0x40 % 0x40, 0x80 + n % 0x40]
  else [0xF0 + n / 0x40000, 0x80 + n / 0x1000 % 0x40, 0x80 + n / 0x40 % 0x40, 0x80 + n % 0x40]

/-- The bytes of a string literal of the source. -/
def utf8 (s : String) : Str :=
  s.toList.flatMap fun c => utf8EncodeNat c.toNat

/-- Go `strings.HasPrefix`. -/
def HasPrefix : Str → Str → Bool
  | _, [] => true
  | [], _ :: _ => false
  | c :: s, d :: p => c == d && HasPrefix s p

/-- Go `strings.Contains`: `sub` starts at some position of `s`. -/
def Contains : Str → Str → Bool
  | [], sub => HasPrefix [] sub
  | c :: s, sub => HasPrefix (c :: s) sub || Contains s sub

/-- The scan of `strings.ReplaceAll` for a non-empty `old`: `skip` bytes of an
occurrence already replaced are still to be passed over. -/
def replaceScan (old new : Str) : Nat → Str → Str
  | _, [] => []
  | skip + 1, _ :: s => replaceScan old new skip s
  | 0, c :: s =>
    if HasPrefix (c :: s) old then new ++ replaceScan old new (old.length - 1) s
    else c :: replaceScan old new 0 s

/-- Go `strings.ReplaceAll`: the non-overlapping occurrences of `old`, found from
left to right, are replaced by `new`.  Every call of the sources passes a
non-empty `old` (one byte in `escape`, the text of a match elsewhere); for an
empty `old` Go inserts `new` around every code point, which is not modelled and
returns `s` here. -/
def ReplaceAll (s old new : Str) : Str :=
  if old = [] then s else replaceScan old new 0 s

/-! ## converter.go: escaping -/

/-- The function `escape` of converter.go: five replacements in the order of the source. -/
def escape (data : Str) : Str :=
  let data := ReplaceAll data (utf8 "'") (utf8 "&apos;")
  let data := ReplaceAll data (utf8 "\"") (utf8 "&quot;")
  let data := ReplaceAll data (utf8 "&") (utf8 "&amp;")
  let data := ReplaceAll data (utf8 "<") (utf8 "&lt;")
  let data := ReplaceAll data (utf8 ">") (utf8 "&gt;")
  data

/-! ## Regular expressions (Go `regexp`, leftmost-first matching)

Every pattern of theme.go is a sequence of literal bytes, repeated byte classes
and capture groups that are not nested.  The matcher below backtracks like Go:
a repetition is greedy, it first tries the longest run and gives bytes back one
at a time.  The classes only contain ASCII bytes (in Go `\d` is `[0-9]`) and a
negated class such as `[^)]` accepts every byte of a longer code point, so
matching bytes and matching code points select the same text. -/

/-- One item of a pattern. -/
inductive Item where
  /-- A byte class repeated between `lo` and `hi` times (`none`: no upper bound), greedy. -/
  | cls (p : Nat → Bool) (lo : Nat) (hi : Option Nat)
  /-- An opening parenthesis of a capture group. -/
  | gopen
  /-- The closing parenthesis of the innermost open capture group. -/
  | gclose

/-- A literal text: each byte exactly once. -/
def lit (s : String) : List Item :=
  (utf8 s).map fun c => Item.cls (fun b => b == c) 1 (some 1)

/-- The class `\d` or `[0-9]`. -/
def isDigit (b : Nat) : Bool := 48 ≤ b && b ≤ 57

/-- The class `[0-9a-fA-F]`. -/
def isHexDigit (b : Nat) : Bool :=
  isDigit b || (97 ≤ b && b ≤ 102) || (65 ≤ b && b ≤ 70)

/-- The class `[0-9\.]`. -/
def isDigitOrDot (b : Nat) : Bool := isDigit b || b == 46

/-- The class `[^)]`. -/
def notParen (b : Nat) : Bool := b != 41

/-- The class holding the space only. -/
def isSpace (b : Nat) : Bool := b == 32

/-- The number of leading bytes of `s` in the class `p`, at most `hi`. -/
def runLen (p : Nat → Bool) : Option Nat → Str → Nat
  | some 0, _ => 0
  | _, [] => 0
  | some (h + 1), c :: s => if p c then runLen p (some h) s + 1 else 0
  | none, c :: s => if p c then runLen p none s + 1 else 0

/-- Backtracking over the length of a greedy repetition: the continuation `k` is
tried on the split of `s` after `n` bytes, then after `n - 1`, down to `lo`. -/
def tryDown {R : Type} (k : Str → Str → Option R) (s : Str) (lo : Nat) : Nat → Option R
  | 0 => if lo = 0 then k [] s else none
  | n + 1 =>
    if n + 1 < lo then none
    else match k (s.take (n + 1)) (s.drop (n + 1)) with
      | some r => some r
      | none => tryDown k s lo n

/-- Match a pattern at the start of `s`.  `whole` is the text matched so far,
`opens` the texts of the groups still open (innermost first), `caps` the closed
groups (last closed first).  The result is the matched text and the groups. -/
def matchItems : List Item → Str → Str → List Str → List Str → Option (Str × List Str)
  | [], _, whole, _, caps => some (whole, caps.reverse)
  | Item.gopen :: r, s, whole, opens, caps => matchItems r s whole ([] :: opens) caps
  | Item.gclose :: r, s, whole, opens, caps =>
    match opens with
    | [] => none
    | o :: os => matchItems r s whole os (o :: caps)
  | Item.cls p lo hi :: r, s, whole, opens, caps =>
    tryDown (fun chunk rest =>
        matchItems r rest (whole ++ chunk) (opens.map fun o => o ++ chunk) caps)
      s lo (runLen p hi s)

/-- The leftmost match of a pattern in `s`. -/
def findMatch (re : List Item) : Str → Option (Str × List Str)
  | [] => matchItems re [] [] [] []
  | c :: s =>
    match matchItems re (c :: s) [] [] [] with
    | some m => some m
    | none => findMatch re s

/-- Go `Regexp.MatchString`. -/
def MatchString (re : List Item) (s : Str) : Bool :=
  (findMatch re s).isSome

/-- Go `Regexp.FindStringSubmatch`: the text of the leftmost match followed by the
texts of its capture groups, the empty slice when nothing matches. -/
def FindStringSubmatch (re : List Item) (s : Str) : List Str :=
  match findMatch re s with
  | some (whole, groups) => whole :: groups
  | none => []

/-! ## theme.go: the patterns -/

/-- The repetition `\d+`. -/
def digitPlus : Item := Item.cls isDigit 1 none

/-- The repetition ` *`. -/
def spaceStar : Item := Item.cls isSpace 0 none

/-- The pattern `color\((#[0-9a-fA-F]{3,8}) alpha\(([0-9\.]+)\)\)`. -/
def colorRegex : List Item :=
  lit "color(" ++ [Item.gopen] ++ lit "#" ++ [Item.cls isHexDigit 3 (some 8), Item.gclose]
    ++ lit " alpha(" ++ [Item.gopen, Item.cls isDigitOrDot 1 none, Item.gclose] ++ lit "))"

/-- The pattern `rgb\(\d+, *\d+, *\d+\)`: it has no capture group. -/
def rgbRegex : List Item :=
  lit "rgb(" ++ [digitPlus] ++ lit "," ++ [spaceStar, digitPlus] ++ lit "," ++ [spaceStar, digitPlus] ++ lit ")"

/-- The pattern `rgba\((\d+), *(\d+), *(\d+)\, *([0-9\.]+)\)`. -/
def rgbaRegex : List Item :=
  lit "rgba(" ++ [Item.gopen, digitPlus, Item.gclose] ++ lit ","
    ++ [spaceStar, Item.gopen, digitPlus, Item.gclose] ++ lit ","
    ++ [spaceStar, Item.gopen, digitPlus, Item.gclose] ++ lit ","
    ++ [spaceStar, Item.gopen, Item.cls isDigitOrDot 1 none, Item.gclose] ++ lit ")"

/-- The pattern `hsl\((\d+), *(\d+)%, *(\d+)%\)`. -/
def hslRegex : List Item :=
  lit "hsl(" ++ [Item.gopen, digitPlus, Item.gclose] ++ lit ","
    ++ [spaceStar, Item.gopen, digitPlus, Item.gclose] ++ lit "%,"
    ++ [spaceStar, Item.gopen, digitPlus, Item.gclose] ++ lit "%)"

/-- The pattern `hsla\((\d+), *(\d+)%, *(\d+)%, *([0-9\.]+)\)`. -/
def hslaRegex : List Item :=
  lit "hsla(" ++ [Item.gopen, digitPlus, Item.gclose] ++ lit ","
    ++ [spaceStar, Item.gopen, digitPlus, Item.gclose] ++ lit "%,"
    ++ [spaceStar, Item.gopen, digitPlus, Item.gclose] ++ lit "%,"
    ++ [spaceStar, Item.gopen, Item.cls isDigitOrDot 1 none, Item.gclose] ++ lit ")"

/-- The pattern `var\(([^)]+)\)`. -/
def varRegex : List Item :=
  lit "var(" ++ [Item.gopen, Item.cls notParen 1 none, Item.gclose] ++ lit ")"

/-! ## theme.go: the data model -/

/-- The struct `Map`: the keys in source order and the values.  The pointer to the
owning theme is passed to `Map.Get` instead of being stored. -/
structure Map where
  Keys : List Str
  Data : Str → Option Str

/-- The struct `Rule`, without the pointer to the owning theme. -/
structure Rule where
  Name : Str
  Scope : Str
  FontStyle : Str
  Foreground : Str
  Background : Str
  SelectionForeground : Str

/-- The struct `Theme`. -/
structure Theme where
  Name : Str
  Author : Str
  Variables : Str → Option Str
  Globals : Map
  Rules : List Rule

/-- What theme.go calls in `github.com/essentialkaos/ek/v12/color` and in
`strconv.ParseFloat`.  Neither is part of the sources: they are parameters. -/
structure ColorLib where
  /-- The type `float64`. -/
  F64 : Type
  /-- The type `color.Hex`. -/
  Hex : Type
  /-- The value of `strconv.ParseFloat(s, 64)`; every call discards the error. -/
  ParseFloat : Str → F64
  /-- The call `color.Parse(s)`: the colour, and whether the error is not nil. -/
  Parse : Str → Hex × Bool
  /-- The chain `c.ToRGBA().WithAlpha(a).ToHex().ToWeb(true, false)`. -/
  hexAlphaWeb : Hex → F64 → Str
  /-- The chain `color.RGB{R, G, B}.ToHex().ToWeb(true, false)`. -/
  rgbWeb : Nat → Nat → Nat → Str
  /-- The chain `color.RGBA{R: r, G: g, B: b}.WithAlpha(a).ToHex().ToWeb(true, false)`. -/
  rgbaWeb : Nat → Nat → Nat → F64 → Str
  /-- The chain `color.HSL{H, S, L}.ToRGB().ToHex().ToWeb(true, false)`. -/
  hslWeb : F64 → F64 → F64 → Str
  /-- The chain `color.HSL{H, S, L, A}.ToRGBA().ToHex().ToWeb(true, false)`. -/
  hslaWeb : F64 → F64 → F64 → F64 → Str

/-- The value of a string of decimal digits, `none` for an empty string or another byte. -/
def decimalValue : Str → Option Nat
  | [] => none
  | s => s.foldl (fun acc c => acc.bind fun n => if isDigit c then some (n * 10 + (c - 48)) else none)
      (some 0)

/-- The value of Go `strconv.Atoi` on a 64-bit platform; every call discards the
error.  A text that is not an optional sign and decimal digits gives 0, a value out
of the range of `int` gives the nearest bound. -/
def Atoi (s : Str) : Int :=
  match s with
  | 45 :: r =>
    match decimalValue r with
    | some n => max (-(n : Int)) (-(2 : Int) ^ 63)
    | none => 0
  | 43 :: r =>
    match decimalValue r with
    | some n => min (n : Int) (2 ^ 63 - 1)
    | none => 0
  | _ =>
    match decimalValue s with
    | some n => min (n : Int) (2 ^ 63 - 1)
    | none => 0

/-- The conversion `uint8(i)` of an `int`. -/
def uint8 (i : Int) : Nat := (i % 256).toNat

/-- The slice `data[i:j]`. -/
def slice (data : Str) (i j : Nat) : Str := (data.take j).drop i

/-! ## theme.go: the stages of `eval`

Each `for i := 0; i < 16; i++` loop is a recursion on the number of passes left.
Indexing the result of `FindStringSubmatch` is `xs[i]?`: an index out of range
panics in Go and is `none` here. -/

/-- The loop of `replaceVariables`, with `n` passes left. -/
def replaceVariablesLoop (t : Theme) : Nat → Str → Option Str
  | 0, data => some data
  | n + 1, data =>
    if !MatchString varRegex data then some data
    else
      let foundVar := FindStringSubmatch varRegex data
      match foundVar[1]?, foundVar[0]? with
      | some name, some whole =>
        let varValue :=
          match t.Variables name with
          | some v => v
          | none => utf8 "[UNKNOWN-VAR:" ++ name ++ utf8 "]"
        replaceVariablesLoop t n (ReplaceAll data whole varValue)
      | _, _ => none

/-- The function `replaceVariables`. -/
def replaceVariables (data : Str) (t : Theme) : Option Str :=
  replaceVariablesLoop t 16 data

/-- The loop of `convertColorToHex`.  After `strconv.ParseFloat` the source tests
`err` again, which still is the error of `color.Parse`. -/
def convertColorToHexLoop (lib : ColorLib) : Nat → Str → Option Str
  | 0, data => some data
  | n + 1, data =>
    if !MatchString colorRegex data then some data
    else
      let foundColor := FindStringSubmatch colorRegex data
      match foundColor[1]?, foundColor[2]?, foundColor[0]? with
      | some baseColor, some alpha, some whole =>
        let (colorHex, err) := lib.Parse baseColor
        if err then convertColorToHexLoop lib n (ReplaceAll data whole (utf8 "[COLOR-VALUE]"))
        else
          let alphaChannel := lib.ParseFloat alpha
          if err then convertColorToHexLoop lib n (ReplaceAll data whole (utf8 "[COLOR-ALPHA]"))
          else
            let finalColor := lib.hexAlphaWeb colorHex alphaChannel
            convertColorToHexLoop lib n (ReplaceAll data whole finalColor)
      | _, _, _ => none

/-- The function `convertColorToHex`. -/
def convertColorToHex (lib : ColorLib) (data : Str) : Option Str :=
  convertColorToHexLoop lib 16 data

/-- The loop of `convertRGBToHex`. -/
def convertRGBToHexLoop (lib : ColorLib) : Nat → Str → Option Str
  | 0, data => some data
  | n + 1, data =>
    if !MatchString rgbRegex data then some data
    else
      let foundColor := FindStringSubmatch rgbRegex data
      match foundColor[1]?, foundColor[2]?, foundColor[3]?, foundColor[0]? with
      | some r, some g, some b, some whole =>
        let finalColor := lib.rgbWeb (uint8 (Atoi r)) (uint8 (Atoi g)) (uint8 (Atoi b))
        convertRGBToHexLoop lib n (ReplaceAll data whole finalColor)
      | _, _, _, _ => none

/-- The function `convertRGBToHex`. -/
def convertRGBToHex (lib : ColorLib) (data : Str) : Option Str :=
  convertRGBToHexLoop lib 16 data

/-- The loop of `convertRGBAToHex`. -/
def convertRGBAToHexLoop (lib : ColorLib) : Nat → Str → Option Str
  | 0, data => some data
  | n + 1, data =>
    if !MatchString rgbaRegex data then some data
    else
      let foundColor := FindStringSubmatch rgbaRegex data
      match foundColor[1]?, foundColor[2]?, foundColor[3]?, foundColor[4]?, foundColor[0]? with
      | some r, some g, some b, some a, some whole =>
        let finalColor :=
          lib.rgbaWeb (uint8 (Atoi r)) (uint8 (Atoi g)) (uint8 (Atoi b)) (lib.ParseFloat a)
        convertRGBAToHexLoop lib n (ReplaceAll data whole finalColor)
      | _, _, _, _, _ => none

/-- The function `convertRGBAToHex`. -/
def convertRGBAToHex (lib : ColorLib) (data : Str) : Option Str :=
  convertRGBAToHexLoop lib 16 data

/-- The loop of `convertHSLToHex`. -/
def convertHSLToHexLoop (lib : ColorLib) : Nat → Str → Option Str
  | 0, data => some data
  | n + 1, data =>
    if !MatchString hslRegex data then some data
    else
      let foundColor := FindStringSubmatch hslRegex data
      match foundColor[1]?, foundColor[2]?, foundColor[3]?, foundColor[0]? with
      | some h, some s, some l, some whole =>
        let finalColor := lib.hslWeb (lib.ParseFloat h) (lib.ParseFloat s) (lib.ParseFloat l)
        convertHSLToHexLoop lib n (ReplaceAll data whole finalColor)
      | _, _, _, _ => none

/-- The function `convertHSLToHex`. -/
def convertHSLToHex (lib : ColorLib) (data : Str) : Option Str :=
  convertHSLToHexLoop lib 16 data

/-- The loop of `convertHSLAToHex`. -/
def convertHSLAToHexLoop (lib : ColorLib) : Nat → Str → Option Str
  | 0, data => some data
  | n + 1, data =>
    if !MatchString hslaRegex data then some data
    else
      let foundColor := FindStringSubmatch hslaRegex data
      match foundColor[1]?, foundColor[2]?, foundColor[3]?, foundColor[4]?, foundColor[0]? with
      | some h, some s, some l, some a, some whole =>
        let finalColor :=
          lib.hslaWeb (lib.ParseFloat h) (lib.ParseFloat s) (lib.ParseFloat l) (lib.ParseFloat a)
        convertHSLAToHexLoop lib n (ReplaceAll data whole finalColor)
      | _, _, _, _, _ => none

/-- The function `convertHSLAToHex`. -/
def convertHSLAToHex (lib : ColorLib) (data : Str) : Option Str :=
  convertHSLAToHexLoop lib 16 data

/-- One guarded stage of `eval`: `if strings.Contains(data, trigger) { data = stage(data) }`. -/
def stageIf (trigger : String) (stage : Str → Option Str) (data : Str) : Option Str :=
  if Contains data (utf8 trigger) then stage data else some data

/-- The first `if` at the end of `eval`: a 4-byte text that starts with `#`. -/
def expandShort3 (data : Str) : Str :=
  if HasPrefix data (utf8 "#") && data.length == 4 then
    utf8 "#" ++ slice data 1 2 ++ slice data 1 2 ++ slice data 2 3 ++ slice data 2 3
      ++ data.drop 3 ++ data.drop 3
  else data

/-- The second `if` at the end of `eval`: a 5-byte text that starts with `#`. -/
def expandShort4 (data : Str) : Str :=
  if HasPrefix data (utf8 "#") && data.length == 5 then
    utf8 "#" ++ slice data 1 2 ++ slice data 1 2 ++ slice data 2 3 ++ slice data 2 3
      ++ slice data 3 4 ++ slice data 3 4 ++ data.drop 4 ++ data.drop 4
  else data

/-- The method `Theme.eval`; `none` is a panic. -/
def Theme.eval (lib : ColorLib) (t : Theme) (data : Str) : Option Str :=
  (stageIf "var(" (fun d => replaceVariables d t) data).bind fun data =>
  (stageIf "color(" (convertColorToHex lib) data).bind fun data =>
  (stageIf "rgb(" (convertRGBToHex lib) data).bind fun data =>
  (stageIf "rgba(" (convertRGBAToHex lib) data).bind fun data =>
  (stageIf "hsl(" (convertHSLToHex lib) data).bind fun data =>
  (stageIf "hsla(" (convertHSLAToHex lib) data).bind fun data =>
  some (expandShort4 (expandShort3 data))

/-- The method `Map.Get`; a key that is missing reads as the empty string. -/
def Map.Get (lib : ColorLib) (t : Theme) (m : Map) (key : Str) : Option Str :=
  t.eval lib ((m.Data key).getD [])

/-- The method `Rule.GetFontStyle`. -/
def Rule.GetFontStyle (lib : ColorLib) (t : Theme) (r : Rule) : Option Str :=
  t.eval lib r.FontStyle

/-- The method `Rule.GetForeground`. -/
def Rule.GetForeground (lib : ColorLib) (t : Theme) (r : Rule) : Option Str :=
  t.eval lib r.Foreground

/-- The method `Rule.GetBackground`. -/
def Rule.GetBackground (lib : ColorLib) (t : Theme) (r : Rule) : Option Str :=
  t.eval lib r.Background

/-- The method `Rule.GetSelectionForeground`. -/
def Rule.GetSelectionForeground (lib : ColorLib) (t : Theme) (r : Rule) : Option Str :=
  t.eval lib r.SelectionForeground

/-! ## theme.go: decoding `globals`

`Map.UnmarshalJSON` reads the tokens of `json.Decoder.Token`: for an object these
are the delimiter `{`, then each member's key as a string token followed by the
tokens of its value, then `}`. -/

/-- A value of type `json.Token`. -/
inductive Token where
  | delim (d : Nat)
  | bool (b : Bool)
  | number (text : Str)
  | string (s : Str)
  | null

/-- What the successive calls of `d.Token()` return: the tokens, then `io.EOF`
when `fail` is false and another error when it is true. -/
structure Decoder where
  tokens : List Token
  fail : Bool

/-- The map `m` with `m[key] = value` added. -/
def mapInsert (m : Str → Option Str) (key value : Str) : Str → Option Str :=
  fun k => if k = key then some value else m k

/-- The `for` loop of `Map.UnmarshalJSON`: `key` is the local variable of the
source, the result is the map and whether an error is returned. -/
def unmarshalLoop : List Token → Bool → Str → Map → Map × Bool
  | [], fail, _, m => (m, fail)
  | Token.string value :: ts, fail, key, m =>
    if key = [] then unmarshalLoop ts fail value m
    else unmarshalLoop ts fail [] { Keys := m.Keys ++ [key], Data := mapInsert m.Data key value }
  | _ :: ts, fail, key, m => unmarshalLoop ts fail key m

/-- The method `Map.UnmarshalJSON` on the receiver `m`: `Data` is made anew, `Keys`
is appended to. -/
def Map.UnmarshalJSON (m : Map) (d : Decoder) : Map × Bool :=
  unmarshalLoop d.tokens d.fail [] { Keys := m.Keys, Data := fun _ => none }

/-- The zero value of `Map`, as in the `&Theme{}` that `Read` decodes into. -/
def Map.zero : Map := { Keys := [], Data := fun _ => none }

/-- The tokens of a JSON object whose members are strings, in document order. -/
def objectTokens (members : List (Str × Str)) : Decoder :=
  { tokens := Token.delim 123 ::
      (members.flatMap fun kv => [Token.string kv.1, Token.string kv.2]) ++ [Token.delim 125]
    fail := false }

/-! ## converter.go -/

/-- The call `fmt.Fprintln(buf, line)`. -/
def Fprintln (buf : Str) (line : String) : Str :=
  buf ++ utf8 line ++ utf8 "\n"

/-- The function `writeHeader`. -/
def writeHeader (buf : Str) : Str :=
  let buf := Fprintln buf "<?xml version=\"1.0\" encoding=\"UTF-8\"?>"
  let buf := Fprintln buf "<!DOCTYPE plist PUBLIC \"-//Apple Computer//DTD PLIST 1.0//EN\" \"http://www.apple.com/DTDs/PropertyList-1.0.dtd\">"
  let buf := Fprintln buf ""
  let buf := Fprintln buf "<!--"
  let buf := Fprintln buf "  This theme converted from sublime-color-scheme by detheme (https://kaos.sh/detheme)"
  let buf := Fprintln buf "-->"
  let buf := Fprintln buf ""
  let buf := Fprintln buf "<plist version=\"1.0\">"
  Fprintln buf "  <dict>"

/-- The function `writeFooter`. -/
def writeFooter (buf : Str) : Str :=
  let buf := Fprintln buf "  </dict>"
  Fprintln buf "</plist>"

/-- The function `writeNode`: a key line and a string line, both escaped. -/
def writeNode (buf : Str) (indent : Nat) (key value : Str) : Str :=
  let spaces := (List.replicate indent (utf8 "  ")).flatten
  let key := escape key
  let value := escape value
  let buf := buf ++ (spaces ++ utf8 "<key>" ++ key ++ utf8 "</key>\n")
  buf ++ (spaces ++ utf8 "<string>" ++ value ++ utf8 "</string>\n")

/-- The function `writeBasicInfo`; `uuid` is the text of the random `uuid.UUID4()`. -/
def writeBasicInfo (buf : Str) (t : Theme) (uuid : Str) : Str :=
  let buf := writeNode buf 2 (utf8 "name") t.Name
  let buf := if t.Author ≠ [] then writeNode buf 2 (utf8 "author") t.Author else buf
  let buf := writeNode buf 2 (utf8 "colorSpaceName") (utf8 "sRGB")
  writeNode buf 2 (utf8 "uuid") uuid

/-- One `if field != "" { writeNode(buf, 5, key, getter()) }` of `writeRule`. -/
def writeField (buf : Str) (key : String) (field : Str) (getter : Option Str) : Option Str :=
  if field ≠ [] then getter.map fun value => writeNode buf 5 (utf8 key) value
  else some buf

/-- The function `writeRule`. -/
def writeRule (lib : ColorLib) (buf : Str) (t : Theme) (r : Rule) : Option Str :=
  let buf := Fprintln buf "      <dict>"
  let buf := writeNode buf 4 (utf8 "name") r.Name
  let buf := writeNode buf 4 (utf8 "scope") r.Scope
  let buf := Fprintln buf "        <key>settings</key>"
  let buf := Fprintln buf "        <dict>"
  (writeField buf "fontStyle" r.FontStyle (r.GetFontStyle lib t)).bind fun buf =>
  (writeField buf "foreground" r.Foreground (r.GetForeground lib t)).bind fun buf =>
  (writeField buf "background" r.Background (r.GetBackground lib t)).bind fun buf =>
  (writeField buf "selectionForeground" r.SelectionForeground
    (r.GetSelectionForeground lib t)).bind fun buf =>
  let buf := Fprintln buf "        </dict>"
  some (Fprintln buf "      </dict>")

/-- The loop `for _, key := range t.Globals.Keys` of `writeBody`. -/
def writeGlobals (lib : ColorLib) (t : Theme) : Str → List Str → Option Str
  | buf, [] => some buf
  | buf, key :: keys =>
    match t.Globals.Get lib t key with
    | some value => writeGlobals lib t (writeNode buf 5 key value) keys
    | none => none

/-- The loop `for _, rule := range t.Rules` of `writeBody`. -/
def writeRules (lib : ColorLib) (t : Theme) : Str → List Rule → Option Str
  | buf, [] => some buf
  | buf, rule :: rules =>
    match writeRule lib buf t rule with
    | some buf => writeRules lib t buf rules
    | none => none

/-- The function `writeBody`. -/
def writeBody (lib : ColorLib) (buf : Str) (t : Theme) : Option Str :=
  let buf := Fprintln buf "    <key>settings</key>"
  let buf := Fprintln buf "    <array>"
  let buf := Fprintln buf "      <dict>"
  let buf := Fprintln buf "        <key>settings</key>"
  let buf := Fprintln buf "        <dict>"
  (writeGlobals lib t buf t.Globals.Keys).bind fun buf =>
  let buf := Fprintln buf "        </dict>"
  let buf := Fprintln buf "      </dict>"
  (writeRules lib t buf t.Rules).bind fun buf =>
  some (Fprintln buf "    </array>")

/-- The function `Convert`: the bytes written, `none` when a getter panics. -/
def Convert (lib : ColorLib) (t : Theme) (uuid : Str) : Option Str :=
  let buf := writeHeader []
  let buf := writeBasicInfo buf t uuid
  (writeBody lib buf t).bind fun buf =>
  some (writeFooter buf)

/-! ## A colour package after the specification

The specification fixes what the colour notations mean: lower-case `#rrggbb` or
`#rrggbbaa`, an alpha factor between 0 and 1 scaled to a byte and rounded (0.5
gives `0x80`), hue in degrees, saturation and lightness in percent.  Numbers are
exact fractions. -/

/-- A fraction `num / den`; a zero denominator reads as the value 0. -/
structure Frac where
  num : Int
  den : Nat

/-- Sum of two fractions. -/
def Frac.add (a b : Frac) : Frac := ⟨a.num * b.den + b.num * a.den, a.den * b.den⟩

/-- Difference of two fractions. -/
def Frac.sub (a b : Frac) : Frac := ⟨a.num * b.den - b.num * a.den, a.den * b.den⟩

/-- Product of two fractions. -/
def Frac.mul (a b : Frac) : Frac := ⟨a.num * b.num, a.den * b.den⟩

/-- Absolute value of a fraction. -/
def Frac.abs (a : Frac) : Frac := ⟨a.num.natAbs, a.den⟩

/-- A whole number as a fraction. -/
def Frac.ofInt (i : Int) : Frac := ⟨i, 1⟩

/-- The largest integer below or equal to a fraction. -/
def Frac.floor (a : Frac) : Int := a.num / (a.den : Int)

/-- A fraction of 1 scaled to 0..255, rounded half up and clamped to a byte. -/
def Frac.toByte (a : Frac) : Nat :=
  min 255 (Frac.floor ((a.mul (Frac.ofInt 255)).add ⟨1, 2⟩)).toNat

/-- The decimal number written by digits with at most one dot; any other text
is the value 0, as the value of a failed `ParseFloat` is. -/
def parseDecimalFrac (s : Str) : Frac :=
  let whole := s.takeWhile isDigit
  match s.dropWhile isDigit with
  | [] => ⟨((decimalValue whole).getD 0 : Nat), 1⟩
  | c :: frac =>
    if c = 46 ∧ frac.all isDigit ∧ whole ++ frac ≠ [] then
      ⟨((decimalValue (whole ++ frac)).getD 0 : Nat), 10 ^ frac.length⟩
    else ⟨0, 1⟩

/-- One lower-case hexadecimal digit. -/
def hexDigit (n : Nat) : Nat := if n < 10 then 48 + n else 87 + n

/-- A byte as two lower-case hexadecimal digits. -/
def hex2 (n : Nat) : Str := [hexDigit (n / 16 % 16), hexDigit (n % 16)]

/-- The value of one hexadecimal digit. -/
def hexValue (b : Nat) : Nat :=
  if isDigit b then b - 48 else if 97 ≤ b then b - 87 else b - 55

/-- The colour `#rrggbb`. -/
def webRGB (r g b : Nat) : Str := utf8 "#" ++ hex2 r ++ hex2 g ++ hex2 b

/-- The colour `#rrggbbaa`, the alpha factor scaled to a byte. -/
def webRGBA (r g b : Nat) (a : Frac) : Str := webRGB r g b ++ hex2 a.toByte

/-- The red, green and blue bytes of `#` followed by 3, 4, 6 or 8 hexadecimal
digits; another text is malformed (the flag is true). -/
def parseHexColor (s : Str) : (Nat × Nat × Nat) × Bool :=
  match s with
  | 35 :: ds =>
    if ds.all isHexDigit then
      match ds.map hexValue with
      | [r, g, b] => ((17 * r, 17 * g, 17 * b), false)
      | [r, g, b, _] => ((17 * r, 17 * g, 17 * b), false)
      | [r1, r0, g1, g0, b1, b0] => ((16 * r1 + r0, 16 * g1 + g0, 16 * b1 + b0), false)
      | [r1, r0, g1, g0, b1, b0, _, _] => ((16 * r1 + r0, 16 * g1 + g0, 16 * b1 + b0), false)
      | _ => ((0, 0, 0), true)
    else ((0, 0, 0), true)
  | _ => ((0, 0, 0), true)

/-- Hue in degrees, saturation and lightness in percent, to red, green and blue bytes. -/
def hslToRGB (h s l : Frac) : Nat × Nat × Nat :=
  let one := Frac.ofInt 1
  let s1 := s.mul ⟨1, 100⟩
  let l1 := l.mul ⟨1, 100⟩
  let c := (one.sub ((l1.mul (Frac.ofInt 2)).sub one).abs).mul s1
  let h1 := h.mul ⟨1, 60⟩
  let hmod := h1.sub (Frac.ofInt (2 * (h1.mul ⟨1, 2⟩).floor))
  let x := c.mul (one.sub (hmod.sub one).abs)
  let m := l1.sub (c.mul ⟨1, 2⟩)
  let zero := Frac.ofInt 0
  let rgb : Frac × Frac × Frac :=
    match (h1.floor % 6).toNat with
    | 0 => (c, x, zero)
    | 1 => (x, c, zero)
    | 2 => (zero, c, x)
    | 3 => (zero, x, c)
    | 4 => (x, zero, c)
    | _ => (c, zero, x)
  ((rgb.1.add m).toByte, (rgb.2.1.add m).toByte, (rgb.2.2.add m).toByte)

/-- Modelled from the spec: the colour package `ek/v12/color` and
`strconv.ParseFloat`, which theme.go calls and which are not part of the
sources.  Colours are written as lower-case web hex, with an alpha byte only when
the notation carries an alpha factor. -/
def specColor : ColorLib where
  F64 := Frac
  Hex := Nat × Nat × Nat
  ParseFloat := parseDecimalFrac
  Parse := parseHexColor
  hexAlphaWeb := fun c a => webRGBA c.1 c.2.1 c.2.2 a
  rgbWeb := webRGB
  rgbaWeb := webRGBA
  hslWeb := fun h s l =>
    let c := hslToRGB h s l
    webRGB c.1 c.2.1 c.2.2
  hslaWeb := fun h s l a =>
    let c := hslToRGB h s l
    webRGBA c.1 c.2.1 c.2.2 a

/-! ## Auxiliary definitions for the statements -/

/-- The item of a literal closing parenthesis. -/
def closeParen : Item := Item.cls (fun b => b == 41) 1 (some 1)

/-- The stages of `eval` after variable expansion. -/
def evalColors (lib : ColorLib) (data : Str) : Option Str :=
  (stageIf "color(" (convertColorToHex lib) data).bind fun data =>
  (stageIf "rgb(" (convertRGBToHex lib) data).bind fun data =>
  (stageIf "rgba(" (convertRGBAToHex lib) data).bind fun data =>
  (stageIf "hsl(" (convertHSLToHex lib) data).bind fun data =>
  (stageIf "hsla(" (convertHSLAToHex lib) data).bind fun data =>
  some (expandShort4 (expandShort3 data))

/-- The decimal digits of `n` in front of `acc`, with `fuel` digits at most. -/
def decimalAux : Nat → Nat → Str → Str
  | 0, _, acc => acc
  | fuel + 1, n, acc =>
    if n < 10 then (48 + n) :: acc else decimalAux fuel (n / 10) ((48 + n % 10) :: acc)

/-- A natural number written in decimal, as in the notation `rgb(255, 0, 0)`. -/
def decimal (n : Nat) : Str := decimalAux (n + 1) n []

/-- A theme for the examples: the variable `X` has the value `#fff`, the global
settings are `b`, `a`, `c` in this order, and there is no rule. -/
def sampleTheme : Theme where
  Name := utf8 "Sample"
  Author := []
  Variables := fun k => if k = utf8 "X" then some (utf8 "#fff") else none
  Globals :=
    { Keys := [utf8 "b", utf8 "a", utf8 "c"]
      Data := fun k =>
        if k = utf8 "b" then some (utf8 "var(X)")
        else if k = utf8 "a" then some (utf8 "#abc")
        else if k = utf8 "c" then some (utf8 "<&>")
        else none }
  Rules := []

/-- The map after the members of an object have been recorded one after the other. -/
def recordAll (m : Map) : List (Str × Str) → Map
  | [] => m
  | kv :: members =>
    recordAll { Keys := m.Keys ++ [kv.1], Data := mapInsert m.Data kv.1 kv.2 } members

/-- What one guarded field of `writeRule` adds to the settings dict of a rule:
nothing when the raw field is empty, otherwise the key line and the string line of
the evaluated field. -/
def FieldWritten (lib : ColorLib) (t : Theme) (key : String) (raw text : Str) : Prop :=
  (raw = [] ∧ text = []) ∨
  (raw ≠ [] ∧ ∃ value, t.eval lib raw = some value ∧
    text = utf8 "          <key>" ++ escape (utf8 key) ++ utf8 "</key>\n"
      ++ utf8 "          <string>" ++ escape value ++ utf8 "</string>\n")

/-- The dict of one rule: the `name` and `scope` nodes, then the settings dict with
the fields `fontStyle`, `foreground`, `background`, `selectionForeground` in this
order, each as `FieldWritten` says. -/
def RuleDict (lib : ColorLib) (t : Theme) (r : Rule) (dict : Str) : Prop :=
  ∃ f1 f2 f3 f4 : Str,
    FieldWritten lib t "fontStyle" r.FontStyle f1
    ∧ FieldWritten lib t "foreground" r.Foreground f2
    ∧ FieldWritten lib t "background" r.Background f3
    ∧ FieldWritten lib t "selectionForeground" r.SelectionForeground f4
    ∧ dict = utf8 "      <dict>\n"
        ++ utf8 "        <key>name</key>\n        <string>" ++ escape r.Name ++ utf8 "</string>\n"
        ++ utf8 "        <key>scope</key>\n        <string>" ++ escape r.Scope ++ utf8 "</string>\n"
        ++ utf8 "        <key>settings</key>\n        <dict>\n"
        ++ f1 ++ f2 ++ f3 ++ f4
        ++ utf8 "        </dict>\n      </dict>\n"

/-- A theme for the examples with an author and two rules; the second rule has no
name, and each rule leaves two of the four settings empty. -/
def ruledTheme : Theme where
  Name := utf8 "Ruled"
  Author := utf8 "A & B"
  Variables := fun k => if k = utf8 "X" then some (utf8 "#fff") else none
  Globals := Map.zero
  Rules :=
    [ { Name := utf8 "Comment", Scope := utf8 "comment", FontStyle := utf8 "italic",
        Foreground := utf8 "var(X)", Background := [], SelectionForeground := [] },
      { Name := [], Scope := utf8 "string", FontStyle := [], Foreground := [],
        Background := utf8 "#abc", SelectionForeground := utf8 "hsl(0, 100%, 50%)" } ]

/-- The number of passes of the loop of `replaceVariables` that find a reference and
replace it, with `n` passes left: the loop of `replaceVariablesLoop`, counting. -/
def replaceVariablesPasses (t : Theme) : Nat → Str → Nat
  | 0, _ => 0
  | n + 1, data =>
    if !MatchString varRegex data then 0
    else
      let foundVar := FindStringSubmatch varRegex data
      match foundVar[1]?, foundVar[0]? with
      | some name, some whole =>
        let varValue :=
          match t.Variables name with
          | some v => v
          | none => utf8 "[UNKNOWN-VAR:" ++ name ++ utf8 "]"
        replaceVariablesPasses t n (ReplaceAll data whole varValue) + 1
      | _, _ => 0

/-- A theme for the examples in which every variable is defined as a reference to
itself: `Variables[X] = "var(X)"` for every name `X`. -/
def cyclicTheme : Theme where
  Name := utf8 "Cyclic"
  Author := []
  Variables := fun k => some (utf8 "var(" ++ k ++ utf8 ")")
  Globals := Map.zero
  Rules := []

/-- The number a text of decimal digits stands for, read from the left after `a`. -/
def digitsValue (a : Nat) (s : Str) : Nat :=
  s.foldl (fun v c => v * 10 + (c - 48)) a

/-- Whether a text made of digits and dots is a floating-point literal for Go
`strconv.ParseFloat`: it has at most one dot and at least one digit (`1.`, `.5` and
`12` are literals, `.` and `1.2.3` are syntax errors).  Signs, exponents, hexadecimal
forms, underscores, `inf` and `nan` do not occur in such a text. -/
def isDecimalLiteral (s : Str) : Bool :=
  s.all isDigitOrDot && decide ((s.filter fun c => c == 46).length ≤ 1) && s.any isDigit

/-- What a complete tag `<content>` does to the open elements: a declaration
`<?...>` or `<!...>` changes nothing, `</name>` closes the innermost element, which
must be `name`, and any other tag opens the element named by the text before the
first space. -/
def applyTag (stack : List Str) (content : Str) : Option (List Str) :=
  match content with
  | 63 :: _ => some stack
  | 33 :: _ => some stack
  | 47 :: name =>
    match stack with
    | top :: rest => if top == name then some rest else none
    | [] => none
  | _ => some (content.takeWhile (fun c => c != 32) :: stack)

/-- The scan of a text for tags.  `stack` holds the names of the open elements,
innermost first, and `tag` the bytes read since a `<` whose `>` has not come yet.
The scan fails on a `<` inside a tag, on a `>` outside a tag and on a closing tag
that does not close the innermost element. -/
def scanTags : List Str → Option Str → Str → Option (List Str × Option Str)
  | stack, tag, [] => some (stack, tag)
  | stack, none, c :: s =>
    if c = 60 then scanTags stack (some []) s
    else if c = 62 then none
    else scanTags stack none s
  | stack, some content, c :: s =>
    if c = 62 then
      match applyTag stack content with
      | some stack2 => scanTags stack2 none s
      | none => none
    else if c = 60 then none
    else scanTags stack (some (content ++ [c])) s

/-- A text has balanced, properly nested tags: the scan ends outside a tag with no
element left open. -/
def tagsBalanced (text : Str) : Bool :=
  scanTags [] none text == some ([], none)

/-- A text that leaves the open elements as they are, wherever it stands. -/
def Balanced (x : Str) : Prop :=
  ∀ (stack : List Str) (rest : Str), scanTags stack none (x ++ rest) = scanTags stack none rest

/-- A text that opens the element `name`. -/
def Opens (x : Str) (name : Str) : Prop :=
  ∀ (stack : List Str) (rest : Str),
    scanTags stack none (x ++ rest) = scanTags (name :: stack) none rest

/-- A text that closes the element `name`. -/
def Closes (x : Str) (name : Str) : Prop :=
  ∀ (stack : List Str) (rest : Str),
    scanTags (name :: stack) none (x ++ rest) = scanTags stack none rest

/-- A theme for the examples whose name, author, keys, values and rule fields hold
the characters `<`, `>`, `&` and quotes. -/
def markupTheme : Theme where
  Name := utf8 "<a> & \"b\" 'c'"
  Author := utf8 "</dict>"
  Variables := fun _ => none
  Globals :=
    { Keys := [utf8 "<key>", utf8 "a>b"]
      Data := fun k =>
        if k = utf8 "<key>" then some (utf8 "</string>")
        else if k = utf8 "a>b" then some (utf8 "var(<x>)")
        else none }
  Rules :=
    [ { Name := utf8 "</plist>", Scope := utf8 "<!--", FontStyle := utf8 "<b>",
        Foreground := utf8 "#abc", Background := [], SelectionForeground := utf8 "-->" } ]

/-- The text of references to the given names, one after the other:
`var(N1)var(N2)...`. -/
def refs (names : List Str) : Str :=
  names.flatMap fun name => utf8 "var(" ++ name ++ utf8 ")"

/-- The value a pass of `replaceVariables` puts in the place of `var(NAME)`. -/
def varValue (t : Theme) (name : Str) : Str :=
  match t.Variables name with
  | some v => v
  | none => utf8 "[UNKNOWN-VAR:" ++ name ++ utf8 "]"

/-- The 17 names `a` to `q`. -/
def seventeenNames : List Str :=
  [utf8 "a", utf8 "b", utf8 "c", utf8 "d", utf8 "e", utf8 "f", utf8 "g", utf8 "h", utf8 "i",
    utf8 "j", utf8 "k", utf8 "l", utf8 "m", utf8 "n", utf8 "o", utf8 "p", utf8 "q"]

/-- A theme for the examples that defines the 17 variables `a` to `q`, each with the
value `#fff`. -/
def seventeenTheme : Theme where
  Name := utf8 "Seventeen"
  Author := []
  Variables := fun k => if k ∈ seventeenNames then some (utf8 "#fff") else none
  Globals := Map.zero
  Rules := []

/-- A theme for the examples that defines the 17 variables `a` to `q`; no value holds
`var(`, but the values `va` of `a` and `r(` of `b` put together read `var(`. -/
def splitTheme : Theme where
  Name := utf8 "Split"
  Author := []
  Variables := fun k =>
    if k = utf8 "a" then some (utf8 "va")
    else if k = utf8 "b" then some (utf8 "r(")
    else if k ∈ seventeenNames then some (utf8 "x")
    else none
  Globals := Map.zero
  Rules := []

/-- A text that is empty or starts with `var(`. -/
def StartsRef (r : Str) : Prop :=
  r = [] ∨ ∃ rest, r = utf8 "var(" ++ rest

/-- The 17 names of `seventeenNames` with `var(a` in the place of `b`. -/
def nestedNames : List Str :=
  [utf8 "a", utf8 "var(a", utf8 "c", utf8 "d", utf8 "e", utf8 "f", utf8 "g", utf8 "h",
    utf8 "i", utf8 "j", utf8 "k", utf8 "l", utf8 "m", utf8 "n", utf8 "o", utf8 "p", utf8 "q"]

/-- A theme for the examples that defines the 17 variables of `nestedNames`, each
with the value `x`. -/
def nestedTheme : Theme where
  Name := utf8 "Nested"
  Author := []
  Variables := fun k => if k ∈ nestedNames then some (utf8 "x") else none
  Globals := Map.zero
  Rules := []

/-! ## Lemmas: strings -/

theorem hasPrefix_iff (p : Str) : ∀ s : Str, HasPrefix s p = true ↔ ∃ t, s = p ++ t := by
  induction p with
  | nil => intro s; cases s <;> simp [HasPrefix]
  | cons d p ih =>
    intro s
    cases s with
    | nil => simp [HasPrefix]
    | cons c s =>
      simp only [HasPrefix, Bool.and_eq_true, beq_iff_eq, ih, List.cons_append, List.cons.injEq]
      constructor
      · rintro ⟨rfl, t, rfl⟩; exact ⟨t, rfl, rfl⟩
      · rintro ⟨t, rfl, rfl⟩; exact ⟨rfl, t, rfl⟩

theorem hasPrefix_append (p t : Str) : HasPrefix (p ++ t) p = true :=
  (hasPrefix_iff p _).2 ⟨t, rfl⟩

theorem contains_of_hasPrefix {s sub : Str} (h : HasPrefix s sub = true) :
    Contains s sub = true := by
  cases s with
  | nil => simpa [Contains] using h
  | cons c s => simp [Contains, h]

theorem mem_of_hasPrefix {s sub : Str} (h : HasPrefix s sub = true) {c : Nat} (hc : c ∈ sub) :
    c ∈ s := by
  obtain ⟨t, rfl⟩ := (hasPrefix_iff sub s).1 h
  exact List.mem_append_left _ hc

theorem mem_of_contains {sub : Str} {c : Nat} (hc : c ∈ sub) :
    ∀ {s : Str}, Contains s sub = true → c ∈ s := by
  intro s
  induction s with
  | nil => intro h; exact mem_of_hasPrefix (by simpa [Contains] using h) hc
  | cons d s ih =>
    intro h
    simp only [Contains, Bool.or_eq_true] at h
    rcases h with h | h
    · exact mem_of_hasPrefix h hc
    · exact List.mem_cons_of_mem _ (ih h)

theorem contains_eq_false {s sub : Str} {c : Nat} (hc : c ∈ sub) (hs : c ∉ s) :
    Contains s sub = false := by
  cases h : Contains s sub with
  | false => rfl
  | true => exact absurd (mem_of_contains hc h) hs

theorem replaceScan_skip (old new : Str) (rest : Str) :
    ∀ xs : Str, replaceScan old new xs.length (xs ++ rest) = replaceScan old new 0 rest := by
  intro xs
  induction xs with
  | nil => simp
  | cons x xs ih => simpa [replaceScan] using ih

theorem replaceAll_self (old new : Str) (h : old ≠ []) : ReplaceAll old old new = new := by
  cases old with
  | nil => exact absurd rfl h
  | cons c cs =>
    have hp : HasPrefix (c :: cs) (c :: cs) = true := by
      simpa using hasPrefix_append (c :: cs) []
    have hs := replaceScan_skip (c :: cs) new [] cs
    simp only [List.append_nil] at hs
    simp [ReplaceAll, replaceScan, hp, hs]

/-! ## Lemmas: the matcher -/

theorem tryDown_none {R : Type} (k : Str → Str → Option R) (s : Str) (lo : Nat)
    (h : ∀ j, k (s.take j) (s.drop j) = none) : ∀ n, tryDown k s lo n = none := by
  intro n
  induction n with
  | zero =>
    have h0 := h 0
    simp only [List.take_zero, List.drop_zero] at h0
    simp [tryDown, h0]
  | succ n ih => simp [tryDown, h (n + 1), ih]

theorem tryDown_first {R : Type} (k : Str → Str → Option R) (s : Str) {lo n : Nat} {r : R}
    (hlo : lo ≤ n) (hk : k (s.take n) (s.drop n) = some r) : tryDown k s lo n = some r := by
  cases n with
  | zero =>
    have h0 : lo = 0 := Nat.le_zero.1 hlo
    simpa [tryDown, h0] using hk
  | succ n =>
    have hn : ¬ (n + 1 < lo) := Nat.not_lt.2 hlo
    simp [tryDown, hn, hk]

theorem tryDown_one {R : Type} (k : Str → Str → Option R) (s : Str) :
    tryDown k s 1 1 = k (s.take 1) (s.drop 1) := by
  cases h : k (s.take 1) (s.drop 1) <;> simp_all [tryDown]

theorem runLen_eq_zero (p : Nat → Bool) (hi : Option Nat) (s : Str)
    (h : ∀ b ∈ s, p b = false) : runLen p hi s = 0 := by
  cases s with
  | nil => cases hi with
    | none => simp [runLen]
    | some n => cases n <;> simp [runLen]
  | cons c s =>
    have hc : p c = false := h c (List.mem_cons_self _ _)
    cases hi with
    | none => simp [runLen, hc]
    | some n => cases n <;> simp [runLen, hc]

theorem runLen_append (p : Nat → Bool) (rest : Str) (hstop : ∀ c ∈ rest.head?, p c = false) :
    ∀ run : Str, (∀ b ∈ run, p b = true) → runLen p none (run ++ rest) = run.length := by
  intro run
  induction run with
  | nil =>
    intro _
    cases rest with
    | nil => simp [runLen]
    | cons c rest =>
      have hc : p c = false := hstop c (by simp)
      simp [runLen, hc]
  | cons b run ih =>
    intro h
    have hb : p b = true := h b (List.mem_cons_self _ _)
    have := ih fun x hx => h x (List.mem_cons_of_mem _ hx)
    simp [runLen, hb, this]

theorem matchItems_none_of_absent (p : Nat → Bool) (lo : Nat) (hi : Option Nat) (hlo : 0 < lo) :
    ∀ (re : List Item), Item.cls p lo hi ∈ re → ∀ (s whole : Str) (opens caps : List Str),
      (∀ b ∈ s, p b = false) → matchItems re s whole opens caps = none := by
  intro re
  induction re with
  | nil => intro h; cases h
  | cons it re ih =>
    intro hmem s whole opens caps hs
    cases it with
    | gopen =>
      have hm : Item.cls p lo hi ∈ re := by
        rcases List.mem_cons.1 hmem with h | h
        · cases h
        · exact h
      simpa [matchItems] using ih hm s whole ([] :: opens) caps hs
    | gclose =>
      have hm : Item.cls p lo hi ∈ re := by
        rcases List.mem_cons.1 hmem with h | h
        · cases h
        · exact h
      cases opens with
      | nil => simp [matchItems]
      | cons o os => simpa [matchItems] using ih hm s whole os (o :: caps) hs
    | cls q lo2 hi2 =>
      rcases List.mem_cons.1 hmem with h | h
      · cases h
        have hz : lo ≠ 0 := Nat.pos_iff_ne_zero.1 hlo
        simp [matchItems, runLen_eq_zero p hi s hs, tryDown, hz]
      · simp only [matchItems]
        apply tryDown_none
        intro j
        exact ih h _ _ _ _ fun b hb => hs b (List.mem_of_mem_drop hb)

theorem findMatch_none_of_absent (p : Nat → Bool) (lo : Nat) (hi : Option Nat) (hlo : 0 < lo)
    (re : List Item) (hre : Item.cls p lo hi ∈ re) :
    ∀ s : Str, (∀ b ∈ s, p b = false) → findMatch re s = none := by
  intro s
  induction s with
  | nil => intro hs; exact matchItems_none_of_absent p lo hi hlo re hre [] [] [] [] hs
  | cons c s ih =>
    intro hs
    have h1 := matchItems_none_of_absent p lo hi hlo re hre (c :: s) [] [] [] hs
    have h2 := ih fun b hb => hs b (List.mem_cons_of_mem _ hb)
    simp [findMatch, h1, h2]

theorem findMatch_of_matchItems {re : List Item} {s : Str} {m : Str × List Str}
    (h : matchItems re s [] [] [] = some m) : findMatch re s = some m := by
  cases s with
  | nil => simpa [findMatch] using h
  | cons c s => simp [findMatch, h]

theorem matchItems_litBytes (r : List Item) (s : Str) (caps : List Str) :
    ∀ (cs whole : Str) (opens : List Str),
      matchItems (cs.map (fun c => Item.cls (fun b => b == c) 1 (some 1)) ++ r) (cs ++ s)
          whole opens caps
        = matchItems r s (whole ++ cs) (opens.map fun o => o ++ cs) caps := by
  intro cs
  induction cs with
  | nil => intro whole opens; simp
  | cons c cs ih =>
    intro whole opens
    simp only [List.map_cons, List.cons_append, matchItems]
    have hr : runLen (fun b => b == c) (some 1) (c :: (cs ++ s)) = 1 := by
      simp [runLen]
    rw [hr, tryDown_one]
    simp only [List.take_succ_cons, List.take_zero, List.drop_succ_cons, List.drop_zero,
      List.append_eq]
    rw [ih]
    have hf : ((fun o : Str => o ++ cs) ∘ fun o => o ++ [c]) = fun o => o ++ c :: cs := by
      funext o; simp
    simp [List.append_assoc, hf]

theorem matchItems_lit (str : String) (r : List Item) (s whole : Str) (opens caps : List Str) :
    matchItems (lit str ++ r) (utf8 str ++ s) whole opens caps
      = matchItems r s (whole ++ utf8 str) (opens.map fun o => o ++ utf8 str) caps :=
  matchItems_litBytes r s caps (utf8 str) whole opens

theorem matchItems_cls (p : Nat → Bool) (lo : Nat) (r : List Item) (run rest whole : Str)
    (opens caps : List Str) (hrun : ∀ b ∈ run, p b = true)
    (hstop : ∀ c ∈ rest.head?, p c = false) (hlo : lo ≤ run.length) {res : Str × List Str}
    (hk : matchItems r rest (whole ++ run) (opens.map fun o => o ++ run) caps = some res) :
    matchItems (Item.cls p lo none :: r) (run ++ rest) whole opens caps = some res := by
  simp only [matchItems, runLen_append p rest hstop run hrun]
  apply tryDown_first _ _ hlo
  simpa using hk

theorem matchItems_gopen (r : List Item) (s whole : Str) (opens caps : List Str) :
    matchItems (Item.gopen :: r) s whole opens caps = matchItems r s whole ([] :: opens) caps := by
  simp [matchItems]

theorem matchItems_gclose (r : List Item) (s whole o : Str) (opens caps : List Str) :
    matchItems (Item.gclose :: r) s whole (o :: opens) caps
      = matchItems r s whole opens (o :: caps) := by
  simp [matchItems]

theorem matchItems_nil (s whole : Str) (opens caps : List Str) :
    matchItems [] s whole opens caps = some (whole, caps.reverse) := by
  simp [matchItems]

theorem closeParen_mem_varRegex : closeParen ∈ varRegex :=
  List.mem_append_right _ (List.mem_singleton.2 rfl)

theorem closeParen_mem_colorRegex : closeParen ∈ colorRegex :=
  List.mem_append_right _ (List.mem_cons_self _ _)

theorem closeParen_mem_rgbRegex : closeParen ∈ rgbRegex :=
  List.mem_append_right _ (List.mem_singleton.2 rfl)

theorem closeParen_mem_rgbaRegex : closeParen ∈ rgbaRegex :=
  List.mem_append_right _ (List.mem_singleton.2 rfl)

theorem closeParen_mem_hslRegex : closeParen ∈ hslRegex :=
  List.mem_append_right _ (List.mem_cons_of_mem _ (List.mem_singleton.2 rfl))

theorem closeParen_mem_hslaRegex : closeParen ∈ hslaRegex :=
  List.mem_append_right _ (List.mem_singleton.2 rfl)

theorem matchString_eq_false_of_no_paren {re : List Item} (hre : closeParen ∈ re) {s : Str}
    (hs : 41 ∉ s) : MatchString re s = false := by
  have h := findMatch_none_of_absent (fun b => b == 41) 1 (some 1) Nat.one_pos re hre s
    (fun b hb => by
      have : b ≠ 41 := fun h => hs (h ▸ hb)
      simpa using this)
  simp [MatchString, h]

/-! ## Lemmas: a stage whose pattern does not match changes nothing -/

theorem replaceVariablesLoop_noMatch (t : Theme) (n : Nat) {data : Str}
    (h : MatchString varRegex data = false) : replaceVariablesLoop t n data = some data := by
  cases n <;> simp [replaceVariablesLoop, h]

theorem convertColorToHexLoop_noMatch (lib : ColorLib) (n : Nat) {data : Str}
    (h : MatchString colorRegex data = false) : convertColorToHexLoop lib n data = some data := by
  cases n <;> simp [convertColorToHexLoop, h]

theorem convertRGBToHexLoop_noMatch (lib : ColorLib) (n : Nat) {data : Str}
    (h : MatchString rgbRegex data = false) : convertRGBToHexLoop lib n data = some data := by
  cases n <;> simp [convertRGBToHexLoop, h]

theorem convertRGBAToHexLoop_noMatch (lib : ColorLib) (n : Nat) {data : Str}
    (h : MatchString rgbaRegex data = false) : convertRGBAToHexLoop lib n data = some data := by
  cases n <;> simp [convertRGBAToHexLoop, h]

theorem convertHSLToHexLoop_noMatch (lib : ColorLib) (n : Nat) {data : Str}
    (h : MatchString hslRegex data = false) : convertHSLToHexLoop lib n data = some data := by
  cases n <;> simp [convertHSLToHexLoop, h]

theorem convertHSLAToHexLoop_noMatch (lib : ColorLib) (n : Nat) {data : Str}
    (h : MatchString hslaRegex data = false) : convertHSLAToHexLoop lib n data = some data := by
  cases n <;> simp [convertHSLAToHexLoop, h]

theorem stageIf_noMatch (trigger : String) (stage : Str → Option Str) (data : Str)
    (h : stage data = some data) : stageIf trigger stage data = some data := by
  unfold stageIf
  split
  · exact h
  · rfl

theorem stageIf_skip (trigger : String) (stage : Str → Option Str) (data : Str)
    (h : Contains data (utf8 trigger) = false) : stageIf trigger stage data = some data := by
  simp [stageIf, h]

theorem eval_eq (lib : ColorLib) (t : Theme) (data : Str) :
    t.eval lib data
      = (stageIf "var(" (fun d => replaceVariables d t) data).bind (evalColors lib) := rfl

theorem evalColors_no_paren (lib : ColorLib) {data : Str} (h : 41 ∉ data) :
    evalColors lib data = some (expandShort4 (expandShort3 data)) := by
  have h1 := stageIf_noMatch "color(" (convertColorToHex lib) data
    (convertColorToHexLoop_noMatch lib 16 (matchString_eq_false_of_no_paren closeParen_mem_colorRegex h))
  have h2 := stageIf_noMatch "rgb(" (convertRGBToHex lib) data
    (convertRGBToHexLoop_noMatch lib 16 (matchString_eq_false_of_no_paren closeParen_mem_rgbRegex h))
  have h3 := stageIf_noMatch "rgba(" (convertRGBAToHex lib) data
    (convertRGBAToHexLoop_noMatch lib 16 (matchString_eq_false_of_no_paren closeParen_mem_rgbaRegex h))
  have h4 := stageIf_noMatch "hsl(" (convertHSLToHex lib) data
    (convertHSLToHexLoop_noMatch lib 16 (matchString_eq_false_of_no_paren closeParen_mem_hslRegex h))
  have h5 := stageIf_noMatch "hsla(" (convertHSLAToHex lib) data
    (convertHSLAToHexLoop_noMatch lib 16 (matchString_eq_false_of_no_paren closeParen_mem_hslaRegex h))
  simp [evalColors, h1, h2, h3, h4, h5]

/-! ## Lemmas: a reference `var(NAME)` at the start of the text -/

theorem findMatch_var (name rest : Str) (hne : name ≠ []) (hp : 41 ∉ name) :
    findMatch varRegex (utf8 "var(" ++ name ++ utf8 ")" ++ rest)
      = some (utf8 "var(" ++ name ++ utf8 ")", [name]) := by
  apply findMatch_of_matchItems
  have hre : varRegex = lit "var(" ++
      (Item.gopen :: Item.cls notParen 1 none :: Item.gclose :: (lit ")" ++ [])) := rfl
  have hs : utf8 "var(" ++ name ++ utf8 ")" ++ rest
      = utf8 "var(" ++ (name ++ (utf8 ")" ++ rest)) := by simp
  rw [hre, hs, matchItems_lit, matchItems_gopen]
  apply matchItems_cls
  · intro b hb
    have : b ≠ 41 := fun h => hp (h ▸ hb)
    simpa [notParen] using this
  · intro c hc
    have : c = 41 := by
      have h0 : (utf8 ")" ++ rest).head? = some 41 := rfl
      rw [h0] at hc
      exact (Option.mem_some_iff.1 hc).symm
    subst this
    rfl
  · exact Nat.succ_le_of_lt (List.length_pos.2 hne)
  · simp only [List.map_cons, List.map_nil, List.nil_append]
    rw [matchItems_gclose, matchItems_lit, matchItems_nil]
    simp

theorem replaceVariablesLoop_step (t : Theme) (n : Nat) {data whole name : Str}
    (h : findMatch varRegex data = some (whole, [name])) :
    replaceVariablesLoop t (n + 1) data
      = replaceVariablesLoop t n (ReplaceAll data whole
          (match t.Variables name with
            | some v => v
            | none => utf8 "[UNKNOWN-VAR:" ++ name ++ utf8 "]")) := by
  simp [replaceVariablesLoop, MatchString, FindStringSubmatch, h]

theorem contains_var_ref (name : Str) :
    Contains (utf8 "var(" ++ name ++ utf8 ")") (utf8 "var(") = true := by
  apply contains_of_hasPrefix
  rw [List.append_assoc]
  exact hasPrefix_append _ _

/-- The first stage of `eval` on a single reference: the text becomes the value
looked up, provided the value holds no further reference. -/
theorem stageVar_single (t : Theme) (name value : Str) (hne : name ≠ []) (hp : 41 ∉ name)
    (hv : (match t.Variables name with
            | some v => v
            | none => utf8 "[UNKNOWN-VAR:" ++ name ++ utf8 "]") = value)
    (hm : MatchString varRegex value = false) :
    stageIf "var(" (fun d => replaceVariables d t) (utf8 "var(" ++ name ++ utf8 ")")
      = some value := by
  have hf := findMatch_var name [] hne hp
  rw [List.append_nil] at hf
  have hnil : utf8 "var(" ++ name ++ utf8 ")" ≠ [] := by
    intro h
    have := congrArg List.length h
    simp [utf8, utf8EncodeNat] at this
  simp only [stageIf, contains_var_ref, if_true, replaceVariables]
  rw [replaceVariablesLoop_step t 15 hf, replaceAll_self _ _ hnil, hv]
  exact replaceVariablesLoop_noMatch t 15 hm

/-! ## Lemmas: texts without a trigger -/

theorem expandShort3_of_not {s : Str} (h : ¬ (HasPrefix s (utf8 "#") = true ∧ s.length = 4)) :
    expandShort3 s = s := by
  unfold expandShort3
  split
  · rename_i hc
    simp only [Bool.and_eq_true, beq_iff_eq] at hc
    exact absurd hc h
  · rfl

theorem expandShort4_of_not {s : Str} (h : ¬ (HasPrefix s (utf8 "#") = true ∧ s.length = 5)) :
    expandShort4 s = s := by
  unfold expandShort4
  split
  · rename_i hc
    simp only [Bool.and_eq_true, beq_iff_eq] at hc
    exact absurd hc h
  · rfl

theorem eval_of_no_trigger (lib : ColorLib) (t : Theme) (s : Str)
    (h1 : Contains s (utf8 "var(") = false) (h2 : Contains s (utf8 "color(") = false)
    (h3 : Contains s (utf8 "rgb(") = false) (h4 : Contains s (utf8 "rgba(") = false)
    (h5 : Contains s (utf8 "hsl(") = false) (h6 : Contains s (utf8 "hsla(") = false) :
    t.eval lib s = some (expandShort4 (expandShort3 s)) := by
  simp [Theme.eval, stageIf, h1, h2, h3, h4, h5, h6]

theorem eval_of_no_open_paren (lib : ColorLib) (t : Theme) (s : Str) (h : 40 ∉ s) :
    t.eval lib s = some (expandShort4 (expandShort3 s)) :=
  eval_of_no_trigger lib t s
    (contains_eq_false (c := 40) (by decide) h) (contains_eq_false (c := 40) (by decide) h)
    (contains_eq_false (c := 40) (by decide) h) (contains_eq_false (c := 40) (by decide) h)
    (contains_eq_false (c := 40) (by decide) h) (contains_eq_false (c := 40) (by decide) h)

theorem not_hexDigit_open_paren {d : Nat} (h : isHexDigit d = true) : d ≠ 40 := by
  intro hd
  subst hd
  simp [isHexDigit, isDigit] at h

/-! ## Lemmas: the notation `rgb(r, g, b)` -/

theorem not_space_of_digit {c : Nat} (h : isDigit c = true) : isSpace c = false := by
  simp only [isDigit, Bool.and_eq_true, decide_eq_true_eq] at h
  simp only [isSpace, beq_eq_false_iff_ne]
  omega

theorem head_stop_of_digits (g rest : Str) (hne : g ≠ []) (hg : ∀ c ∈ g, isDigit c = true) :
    ∀ c ∈ (g ++ rest).head?, isSpace c = false := by
  intro c hc
  cases g with
  | nil => exact absurd rfl hne
  | cons d g =>
    have : c = d := by simpa using hc.symm
    subst this
    exact not_space_of_digit (hg c (List.mem_cons_self _ _))

theorem findMatch_rgb (r g b : Str) (hr : r ≠ []) (hg : g ≠ []) (hb : b ≠ [])
    (hrd : ∀ c ∈ r, isDigit c = true) (hgd : ∀ c ∈ g, isDigit c = true)
    (hbd : ∀ c ∈ b, isDigit c = true) :
    findMatch rgbRegex (utf8 "rgb(" ++ r ++ utf8 ", " ++ g ++ utf8 ", " ++ b ++ utf8 ")")
      = some (utf8 "rgb(" ++ r ++ utf8 ", " ++ g ++ utf8 ", " ++ b ++ utf8 ")", []) := by
  apply findMatch_of_matchItems
  have hre : rgbRegex = lit "rgb(" ++ (Item.cls isDigit 1 none :: (lit "," ++
      (Item.cls isSpace 0 none :: Item.cls isDigit 1 none :: (lit "," ++
      (Item.cls isSpace 0 none :: Item.cls isDigit 1 none :: (lit ")" ++ [])))))) := rfl
  have hs : utf8 "rgb(" ++ r ++ utf8 ", " ++ g ++ utf8 ", " ++ b ++ utf8 ")"
      = utf8 "rgb(" ++ (r ++ (utf8 "," ++ (utf8 " " ++ (g ++ (utf8 "," ++ (utf8 " " ++
          (b ++ (utf8 ")" ++ [])))))))) := by
    have h2 : utf8 ", " = utf8 "," ++ utf8 " " := rfl
    simp [h2]
  have hsp : ∀ c ∈ utf8 " ", isSpace c = true := by decide
  rw [hre, hs, matchItems_lit]
  apply matchItems_cls _ _ _ _ _ _ _ _ hrd (by intro c hc; cases hc; rfl)
    (Nat.succ_le_of_lt (List.length_pos.2 hr))
  rw [matchItems_lit]
  apply matchItems_cls _ _ _ _ _ _ _ _ hsp (head_stop_of_digits g _ hg hgd) (Nat.zero_le _)
  apply matchItems_cls _ _ _ _ _ _ _ _ hgd (by intro c hc; cases hc; rfl)
    (Nat.succ_le_of_lt (List.length_pos.2 hg))
  rw [matchItems_lit]
  apply matchItems_cls _ _ _ _ _ _ _ _ hsp (head_stop_of_digits b _ hb hbd) (Nat.zero_le _)
  apply matchItems_cls _ _ _ _ _ _ _ _ hbd (by intro c hc; cases hc; rfl)
    (Nat.succ_le_of_lt (List.length_pos.2 hb))
  rw [matchItems_lit, matchItems_nil]
  have h2 : utf8 ", " = utf8 "," ++ utf8 " " := rfl
  simp [h2]

theorem convertRGBToHex_of_match (lib : ColorLib) {data whole : Str}
    (h : findMatch rgbRegex data = some (whole, [])) : convertRGBToHex lib data = none := by
  simp [convertRGBToHex, convertRGBToHexLoop, MatchString, FindStringSubmatch, h]

theorem eval_none_of_rgb_match (lib : ColorLib) (t : Theme) {data whole : Str}
    (h1 : Contains data (utf8 "var(") = false) (h2 : Contains data (utf8 "color(") = false)
    (h3 : Contains data (utf8 "rgb(") = true)
    (hm : findMatch rgbRegex data = some (whole, [])) : t.eval lib data = none := by
  simp [Theme.eval, stageIf, h1, h2, h3, convertRGBToHex_of_match lib hm]

theorem decimalAux_ne_nil : ∀ (fuel n : Nat) (acc : Str),
    (acc ≠ [] ∨ 0 < fuel) → decimalAux fuel n acc ≠ [] := by
  intro fuel
  induction fuel with
  | zero =>
    intro n acc h
    rcases h with h | h
    · simpa [decimalAux] using h
    · exact absurd h (Nat.lt_irrefl 0)
  | succ fuel ih =>
    intro n acc _
    unfold decimalAux
    split
    · simp
    · exact ih _ _ (Or.inl (by simp))

theorem decimalAux_digits : ∀ (fuel n : Nat) (acc : Str),
    (∀ c ∈ acc, isDigit c = true) → ∀ c ∈ decimalAux fuel n acc, isDigit c = true := by
  intro fuel
  induction fuel with
  | zero => intro n acc h; simpa [decimalAux] using h
  | succ fuel ih =>
    intro n acc h
    unfold decimalAux
    split
    · rename_i hn
      intro c hc
      rcases List.mem_cons.1 hc with rfl | hc
      · simp only [isDigit, Bool.and_eq_true, decide_eq_true_eq]; omega
      · exact h c hc
    · apply ih
      intro c hc
      rcases List.mem_cons.1 hc with rfl | hc
      · simp only [isDigit, Bool.and_eq_true, decide_eq_true_eq]; omega
      · exact h c hc

theorem decimal_ne_nil (n : Nat) : decimal n ≠ [] :=
  decimalAux_ne_nil _ _ _ (Or.inr (Nat.succ_pos n))

theorem decimal_digits (n : Nat) : ∀ c ∈ decimal n, isDigit c = true :=
  decimalAux_digits _ _ _ (by simp)

theorem decimal_examples :
    decimal 0 = utf8 "0" ∧ decimal 7 = utf8 "7" ∧ decimal 42 = utf8 "42"
    ∧ decimal 255 = utf8 "255" := by
  decide

theorem digit_bounds {c : Nat} (h : isDigit c = true) : 48 ≤ c ∧ c ≤ 57 := by
  simpa [isDigit] using h

/-! ## Lemmas: decoding -/

theorem unmarshalLoop_members (rest : List Token) (fail : Bool) :
    ∀ (members : List (Str × Str)) (m : Map), (∀ kv ∈ members, kv.1 ≠ []) →
      unmarshalLoop ((members.flatMap fun kv => [Token.string kv.1, Token.string kv.2]) ++ rest)
          fail [] m
        = unmarshalLoop rest fail [] (recordAll m members) := by
  intro members
  induction members with
  | nil => intro m _; simp [recordAll]
  | cons kv members ih =>
    intro m h
    have hk : kv.1 ≠ [] := h kv (List.mem_cons_self _ _)
    have := ih { Keys := m.Keys ++ [kv.1], Data := mapInsert m.Data kv.1 kv.2 }
      fun x hx => h x (List.mem_cons_of_mem _ hx)
    simpa [List.flatMap_cons, unmarshalLoop, hk, recordAll] using this

theorem unmarshal_object (m : Map) (members : List (Str × Str))
    (h : ∀ kv ∈ members, kv.1 ≠ []) :
    m.UnmarshalJSON (objectTokens members)
      = (recordAll { Keys := m.Keys, Data := fun _ => none } members, false) := by
  simp only [Map.UnmarshalJSON, objectTokens, unmarshalLoop, List.append_eq]
  rw [unmarshalLoop_members _ _ members _ h]
  simp [unmarshalLoop]

theorem recordAll_keys : ∀ (members : List (Str × Str)) (m : Map),
    (recordAll m members).Keys = m.Keys ++ members.map Prod.fst := by
  intro members
  induction members with
  | nil => intro m; simp [recordAll]
  | cons kv members ih => intro m; simp [recordAll, ih]

theorem recordAll_data_of_not_mem : ∀ (members : List (Str × Str)) (m : Map) (k : Str),
    k ∉ members.map Prod.fst → (recordAll m members).Data k = m.Data k := by
  intro members
  induction members with
  | nil => intro m k _; rfl
  | cons kv members ih =>
    intro m k hk
    have h1 : k ≠ kv.1 := fun h => hk (by simp [h])
    have h2 : k ∉ members.map Prod.fst := fun h => hk (by simp at h ⊢; exact Or.inr h)
    rw [recordAll, ih _ _ h2]
    simp [mapInsert, h1]

theorem recordAll_data_of_mem : ∀ (members : List (Str × Str)) (m : Map),
    (members.map Prod.fst).Nodup → ∀ kv ∈ members, (recordAll m members).Data kv.1 = some kv.2 := by
  intro members
  induction members with
  | nil => intro m _ kv h; cases h
  | cons x members ih =>
    intro m hnd kv hkv
    rw [List.map_cons, List.nodup_cons] at hnd
    rcases List.mem_cons.1 hkv with rfl | hmem
    · rw [recordAll, recordAll_data_of_not_mem _ _ _ hnd.1]
      simp [mapInsert]
    · rw [recordAll]
      exact ih _ hnd.2 kv hmem

theorem unmarshalLoop_invariant : ∀ (tokens : List Token) (fail : Bool) (key : Str) (m : Map),
    (∀ k, k ∈ m.Keys ↔ (m.Data k).isSome = true) →
      ∀ k, k ∈ (unmarshalLoop tokens fail key m).1.Keys
        ↔ ((unmarshalLoop tokens fail key m).1.Data k).isSome = true := by
  intro tokens
  induction tokens with
  | nil => intro fail key m h; simpa [unmarshalLoop] using h
  | cons tok tokens ih =>
    intro fail key m h
    cases tok with
    | string value =>
      by_cases hkey : key = []
      · simpa [unmarshalLoop, hkey] using ih fail value m h
      · have hstep := ih fail []
          { Keys := m.Keys ++ [key], Data := mapInsert m.Data key value } (by
            intro k
            by_cases hk : k = key
            · simp [mapInsert, hk]
            · simp [mapInsert, hk, h k])
        simpa [unmarshalLoop, hkey] using hstep
    | delim d => simpa [unmarshalLoop] using ih fail key m h
    | bool b => simpa [unmarshalLoop] using ih fail key m h
    | number text => simpa [unmarshalLoop] using ih fail key m h
    | null => simpa [unmarshalLoop] using ih fail key m h

/-! ## Lemmas: the writers only append -/

theorem writeNode_append (buf : Str) (indent : Nat) (key value : Str) :
    writeNode buf indent key value = buf ++ writeNode [] indent key value := by
  simp [writeNode, List.append_assoc]

theorem writeNode_five (key value : Str) :
    writeNode [] 5 key value
      = utf8 "          <key>" ++ escape key ++ utf8 "</key>\n"
        ++ utf8 "          <string>" ++ escape value ++ utf8 "</string>\n" := by
  have h1 : (List.replicate 5 (utf8 "  ")).flatten ++ utf8 "<key>" = utf8 "          <key>" := rfl
  have h2 : (List.replicate 5 (utf8 "  ")).flatten ++ utf8 "<string>"
      = utf8 "          <string>" := rfl
  simp only [writeNode, List.nil_append, ← h1, ← h2, List.append_assoc]

theorem writeGlobals_iff (lib : ColorLib) (t : Theme) :
    ∀ (keys : List Str) (buf out : Str),
      writeGlobals lib t buf keys = some out ↔
        ∃ values : List Str,
          List.Forall₂ (fun key value => t.Globals.Get lib t key = some value) keys values
          ∧ out = buf ++ (List.zip keys values).flatMap fun kv => writeNode [] 5 kv.1 kv.2 := by
  intro keys
  induction keys with
  | nil =>
    intro buf out
    simp only [writeGlobals, Option.some.injEq]
    constructor
    · rintro rfl; exact ⟨[], List.Forall₂.nil, by simp⟩
    · rintro ⟨values, hv, rfl⟩
      cases hv
      simp
  | cons key keys ih =>
    intro buf out
    cases hget : t.Globals.Get lib t key with
    | none =>
      simp only [writeGlobals, hget]
      constructor
      · intro h; cases h
      · rintro ⟨values, hv, _⟩
        cases hv with
        | cons h _ => rw [hget] at h; cases h
    | some value =>
      simp only [writeGlobals, hget, ih]
      constructor
      · rintro ⟨values, hv, rfl⟩
        refine ⟨value :: values, List.Forall₂.cons hget hv, ?_⟩
        rw [writeNode_append]
        simp [List.append_assoc]
      · rintro ⟨values, hv, rfl⟩
        cases hv with
        | cons h hrest =>
          rw [hget] at h
          cases h
          refine ⟨_, hrest, ?_⟩
          rw [writeNode_append]
          simp [List.append_assoc]

theorem writeField_append (buf : Str) (key : String) (field : Str) (getter : Option Str) :
    writeField buf key field getter
      = (writeField [] key field getter).map fun text => buf ++ text := by
  unfold writeField
  split
  · cases getter with
    | none => rfl
    | some value => simp [writeNode_append buf]
  · simp

theorem writeRule_append (lib : ColorLib) (t : Theme) (r : Rule) (buf : Str) :
    writeRule lib buf t r = (writeRule lib [] t r).map fun text => buf ++ text := by
  unfold writeRule
  simp only []
  rw [writeField_append (Fprintln _ _), writeField_append (Fprintln (Fprintln (writeNode
    (writeNode (Fprintln [] _) _ _ _) _ _ _) _) _)]
  cases writeField [] "fontStyle" r.FontStyle (r.GetFontStyle lib t) with
  | none => rfl
  | some a =>
    simp only [Option.map_some', Option.some_bind]
    rw [writeField_append (_ ++ a), writeField_append (_ ++ a)]
    cases writeField [] "foreground" r.Foreground (r.GetForeground lib t) with
    | none => rfl
    | some b =>
      simp only [Option.map_some', Option.some_bind]
      rw [writeField_append (_ ++ b), writeField_append (_ ++ b)]
      cases writeField [] "background" r.Background (r.GetBackground lib t) with
      | none => rfl
      | some c =>
        simp only [Option.map_some', Option.some_bind]
        rw [writeField_append (_ ++ c), writeField_append (_ ++ c)]
        cases writeField [] "selectionForeground" r.SelectionForeground
            (r.GetSelectionForeground lib t) with
        | none => rfl
        | some d =>
          simp only [Option.map_some', Option.some_bind, Option.some.injEq]
          rw [writeNode_append (Fprintln buf _), writeNode_append (_ ++ _),
            writeNode_append (Fprintln [] _), writeNode_append (_ ++ _) 4]
          simp [Fprintln, List.append_assoc]

theorem writeRules_append (lib : ColorLib) (t : Theme) :
    ∀ (rules : List Rule) (buf : Str),
      writeRules lib t buf rules = (writeRules lib t [] rules).map fun text => buf ++ text := by
  intro rules
  induction rules with
  | nil => intro buf; simp [writeRules]
  | cons r rules ih =>
    intro buf
    simp only [writeRules]
    rw [writeRule_append lib t r buf]
    cases writeRule lib [] t r with
    | none => rfl
    | some a =>
      simp only [Option.map_some']
      rw [ih (buf ++ a), ih a]
      cases writeRules lib t [] rules with
      | none => rfl
      | some b => simp [List.append_assoc]

/-! ## Lemmas: the text of a rule -/

theorem writeNode_four (key : String) (value : Str) (hkey : escape (utf8 key) = utf8 key) :
    writeNode [] 4 (utf8 key) value
      = utf8 "        <key>" ++ utf8 key ++ utf8 "</key>\n"
        ++ utf8 "        <string>" ++ escape value ++ utf8 "</string>\n" := by
  have h1 : (List.replicate 4 (utf8 "  ")).flatten ++ utf8 "<key>" = utf8 "        <key>" := rfl
  have h2 : (List.replicate 4 (utf8 "  ")).flatten ++ utf8 "<string>"
      = utf8 "        <string>" := rfl
  simp only [writeNode, List.nil_append, ← h1, ← h2, List.append_assoc, hkey]

theorem writeField_iff (lib : ColorLib) (t : Theme) (buf : Str) (key : String) (raw out : Str) :
    writeField buf key raw (t.eval lib raw) = some out ↔
      ∃ text, FieldWritten lib t key raw text ∧ out = buf ++ text := by
  unfold writeField FieldWritten
  by_cases h : raw = []
  · subst h
    simp only [ne_eq, not_true_eq_false, if_false, Option.some.injEq, true_and, false_and,
      or_false]
    constructor
    · rintro rfl; exact ⟨[], rfl, by simp⟩
    · rintro ⟨text, rfl, rfl⟩; simp
  · simp only [ne_eq, h, not_false_eq_true, if_true, false_and, true_and, false_or]
    constructor
    · intro hv
      cases hev : t.eval lib raw with
      | none => rw [hev] at hv; cases hv
      | some value =>
        rw [hev] at hv
        simp only [Option.map_some', Option.some.injEq] at hv
        refine ⟨_, ⟨value, rfl, rfl⟩, ?_⟩
        rw [← hv, writeNode_append, writeNode_five]
    · rintro ⟨text, ⟨value, hev, rfl⟩, rfl⟩
      rw [hev]
      simp only [Option.map_some', Option.some.injEq]
      rw [writeNode_append, writeNode_five]

set_option maxRecDepth 100000 in
theorem writeRule_iff (lib : ColorLib) (t : Theme) (r : Rule) (dict : Str) :
    writeRule lib [] t r = some dict ↔ RuleDict lib t r dict := by
  have hname := writeNode_four "name" r.Name rfl
  have hscope := writeNode_four "scope" r.Scope rfl
  unfold writeRule RuleDict
  simp only [Rule.GetFontStyle, Rule.GetForeground, Rule.GetBackground,
    Rule.GetSelectionForeground, Option.bind_eq_some, writeField_iff, Option.some.injEq]
  constructor
  · rintro ⟨_, ⟨f1, h1, rfl⟩, _, ⟨f2, h2, rfl⟩, _, ⟨f3, h3, rfl⟩, _, ⟨f4, h4, rfl⟩, rfl⟩
    refine ⟨f1, f2, f3, f4, h1, h2, h3, h4, ?_⟩
    rw [writeNode_append (Fprintln [] _), writeNode_append (_ ++ _), hname, hscope]
    simp only [Fprintln, List.nil_append, List.append_assoc]
    rfl
  · rintro ⟨f1, f2, f3, f4, h1, h2, h3, h4, rfl⟩
    refine ⟨_, ⟨f1, h1, rfl⟩, _, ⟨f2, h2, rfl⟩, _, ⟨f3, h3, rfl⟩, _, ⟨f4, h4, rfl⟩, ?_⟩
    rw [writeNode_append (Fprintln [] _), writeNode_append (_ ++ _), hname, hscope]
    simp only [Fprintln, List.nil_append, List.append_assoc]
    rfl

theorem writeRules_iff (lib : ColorLib) (t : Theme) :
    ∀ (rules : List Rule) (out : Str),
      writeRules lib t [] rules = some out ↔
        ∃ dicts : List Str, List.Forall₂ (RuleDict lib t) rules dicts ∧ out = dicts.flatten := by
  intro rules
  induction rules with
  | nil =>
    intro out
    simp only [writeRules, Option.some.injEq]
    constructor
    · rintro rfl; exact ⟨[], List.Forall₂.nil, rfl⟩
    · rintro ⟨dicts, hd, rfl⟩; cases hd; rfl
  | cons r rules ih =>
    intro out
    simp only [writeRules]
    cases hr : writeRule lib [] t r with
    | none =>
      simp only []
      constructor
      · intro h; cases h
      · rintro ⟨dicts, hd, _⟩
        cases hd with
        | cons h _ => rw [← writeRule_iff, hr] at h; cases h
    | some d =>
      simp only []
      rw [writeRules_append]
      constructor
      · intro h
        cases hrest : writeRules lib t [] rules with
        | none => rw [hrest] at h; cases h
        | some rest =>
          rw [hrest] at h
          simp only [Option.map_some', Option.some.injEq] at h
          obtain ⟨dicts, hd, rfl⟩ := (ih rest).1 hrest
          exact ⟨d :: dicts, List.Forall₂.cons ((writeRule_iff lib t r d).1 hr) hd, by simp [← h]⟩
      · rintro ⟨dicts, hd, rfl⟩
        cases hd with
        | cons h hrest =>
          rw [← writeRule_iff, hr] at h
          cases h
          rw [(ih _).2 ⟨_, hrest, rfl⟩]
          simp

theorem writeGlobals_append (lib : ColorLib) (t : Theme) (keys : List Str) (buf : Str) :
    writeGlobals lib t buf keys
      = (writeGlobals lib t [] keys).map fun text => buf ++ text := by
  cases h0 : writeGlobals lib t [] keys with
  | none =>
    cases hb : writeGlobals lib t buf keys with
    | none => rfl
    | some out =>
      obtain ⟨values, hv, _⟩ := (writeGlobals_iff lib t keys buf out).1 hb
      rw [(writeGlobals_iff lib t keys [] _).2 ⟨values, hv, rfl⟩] at h0
      cases h0
  | some text =>
    obtain ⟨values, hv, rfl⟩ := (writeGlobals_iff lib t keys [] text).1 h0
    rw [(writeGlobals_iff lib t keys buf _).2 ⟨values, hv, rfl⟩]
    simp

theorem writeBody_append (lib : ColorLib) (t : Theme) (buf : Str) :
    writeBody lib buf t = (writeBody lib [] t).map fun text => buf ++ text := by
  unfold writeBody
  simp only []
  rw [writeGlobals_append lib t _ (Fprintln _ _),
    writeGlobals_append lib t _ (Fprintln (Fprintln (Fprintln (Fprintln (Fprintln [] _) _) _) _) _)]
  cases writeGlobals lib t [] t.Globals.Keys with
  | none => rfl
  | some g =>
    simp only [Option.map_some', Option.some_bind]
    rw [writeRules_append lib t _ (Fprintln _ _),
      writeRules_append lib t _ (Fprintln (Fprintln (Fprintln (Fprintln (Fprintln (Fprintln
        (Fprintln [] _) _) _) _) _ ++ g) _) _)]
    cases writeRules lib t [] t.Rules with
    | none => rfl
    | some rs =>
      simp [Fprintln, List.append_assoc]

/-! ## Lemmas: chains of references -/

theorem replaceVariablesPasses_step (t : Theme) (n : Nat) {data whole name : Str}
    (h : findMatch varRegex data = some (whole, [name])) :
    replaceVariablesPasses t (n + 1) data
      = replaceVariablesPasses t n (ReplaceAll data whole
          (match t.Variables name with
            | some v => v
            | none => utf8 "[UNKNOWN-VAR:" ++ name ++ utf8 "]")) + 1 := by
  simp [replaceVariablesPasses, MatchString, FindStringSubmatch, h]

theorem replaceVariablesPasses_noMatch (t : Theme) (n : Nat) {data : Str}
    (h : MatchString varRegex data = false) : replaceVariablesPasses t n data = 0 := by
  cases n <;> simp [replaceVariablesPasses, h]

theorem var_ref_ne_nil (name : Str) : utf8 "var(" ++ name ++ utf8 ")" ≠ [] := by
  intro h
  have := congrArg List.length h
  simp [utf8, utf8EncodeNat] at this

/-- One pass on a single reference: the text becomes the value of the name. -/
theorem var_ref_step (t : Theme) (n : Nat) (name : Str) (hne : name ≠ []) (hp : 41 ∉ name) :
    replaceVariablesLoop t (n + 1) (utf8 "var(" ++ name ++ utf8 ")")
        = replaceVariablesLoop t n
          (match t.Variables name with
            | some v => v
            | none => utf8 "[UNKNOWN-VAR:" ++ name ++ utf8 "]")
    ∧ replaceVariablesPasses t (n + 1) (utf8 "var(" ++ name ++ utf8 ")")
        = replaceVariablesPasses t n
          (match t.Variables name with
            | some v => v
            | none => utf8 "[UNKNOWN-VAR:" ++ name ++ utf8 "]") + 1 := by
  have hf := findMatch_var name [] hne hp
  rw [List.append_nil] at hf
  rw [replaceVariablesLoop_step t n hf, replaceVariablesPasses_step t n hf,
    replaceAll_self _ _ (var_ref_ne_nil name)]
  exact ⟨rfl, rfl⟩

theorem placeholder_no_paren {name : Str} (hp : 41 ∉ name) :
    41 ∉ utf8 "[UNKNOWN-VAR:" ++ name ++ utf8 "]" := by
  intro h
  simp only [List.mem_append] at h
  rcases h with (h | h) | h
  · revert h; decide
  · exact hp h
  · revert h; decide

theorem cyclic_loop (t : Theme) (name : Str) (hne : name ≠ []) (hp : 41 ∉ name)
    (hkey : t.Variables name = some (utf8 "var(" ++ name ++ utf8 ")")) :
    ∀ n, replaceVariablesLoop t n (utf8 "var(" ++ name ++ utf8 ")")
          = some (utf8 "var(" ++ name ++ utf8 ")")
      ∧ replaceVariablesPasses t n (utf8 "var(" ++ name ++ utf8 ")") = n := by
  intro n
  induction n with
  | zero => exact ⟨rfl, rfl⟩
  | succ n ih =>
    have hs := var_ref_step t n name hne hp
    rw [hkey] at hs
    exact ⟨hs.1.trans ih.1, by rw [hs.2, ih.2]⟩

theorem evalColors_noMatch (lib : ColorLib) {data : Str}
    (h1 : MatchString colorRegex data = false) (h2 : MatchString rgbRegex data = false)
    (h3 : MatchString rgbaRegex data = false) (h4 : MatchString hslRegex data = false)
    (h5 : MatchString hslaRegex data = false) :
    evalColors lib data = some (expandShort4 (expandShort3 data)) := by
  have e1 := stageIf_noMatch "color(" (convertColorToHex lib) data
    (convertColorToHexLoop_noMatch lib 16 h1)
  have e2 := stageIf_noMatch "rgb(" (convertRGBToHex lib) data
    (convertRGBToHexLoop_noMatch lib 16 h2)
  have e3 := stageIf_noMatch "rgba(" (convertRGBAToHex lib) data
    (convertRGBAToHexLoop_noMatch lib 16 h3)
  have e4 := stageIf_noMatch "hsl(" (convertHSLToHex lib) data
    (convertHSLToHexLoop_noMatch lib 16 h4)
  have e5 := stageIf_noMatch "hsla(" (convertHSLAToHex lib) data
    (convertHSLAToHexLoop_noMatch lib 16 h5)
  simp [evalColors, e1, e2, e3, e4, e5]

theorem eval_of_no_close_paren (lib : ColorLib) (t : Theme) (s : Str) (h : 41 ∉ s) :
    t.eval lib s = some (expandShort4 (expandShort3 s)) := by
  rw [eval_eq, stageIf_noMatch "var(" (fun d => replaceVariables d t) s
    (replaceVariablesLoop_noMatch t 16 (matchString_eq_false_of_no_paren closeParen_mem_varRegex h))]
  exact evalColors_no_paren lib h

/-! ## Lemmas: the final stage on any bytes -/

theorem trigger_bytes :
    utf8 "#" = [35] ∧ utf8 "var(" = [118, 97, 114, 40] ∧ utf8 "color(" = [99, 111, 108, 111, 114, 40]
    ∧ utf8 "rgb(" = [114, 103, 98, 40] ∧ utf8 "rgba(" = [114, 103, 98, 97, 40]
    ∧ utf8 "hsl(" = [104, 115, 108, 40] ∧ utf8 "hsla(" = [104, 115, 108, 97, 40] := by
  decide

theorem eval_hash3 (lib : ColorLib) (t : Theme) (a b c : Nat) :
    t.eval lib (utf8 "#" ++ [a, b, c]) = some (utf8 "#" ++ [a, a, b, b, c, c]) := by
  obtain ⟨h0, h1, h2, h3, h4, h5, h6⟩ := trigger_bytes
  rw [eval_of_no_trigger lib t _ (by simp [h0, h1, Contains, HasPrefix])
    (by simp [h0, h2, Contains, HasPrefix]) (by simp [h0, h3, Contains, HasPrefix])
    (by simp [h0, h4, Contains, HasPrefix]) (by simp [h0, h5, Contains, HasPrefix])
    (by simp [h0, h6, Contains, HasPrefix])]
  rfl

theorem eval_hash4 (lib : ColorLib) (t : Theme) (a b c d : Nat) :
    t.eval lib (utf8 "#" ++ [a, b, c, d]) = some (utf8 "#" ++ [a, a, b, b, c, c, d, d]) := by
  obtain ⟨h0, h1, h2, h3, h4, h5, h6⟩ := trigger_bytes
  by_cases hv : a = 118 ∧ b = 97 ∧ c = 114 ∧ d = 40
  · obtain ⟨rfl, rfl, rfl, rfl⟩ := hv
    rfl
  by_cases hr : a = 114 ∧ b = 103 ∧ c = 98 ∧ d = 40
  · obtain ⟨rfl, rfl, rfl, rfl⟩ := hr
    rfl
  by_cases hh : a = 104 ∧ b = 115 ∧ c = 108 ∧ d = 40
  · obtain ⟨rfl, rfl, rfl, rfl⟩ := hh
    rfl
  rw [eval_of_no_trigger lib t _ (by simpa [h0, h1, Contains, HasPrefix] using hv)
    (by simp [h0, h2, Contains, HasPrefix]) (by simpa [h0, h3, Contains, HasPrefix] using hr)
    (by simp [h0, h4, Contains, HasPrefix]) (by simpa [h0, h5, Contains, HasPrefix] using hh)
    (by simp [h0, h6, Contains, HasPrefix])]
  rfl

/-! ## Lemmas: decimal numbers -/

theorem decimalValue_fold : ∀ (s : Str) (a : Nat), (∀ c ∈ s, isDigit c = true) →
    s.foldl (fun acc c => acc.bind fun n => if isDigit c then some (n * 10 + (c - 48)) else none)
        (some a) = some (digitsValue a s) := by
  intro s
  induction s with
  | nil => intro a _; rfl
  | cons c s ih =>
    intro a h
    have hc : isDigit c = true := h c (List.mem_cons_self _ _)
    simp only [List.foldl_cons, Option.some_bind, hc, if_true, digitsValue]
    exact ih _ fun x hx => h x (List.mem_cons_of_mem _ hx)

theorem decimalValue_of_digits (s : Str) (hne : s ≠ []) (h : ∀ c ∈ s, isDigit c = true) :
    decimalValue s = some (digitsValue 0 s) := by
  cases s with
  | nil => exact absurd rfl hne
  | cons c s => exact decimalValue_fold (c :: s) 0 h

theorem digitsValue_append (a : Nat) (s u : Str) :
    digitsValue a (s ++ u) = digitsValue (digitsValue a s) u := by
  simp [digitsValue, List.foldl_append]

theorem decimalAux_spec : ∀ (fuel n : Nat) (acc : Str), n < fuel →
    ∃ ds : Str, decimalAux fuel n acc = ds ++ acc ∧ digitsValue 0 ds = n := by
  intro fuel
  induction fuel with
  | zero => intro n acc h; exact absurd h (Nat.not_lt_zero n)
  | succ fuel ih =>
    intro n acc h
    unfold decimalAux
    split
    · refine ⟨[48 + n], rfl, ?_⟩
      simp [digitsValue]
    · rename_i hn
      have hlt : n / 10 < fuel := by omega
      obtain ⟨ds, hds, hv⟩ := ih (n / 10) ((48 + n % 10) :: acc) hlt
      refine ⟨ds ++ [48 + n % 10], ?_, ?_⟩
      · rw [hds]; simp
      · rw [digitsValue_append, hv]
        simp only [digitsValue, List.foldl_cons, List.foldl_nil]
        omega

theorem digitsValue_decimal (n : Nat) : digitsValue 0 (decimal n) = n := by
  obtain ⟨ds, hds, hv⟩ := decimalAux_spec (n + 1) n [] (Nat.lt_succ_self n)
  unfold decimal
  rw [hds, List.append_nil, hv]

theorem decimalValue_decimal (n : Nat) : decimalValue (decimal n) = some n := by
  rw [decimalValue_of_digits _ (decimal_ne_nil n) (decimal_digits n), digitsValue_decimal]

theorem atoi_decimal (n : Nat) (h : n ≤ 255) : uint8 (Atoi (decimal n)) = n := by
  have hv := decimalValue_decimal n
  have hne := decimal_ne_nil n
  have hd := decimal_digits n
  cases hs : decimal n with
  | nil => exact absurd hs hne
  | cons c s =>
    rw [hs] at hv hd
    have hc := digit_bounds (hd c (List.mem_cons_self _ _))
    have h1 : c ≠ 45 := by omega
    have h2 : c ≠ 43 := by omega
    have hA : Atoi (c :: s) = min (n : Int) (2 ^ 63 - 1) := by
      unfold Atoi
      split
      · rename_i r heq
        exact absurd (List.cons.inj heq).1 h1
      · rename_i r heq
        exact absurd (List.cons.inj heq).1 h2
      · rw [hv]
    rw [hA]
    have hmin : min (n : Int) (2 ^ 63 - 1) = (n : Int) := by
      apply min_eq_left
      have : (n : Int) ≤ 255 := by exact_mod_cast h
      omega
    rw [hmin]
    unfold uint8
    have : ((n : Int) % 256) = (n : Int) := by
      apply Int.emod_eq_of_lt <;> omega
    rw [this]
    simp

theorem parseDecimalFrac_decimal (n : Nat) : parseDecimalFrac (decimal n) = ⟨(n : Int), 1⟩ := by
  have hd := decimal_digits n
  have ht : (decimal n).takeWhile isDigit = decimal n :=
    List.takeWhile_eq_self_iff.2 hd
  have hdr : (decimal n).dropWhile isDigit = [] :=
    List.dropWhile_eq_nil_iff.2 hd
  unfold parseDecimalFrac
  simp only [ht, hdr, decimalValue_decimal, Option.getD_some]

/-! ## Lemmas: the notations `rgba(...)` and `hsl(...)` -/

theorem head_not_space_of_digitOrDot (a rest : Str) (hne : a ≠ [])
    (ha : ∀ c ∈ a, isDigitOrDot c = true) : ∀ c ∈ (a ++ rest).head?, isSpace c = false := by
  intro c hc
  cases a with
  | nil => exact absurd rfl hne
  | cons d a =>
    have : c = d := by simpa using hc.symm
    subst this
    have hd := ha c (List.mem_cons_self _ _)
    simp only [isDigitOrDot, isDigit, Bool.or_eq_true, Bool.and_eq_true, decide_eq_true_eq,
      beq_iff_eq] at hd
    simp only [isSpace, beq_eq_false_iff_ne]
    omega

theorem findMatch_rgba (r g b sg sb sa a : Str) (hr : r ≠ []) (hg : g ≠ []) (hb : b ≠ [])
    (ha : a ≠ []) (hrd : ∀ c ∈ r, isDigit c = true) (hgd : ∀ c ∈ g, isDigit c = true)
    (hbd : ∀ c ∈ b, isDigit c = true) (had : ∀ c ∈ a, isDigitOrDot c = true)
    (hsg : ∀ c ∈ sg, isSpace c = true) (hsb : ∀ c ∈ sb, isSpace c = true)
    (hsa : ∀ c ∈ sa, isSpace c = true) :
    findMatch rgbaRegex (utf8 "rgba(" ++ r ++ utf8 "," ++ sg ++ g ++ utf8 "," ++ sb ++ b
        ++ utf8 "," ++ sa ++ a ++ utf8 ")")
      = some (utf8 "rgba(" ++ r ++ utf8 "," ++ sg ++ g ++ utf8 "," ++ sb ++ b
        ++ utf8 "," ++ sa ++ a ++ utf8 ")", [r, g, b, a]) := by
  apply findMatch_of_matchItems
  have hre : rgbaRegex = lit "rgba(" ++ (Item.gopen :: Item.cls isDigit 1 none :: Item.gclose ::
      (lit "," ++ (Item.cls isSpace 0 none :: Item.gopen :: Item.cls isDigit 1 none ::
      Item.gclose :: (lit "," ++ (Item.cls isSpace 0 none :: Item.gopen ::
      Item.cls isDigit 1 none :: Item.gclose :: (lit "," ++ (Item.cls isSpace 0 none ::
      Item.gopen :: Item.cls isDigitOrDot 1 none :: Item.gclose :: (lit ")" ++ [])))))))) := rfl
  have hs : utf8 "rgba(" ++ r ++ utf8 "," ++ sg ++ g ++ utf8 "," ++ sb ++ b
        ++ utf8 "," ++ sa ++ a ++ utf8 ")"
      = utf8 "rgba(" ++ (r ++ (utf8 "," ++ (sg ++ (g ++ (utf8 "," ++ (sb ++ (b ++ (utf8 "," ++
          (sa ++ (a ++ (utf8 ")" ++ []))))))))))) := by
    simp
  have hcomma : ∀ (p : Nat → Bool) (rest : Str), p 44 = false →
      ∀ c ∈ (utf8 "," ++ rest).head?, p c = false := by
    intro p rest hp c hc
    cases hc
    exact hp
  rw [hre, hs, matchItems_lit, matchItems_gopen]
  apply matchItems_cls _ _ _ _ _ _ _ _ hrd (hcomma _ _ rfl)
    (Nat.succ_le_of_lt (List.length_pos.2 hr))
  simp only [List.map_cons, List.map_nil, List.nil_append]
  rw [matchItems_gclose, matchItems_lit]
  apply matchItems_cls _ _ _ _ _ _ _ _ hsg (head_stop_of_digits g _ hg hgd) (Nat.zero_le _)
  simp only [List.map_cons, List.map_nil, List.nil_append]
  rw [matchItems_gopen]
  apply matchItems_cls _ _ _ _ _ _ _ _ hgd (hcomma _ _ rfl)
    (Nat.succ_le_of_lt (List.length_pos.2 hg))
  simp only [List.map_cons, List.map_nil, List.nil_append]
  rw [matchItems_gclose, matchItems_lit]
  apply matchItems_cls _ _ _ _ _ _ _ _ hsb (head_stop_of_digits b _ hb hbd) (Nat.zero_le _)
  simp only [List.map_cons, List.map_nil, List.nil_append]
  rw [matchItems_gopen]
  apply matchItems_cls _ _ _ _ _ _ _ _ hbd (hcomma _ _ rfl)
    (Nat.succ_le_of_lt (List.length_pos.2 hb))
  simp only [List.map_cons, List.map_nil, List.nil_append]
  rw [matchItems_gclose, matchItems_lit]
  apply matchItems_cls _ _ _ _ _ _ _ _ hsa (head_not_space_of_digitOrDot a _ ha had)
    (Nat.zero_le _)
  simp only [List.map_cons, List.map_nil, List.nil_append]
  rw [matchItems_gopen]
  apply matchItems_cls _ _ _ _ _ _ _ _ had (by intro c hc; cases hc; rfl)
    (Nat.succ_le_of_lt (List.length_pos.2 ha))
  simp only [List.map_cons, List.map_nil, List.nil_append]
  rw [matchItems_gclose, matchItems_lit, matchItems_nil]
  simp

theorem findMatch_hsl (h s l s1 s2 : Str) (hh : h ≠ []) (hs0 : s ≠ []) (hl : l ≠ [])
    (hhd : ∀ c ∈ h, isDigit c = true) (hsd : ∀ c ∈ s, isDigit c = true)
    (hld : ∀ c ∈ l, isDigit c = true) (hs1 : ∀ c ∈ s1, isSpace c = true)
    (hs2 : ∀ c ∈ s2, isSpace c = true) :
    findMatch hslRegex (utf8 "hsl(" ++ h ++ utf8 "," ++ s1 ++ s ++ utf8 "%," ++ s2 ++ l
        ++ utf8 "%)")
      = some (utf8 "hsl(" ++ h ++ utf8 "," ++ s1 ++ s ++ utf8 "%," ++ s2 ++ l ++ utf8 "%)",
          [h, s, l]) := by
  apply findMatch_of_matchItems
  have hre : hslRegex = lit "hsl(" ++ (Item.gopen :: Item.cls isDigit 1 none :: Item.gclose ::
      (lit "," ++ (Item.cls isSpace 0 none :: Item.gopen :: Item.cls isDigit 1 none ::
      Item.gclose :: (lit "%," ++ (Item.cls isSpace 0 none :: Item.gopen ::
      Item.cls isDigit 1 none :: Item.gclose :: (lit "%)" ++ [])))))) := rfl
  have hs : utf8 "hsl(" ++ h ++ utf8 "," ++ s1 ++ s ++ utf8 "%," ++ s2 ++ l ++ utf8 "%)"
      = utf8 "hsl(" ++ (h ++ (utf8 "," ++ (s1 ++ (s ++ (utf8 "%," ++ (s2 ++ (l ++
          (utf8 "%)" ++ [])))))))) := by
    simp
  rw [hre, hs, matchItems_lit, matchItems_gopen]
  apply matchItems_cls _ _ _ _ _ _ _ _ hhd (by intro c hc; cases hc; rfl)
    (Nat.succ_le_of_lt (List.length_pos.2 hh))
  simp only [List.map_cons, List.map_nil, List.nil_append]
  rw [matchItems_gclose, matchItems_lit]
  apply matchItems_cls _ _ _ _ _ _ _ _ hs1 (head_stop_of_digits s _ hs0 hsd) (Nat.zero_le _)
  simp only [List.map_cons, List.map_nil, List.nil_append]
  rw [matchItems_gopen]
  apply matchItems_cls _ _ _ _ _ _ _ _ hsd (by intro c hc; cases hc; rfl)
    (Nat.succ_le_of_lt (List.length_pos.2 hs0))
  simp only [List.map_cons, List.map_nil, List.nil_append]
  rw [matchItems_gclose, matchItems_lit]
  apply matchItems_cls _ _ _ _ _ _ _ _ hs2 (head_stop_of_digits l _ hl hld) (Nat.zero_le _)
  simp only [List.map_cons, List.map_nil, List.nil_append]
  rw [matchItems_gopen]
  apply matchItems_cls _ _ _ _ _ _ _ _ hld (by intro c hc; cases hc; rfl)
    (Nat.succ_le_of_lt (List.length_pos.2 hl))
  simp only [List.map_cons, List.map_nil, List.nil_append]
  rw [matchItems_gclose, matchItems_lit, matchItems_nil]
  simp

theorem convertRGBAToHex_single (lib : ColorLib) {data r g b a : Str}
    (h : findMatch rgbaRegex data = some (data, [r, g, b, a])) (hne : data ≠ [])
    (hres : MatchString rgbaRegex
      (lib.rgbaWeb (uint8 (Atoi r)) (uint8 (Atoi g)) (uint8 (Atoi b)) (lib.ParseFloat a)) = false) :
    convertRGBAToHex lib data
      = some (lib.rgbaWeb (uint8 (Atoi r)) (uint8 (Atoi g)) (uint8 (Atoi b)) (lib.ParseFloat a)) := by
  have hstep : ∀ n, convertRGBAToHexLoop lib (n + 1) data = convertRGBAToHexLoop lib n
      (ReplaceAll data data
        (lib.rgbaWeb (uint8 (Atoi r)) (uint8 (Atoi g)) (uint8 (Atoi b)) (lib.ParseFloat a))) := by
    intro n
    simp [convertRGBAToHexLoop, MatchString, FindStringSubmatch, h]
  unfold convertRGBAToHex
  rw [hstep 15, replaceAll_self _ _ hne]
  exact convertRGBAToHexLoop_noMatch lib 15 hres

theorem convertHSLToHex_single (lib : ColorLib) {data h s l : Str}
    (hm : findMatch hslRegex data = some (data, [h, s, l])) (hne : data ≠ [])
    (hres : MatchString hslRegex
      (lib.hslWeb (lib.ParseFloat h) (lib.ParseFloat s) (lib.ParseFloat l)) = false) :
    convertHSLToHex lib data
      = some (lib.hslWeb (lib.ParseFloat h) (lib.ParseFloat s) (lib.ParseFloat l)) := by
  have hstep : ∀ n, convertHSLToHexLoop lib (n + 1) data = convertHSLToHexLoop lib n
      (ReplaceAll data data
        (lib.hslWeb (lib.ParseFloat h) (lib.ParseFloat s) (lib.ParseFloat l))) := by
    intro n
    simp [convertHSLToHexLoop, MatchString, FindStringSubmatch, hm]
  unfold convertHSLToHex
  rw [hstep 15, replaceAll_self _ _ hne]
  exact convertHSLToHexLoop_noMatch lib 15 hres

/-! ## Lemmas: one colour notation as the whole text -/

theorem eval_of_rgba_stage (lib : ColorLib) (t : Theme) {data out : Str}
    (h1 : Contains data (utf8 "var(") = false) (h2 : Contains data (utf8 "color(") = false)
    (h3 : Contains data (utf8 "rgb(") = false) (h4 : Contains data (utf8 "rgba(") = true)
    (hc : convertRGBAToHex lib data = some out) (hp : 40 ∉ out)
    (hs : ¬ (HasPrefix out (utf8 "#") = true ∧ (out.length = 4 ∨ out.length = 5))) :
    t.eval lib data = some out := by
  have h5 : Contains out (utf8 "hsl(") = false := contains_eq_false (c := 40) (by decide) hp
  have h6 : Contains out (utf8 "hsla(") = false := contains_eq_false (c := 40) (by decide) hp
  simp [Theme.eval, stageIf, h1, h2, h3, h4, hc, h5, h6,
    expandShort3_of_not fun h => hs ⟨h.1, Or.inl h.2⟩,
    expandShort4_of_not fun h => hs ⟨h.1, Or.inr h.2⟩]

theorem eval_of_hsl_stage (lib : ColorLib) (t : Theme) {data out : Str}
    (h1 : Contains data (utf8 "var(") = false) (h2 : Contains data (utf8 "color(") = false)
    (h3 : Contains data (utf8 "rgb(") = false) (h4 : Contains data (utf8 "rgba(") = false)
    (h5 : Contains data (utf8 "hsl(") = true)
    (hc : convertHSLToHex lib data = some out) (hp : 40 ∉ out)
    (hs : ¬ (HasPrefix out (utf8 "#") = true ∧ (out.length = 4 ∨ out.length = 5))) :
    t.eval lib data = some out := by
  have h6 : Contains out (utf8 "hsla(") = false := contains_eq_false (c := 40) (by decide) hp
  simp [Theme.eval, stageIf, h1, h2, h3, h4, h5, hc, h6,
    expandShort3_of_not fun h => hs ⟨h.1, Or.inl h.2⟩,
    expandShort4_of_not fun h => hs ⟨h.1, Or.inr h.2⟩]

theorem contains_rgb_in_rgba (rest : Str) (h : 40 ∉ rest) :
    Contains (utf8 "rgba(" ++ rest) (utf8 "rgb(") = false := by
  have e : utf8 "rgba(" ++ rest = 114 :: 103 :: 98 :: 97 :: 40 :: rest := rfl
  have e2 : utf8 "rgb(" = [114, 103, 98, 40] := rfl
  have hr : Contains rest [114, 103, 98, 40] = false :=
    contains_eq_false (c := 40) (by decide) h
  rw [e, e2]
  simp [Contains, HasPrefix, hr]

theorem hexDigit_isHex (k : Nat) (h : k < 16) : isHexDigit (hexDigit k) = true := by
  unfold hexDigit
  split
  · simp only [isHexDigit, isDigit, Bool.or_eq_true, Bool.and_eq_true, decide_eq_true_eq]
    omega
  · simp only [isHexDigit, isDigit, Bool.or_eq_true, Bool.and_eq_true, decide_eq_true_eq]
    omega

theorem hex2_isHex (n : Nat) : ∀ c ∈ hex2 n, isHexDigit c = true := by
  intro c hc
  simp only [hex2, List.mem_cons, List.mem_singleton, List.not_mem_nil, or_false] at hc
  rcases hc with rfl | rfl
  · exact hexDigit_isHex _ (Nat.mod_lt _ (by decide))
  · exact hexDigit_isHex _ (Nat.mod_lt _ (by decide))

theorem webRGB_eq (r g b : Nat) : webRGB r g b = utf8 "#" ++ (hex2 r ++ hex2 g ++ hex2 b) := by
  simp [webRGB, List.append_assoc]

theorem webRGBA_eq (r g b : Nat) (a : Frac) :
    webRGBA r g b a = utf8 "#" ++ (hex2 r ++ hex2 g ++ hex2 b ++ hex2 a.toByte) := by
  simp [webRGBA, webRGB, List.append_assoc]

theorem hash_hex_no_paren (ds : Str) (h : ∀ c ∈ ds, isHexDigit c = true) :
    40 ∉ utf8 "#" ++ ds ∧ 41 ∉ utf8 "#" ++ ds := by
  have h0 : utf8 "#" = [35] := rfl
  have h40 : isHexDigit 40 = false := by decide
  have h41 : isHexDigit 41 = false := by decide
  constructor
  · intro hm
    simp only [h0, List.singleton_append, List.mem_cons] at hm
    rcases hm with hm | hm
    · exact absurd hm (by decide)
    · rw [h _ hm] at h40; cases h40
  · intro hm
    simp only [h0, List.singleton_append, List.mem_cons] at hm
    rcases hm with hm | hm
    · exact absurd hm (by decide)
    · rw [h _ hm] at h41; cases h41

theorem rgba_text_bytes (r g b sg sb sa a : Str)
    (hrd : ∀ c ∈ r, isDigit c = true) (hgd : ∀ c ∈ g, isDigit c = true)
    (hbd : ∀ c ∈ b, isDigit c = true) (had : ∀ c ∈ a, isDigitOrDot c = true)
    (hsg : ∀ c ∈ sg, isSpace c = true) (hsb : ∀ c ∈ sb, isSpace c = true)
    (hsa : ∀ c ∈ sa, isSpace c = true) :
    ∀ c ∈ r ++ utf8 "," ++ sg ++ g ++ utf8 "," ++ sb ++ b ++ utf8 "," ++ sa ++ a ++ utf8 ")",
      c ≠ 40 ∧ c ≠ 118 ∧ c ≠ 99 := by
  have hdig : ∀ c, isDigit c = true → c ≠ 40 ∧ c ≠ 118 ∧ c ≠ 99 := by
    intro c hc
    have := digit_bounds hc
    omega
  have hsp : ∀ c, isSpace c = true → c ≠ 40 ∧ c ≠ 118 ∧ c ≠ 99 := by
    intro c hc
    simp only [isSpace, beq_iff_eq] at hc
    omega
  have hdd : ∀ c, isDigitOrDot c = true → c ≠ 40 ∧ c ≠ 118 ∧ c ≠ 99 := by
    intro c hc
    simp only [isDigitOrDot, isDigit, Bool.or_eq_true, Bool.and_eq_true, decide_eq_true_eq,
      beq_iff_eq] at hc
    omega
  have hlit : ∀ l : Str, (∀ x ∈ l, x ≠ 40 ∧ x ≠ 118 ∧ x ≠ 99) → ∀ c ∈ l, c ≠ 40 ∧ c ≠ 118 ∧ c ≠ 99 :=
    fun l hl => hl
  intro c hc
  simp only [List.mem_append] at hc
  rcases hc with ((((((((((hc | hc) | hc) | hc) | hc) | hc) | hc) | hc) | hc) | hc) | hc)
  · exact hdig c (hrd c hc)
  · exact hlit _ (by decide) c hc
  · exact hsp c (hsg c hc)
  · exact hdig c (hgd c hc)
  · exact hlit _ (by decide) c hc
  · exact hsp c (hsb c hc)
  · exact hdig c (hbd c hc)
  · exact hlit _ (by decide) c hc
  · exact hsp c (hsa c hc)
  · exact hdd c (had c hc)
  · exact hlit _ (by decide) c hc

theorem hsl_text_bytes (h s l s1 s2 : Str)
    (hhd : ∀ c ∈ h, isDigit c = true) (hsd : ∀ c ∈ s, isDigit c = true)
    (hld : ∀ c ∈ l, isDigit c = true) (hs1 : ∀ c ∈ s1, isSpace c = true)
    (hs2 : ∀ c ∈ s2, isSpace c = true) :
    ∀ c ∈ utf8 "hsl(" ++ h ++ utf8 "," ++ s1 ++ s ++ utf8 "%," ++ s2 ++ l ++ utf8 "%)",
      c ≠ 118 ∧ c ≠ 99 ∧ c ≠ 114 := by
  have hdig : ∀ c, isDigit c = true → c ≠ 118 ∧ c ≠ 99 ∧ c ≠ 114 := by
    intro c hc
    have := digit_bounds hc
    omega
  have hsp : ∀ c, isSpace c = true → c ≠ 118 ∧ c ≠ 99 ∧ c ≠ 114 := by
    intro c hc
    simp only [isSpace, beq_iff_eq] at hc
    omega
  have hlit : ∀ l : Str, (∀ x ∈ l, x ≠ 118 ∧ x ≠ 99 ∧ x ≠ 114) →
      ∀ c ∈ l, c ≠ 118 ∧ c ≠ 99 ∧ c ≠ 114 :=
    fun l hl => hl
  intro c hc
  simp only [List.mem_append] at hc
  rcases hc with (((((((hc | hc) | hc) | hc) | hc) | hc) | hc) | hc) | hc
  · exact hlit _ (by decide) c hc
  · exact hdig c (hhd c hc)
  · exact hlit _ (by decide) c hc
  · exact hsp c (hs1 c hc)
  · exact hdig c (hsd c hc)
  · exact hlit _ (by decide) c hc
  · exact hsp c (hs2 c hc)
  · exact hdig c (hld c hc)
  · exact hlit _ (by decide) c hc

/-! ## Lemmas: what a match consists of -/

theorem tryDown_some {R : Type} (k : Str → Str → Option R) (s : Str) (lo : Nat) {r : R} :
    ∀ n, tryDown k s lo n = some r →
      ∃ j, lo ≤ j ∧ j ≤ n ∧ k (s.take j) (s.drop j) = some r := by
  intro n
  induction n with
  | zero =>
    intro h
    unfold tryDown at h
    split at h
    · rename_i hlo
      exact ⟨0, by omega, Nat.le_refl 0, by simpa using h⟩
    · cases h
  | succ n ih =>
    intro h
    unfold tryDown at h
    split at h
    · cases h
    · rename_i hlo
      cases hk : k (s.take (n + 1)) (s.drop (n + 1)) with
      | some r2 =>
        rw [hk] at h
        simp only [Option.some.injEq] at h
        subst h
        exact ⟨n + 1, by omega, Nat.le_refl _, hk⟩
      | none =>
        rw [hk] at h
        obtain ⟨j, h1, h2, h3⟩ := ih h
        exact ⟨j, h1, Nat.le_succ_of_le h2, h3⟩

theorem runLen_take (p : Nat → Bool) : ∀ (s : Str) (hi : Option Nat) (j : Nat),
    j ≤ runLen p hi s → j ≤ s.length ∧ ∀ b ∈ s.take j, p b = true := by
  intro s
  induction s with
  | nil =>
    intro hi j h
    have h0 : runLen p hi [] = 0 := by
      cases hi with
      | none => simp [runLen]
      | some n => cases n <;> simp [runLen]
    rw [h0] at h
    have : j = 0 := by omega
    subst this
    simp
  | cons c s ih =>
    intro hi j h
    cases j with
    | zero => simp
    | succ j =>
      have key : p c = true ∧ ∃ hi2, j ≤ runLen p hi2 s := by
        cases hi with
        | none =>
          by_cases hc : p c = true
          · simp only [runLen, hc, if_true] at h
            exact ⟨hc, none, by omega⟩
          · simp [runLen, hc] at h
        | some n =>
          cases n with
          | zero => simp [runLen] at h
          | succ n =>
            by_cases hc : p c = true
            · simp only [runLen, hc, if_true] at h
              exact ⟨hc, some n, by omega⟩
            · simp [runLen, hc] at h
      obtain ⟨hc, hi2, hj⟩ := key
      obtain ⟨h1, h2⟩ := ih hi2 j hj
      refine ⟨by simp only [List.length_cons]; omega, ?_⟩
      intro b hb
      simp only [List.take_succ_cons, List.mem_cons] at hb
      rcases hb with rfl | hb
      · exact hc
      · exact h2 b hb

theorem runLen_le_hi (p : Nat → Bool) : ∀ (s : Str) (h : Nat), runLen p (some h) s ≤ h := by
  intro s
  induction s with
  | nil => intro h; cases h <;> simp [runLen]
  | cons c s ih =>
    intro h
    cases h with
    | zero => simp [runLen]
    | succ h =>
      by_cases hc : p c = true
      · simp only [runLen, hc, if_true]
        exact Nat.succ_le_succ (ih h)
      · simp [runLen, hc]

theorem matchItems_cls_some (p : Nat → Bool) (lo : Nat) (hi : Option Nat) (r : List Item)
    (s whole : Str) (opens caps : List Str) {res : Str × List Str}
    (h : matchItems (Item.cls p lo hi :: r) s whole opens caps = some res) :
    ∃ run rest, s = run ++ rest ∧ lo ≤ run.length ∧ (∀ b ∈ run, p b = true)
      ∧ (∀ n, hi = some n → run.length ≤ n)
      ∧ matchItems r rest (whole ++ run) (opens.map fun o => o ++ run) caps = some res := by
  simp only [matchItems] at h
  obtain ⟨j, h1, h2, h3⟩ := tryDown_some _ s lo _ h
  obtain ⟨h4, h5⟩ := runLen_take p s hi j h2
  have hlen : (s.take j).length = j := by rw [List.length_take]; omega
  refine ⟨s.take j, s.drop j, (List.take_append_drop j s).symm, by omega, h5, ?_, h3⟩
  intro n hn
  subst hn
  have := runLen_le_hi p s n
  omega

theorem matchItems_litBytes_some (r : List Item) (caps : List Str) {res : Str × List Str} :
    ∀ (cs s whole : Str) (opens : List Str),
      matchItems (cs.map (fun c => Item.cls (fun b => b == c) 1 (some 1)) ++ r) s whole opens caps
          = some res →
        ∃ rest, s = cs ++ rest
          ∧ matchItems r rest (whole ++ cs) (opens.map fun o => o ++ cs) caps = some res := by
  intro cs
  induction cs with
  | nil => intro s whole opens h; exact ⟨s, rfl, by simpa using h⟩
  | cons c cs ih =>
    intro s whole opens h
    simp only [List.map_cons, List.cons_append] at h
    obtain ⟨run, rest, hs, hlo, hrun, hhi, hk⟩ := matchItems_cls_some _ _ _ _ _ _ _ _ h
    have hlen : run.length = 1 := Nat.le_antisymm (hhi 1 rfl) hlo
    obtain ⟨x, rfl⟩ := List.length_eq_one.1 hlen
    have hx : x = c := by simpa using hrun x (List.mem_singleton_self x)
    subst hx
    obtain ⟨rest2, hr2, hk2⟩ := ih rest _ _ hk
    refine ⟨rest2, by rw [hs, hr2]; rfl, ?_⟩
    have hf : ((fun o : Str => o ++ cs) ∘ fun o => o ++ [x]) = fun o => o ++ x :: cs := by
      funext o; simp
    simpa [List.append_assoc, hf] using hk2

theorem matchItems_lit_some (str : String) (r : List Item) (s whole : Str)
    (opens caps : List Str) {res : Str × List Str}
    (h : matchItems (lit str ++ r) s whole opens caps = some res) :
    ∃ rest, s = utf8 str ++ rest
      ∧ matchItems r rest (whole ++ utf8 str) (opens.map fun o => o ++ utf8 str) caps
          = some res :=
  matchItems_litBytes_some r caps (utf8 str) s whole opens h

theorem findMatch_some {re : List Item} {m : Str × List Str} :
    ∀ {s : Str}, findMatch re s = some m →
      ∃ pre suf, s = pre ++ suf ∧ matchItems re suf [] [] [] = some m := by
  intro s
  induction s with
  | nil => intro h; exact ⟨[], [], rfl, by simpa [findMatch] using h⟩
  | cons c s ih =>
    intro h
    unfold findMatch at h
    cases hm : matchItems re (c :: s) [] [] [] with
    | some m2 =>
      rw [hm] at h
      simp only [Option.some.injEq] at h
      subst h
      exact ⟨[], c :: s, rfl, hm⟩
    | none =>
      rw [hm] at h
      obtain ⟨pre, suf, hs, hsuf⟩ := ih h
      exact ⟨c :: pre, suf, by rw [hs]; rfl, hsuf⟩

theorem matchItems_color_some {s whole : Str} {groups : List Str}
    (h : matchItems colorRegex s [] [] [] = some (whole, groups)) :
    ∃ hex alpha : Str, groups = [utf8 "#" ++ hex, alpha]
      ∧ 3 ≤ hex.length ∧ hex.length ≤ 8 ∧ (∀ c ∈ hex, isHexDigit c = true)
      ∧ alpha ≠ [] ∧ (∀ c ∈ alpha, isDigitOrDot c = true)
      ∧ whole = utf8 "color(" ++ utf8 "#" ++ hex ++ utf8 " alpha(" ++ alpha ++ utf8 "))" := by
  have hre : colorRegex = lit "color(" ++ (Item.gopen :: (lit "#" ++
      (Item.cls isHexDigit 3 (some 8) :: Item.gclose :: (lit " alpha(" ++
      (Item.gopen :: Item.cls isDigitOrDot 1 none :: Item.gclose :: (lit "))" ++ [])))))) := rfl
  rw [hre] at h
  obtain ⟨s1, _, h⟩ := matchItems_lit_some _ _ _ _ _ _ h
  rw [matchItems_gopen] at h
  obtain ⟨s2, _, h⟩ := matchItems_lit_some _ _ _ _ _ _ h
  obtain ⟨hex, s3, _, hlo, hhex, hhi, h⟩ := matchItems_cls_some _ _ _ _ _ _ _ _ h
  simp only [List.map_cons, List.map_nil, List.nil_append] at h
  rw [matchItems_gclose] at h
  obtain ⟨s4, _, h⟩ := matchItems_lit_some _ _ _ _ _ _ h
  simp only [List.map_nil] at h
  rw [matchItems_gopen] at h
  obtain ⟨alpha, s5, _, hlo2, halpha, _, h⟩ := matchItems_cls_some _ _ _ _ _ _ _ _ h
  simp only [List.map_cons, List.map_nil, List.nil_append] at h
  rw [matchItems_gclose] at h
  obtain ⟨s6, _, h⟩ := matchItems_lit_some _ _ _ _ _ _ h
  rw [matchItems_nil] at h
  simp only [Option.some.injEq, Prod.mk.injEq, List.reverse_cons, List.reverse_nil,
    List.nil_append, List.singleton_append] at h
  refine ⟨hex, alpha, h.2.symm, hlo, hhi 8 rfl, hhex, ?_, halpha, ?_⟩
  · intro h0
    subst h0
    simp at hlo2
  · rw [← h.1]

/-! ## Lemmas: balanced tags -/

theorem replaceScan_byte (c : Nat) (new : Str) :
    ∀ s : Str, replaceScan [c] new 0 s = s.flatMap fun x => if x = c then new else [x] := by
  intro s
  induction s with
  | nil => rfl
  | cons x s ih =>
    by_cases hx : x = c
    · subst hx
      simp [replaceScan, HasPrefix, ih]
    · simp [replaceScan, HasPrefix, hx, ih]

theorem mem_replaceAll_byte {c d : Nat} {new s : Str} (h : d ∈ ReplaceAll s [c] new) :
    d ∈ new ∨ (d ∈ s ∧ d ≠ c) := by
  simp only [ReplaceAll, List.cons_ne_nil, if_false, replaceScan_byte, List.mem_flatMap] at h
  obtain ⟨x, hx, hd⟩ := h
  by_cases hxc : x = c
  · rw [if_pos hxc] at hd
    exact Or.inl hd
  · rw [if_neg hxc] at hd
    have : d = x := by simpa using hd
    subst this
    exact Or.inr ⟨hx, hxc⟩

theorem escape_no_angle (s : Str) : 60 ∉ escape s ∧ 62 ∉ escape s := by
  have e1 : utf8 "<" = [60] := rfl
  have e2 : utf8 ">" = [62] := rfl
  unfold escape
  simp only [e1, e2]
  have h60 : ∀ r : Str, 60 ∉ ReplaceAll r [60] (utf8 "&lt;") := by
    intro r h
    rcases mem_replaceAll_byte h with h | h
    · revert h; decide
    · exact h.2 rfl
  constructor
  · intro h
    rcases mem_replaceAll_byte h with h | h
    · revert h; decide
    · exact h60 _ h.1
  · intro h
    rcases mem_replaceAll_byte h with h | h
    · revert h; decide
    · exact h.2 rfl

theorem balanced_nil : Balanced [] := fun _ _ => rfl

theorem balanced_append {a b : Str} (ha : Balanced a) (hb : Balanced b) : Balanced (a ++ b) := by
  intro stack rest
  rw [List.append_assoc, ha, hb]

theorem balanced_of_no_angle : ∀ {x : Str}, 60 ∉ x → 62 ∉ x → Balanced x := by
  intro x
  induction x with
  | nil => intro _ _; exact balanced_nil
  | cons c x ih =>
    intro h1 h2 stack rest
    have hc1 : c ≠ 60 := fun h => h1 (by simp [h])
    have hc2 : c ≠ 62 := fun h => h2 (by simp [h])
    have := ih (fun h => h1 (List.mem_cons_of_mem _ h)) (fun h => h2 (List.mem_cons_of_mem _ h))
      stack rest
    simpa [scanTags, hc1, hc2] using this

theorem balanced_flatten : ∀ {l : List Str}, (∀ x ∈ l, Balanced x) → Balanced l.flatten := by
  intro l
  induction l with
  | nil => intro _; exact balanced_nil
  | cons a l ih =>
    intro h
    rw [List.flatten_cons]
    exact balanced_append (h a (List.mem_cons_self _ _))
      (ih fun x hx => h x (List.mem_cons_of_mem _ hx))

theorem balanced_elem {o x c name : Str} (ho : Opens o name) (hx : Balanced x)
    (hc : Closes c name) : Balanced (o ++ x ++ c) := by
  intro stack rest
  rw [List.append_assoc, List.append_assoc, ho, hx, hc]

theorem balanced_escape (s : Str) : Balanced (escape s) :=
  balanced_of_no_angle (escape_no_angle s).1 (escape_no_angle s).2

theorem balanced_indent (n : Nat) : Balanced (List.replicate n (utf8 "  ")).flatten := by
  apply balanced_flatten
  intro x hx
  rw [List.eq_of_mem_replicate hx]
  exact balanced_of_no_angle (by decide) (by decide)

theorem opens_key : Opens (utf8 "<key>") (utf8 "key") := fun _ _ => rfl

theorem closes_key : Closes (utf8 "</key>\n") (utf8 "key") := fun _ _ => rfl

theorem opens_string : Opens (utf8 "<string>") (utf8 "string") := fun _ _ => rfl

theorem closes_string : Closes (utf8 "</string>\n") (utf8 "string") := fun _ _ => rfl

theorem balanced_writeNode (indent : Nat) (key value : Str) :
    Balanced (writeNode [] indent key value) := by
  have h : writeNode [] indent key value
      = ((List.replicate indent (utf8 "  ")).flatten
          ++ (utf8 "<key>" ++ escape key ++ utf8 "</key>\n"))
        ++ ((List.replicate indent (utf8 "  ")).flatten
          ++ (utf8 "<string>" ++ escape value ++ utf8 "</string>\n")) := by
    simp [writeNode, List.append_assoc]
  rw [h]
  exact balanced_append
    (balanced_append (balanced_indent indent)
      (balanced_elem opens_key (balanced_escape key) closes_key))
    (balanced_append (balanced_indent indent)
      (balanced_elem opens_string (balanced_escape value) closes_string))

/-! ## Lemmas: the frame of the output -/

theorem convert_frame_iff (lib : ColorLib) (t : Theme) (uuid out : Str) :
    Convert lib t uuid = some out ↔
      ∃ (globals : Str) (dicts : List Str),
        writeGlobals lib t [] t.Globals.Keys = some globals
        ∧ List.Forall₂ (RuleDict lib t) t.Rules dicts
        ∧ out = writeBasicInfo (writeHeader []) t uuid
            ++ utf8 "    <key>settings</key>\n    <array>\n      <dict>\n"
            ++ utf8 "        <key>settings</key>\n        <dict>\n"
            ++ globals
            ++ utf8 "        </dict>\n      </dict>\n"
            ++ dicts.flatten
            ++ utf8 "    </array>\n  </dict>\n</plist>\n" := by
  have h1 : utf8 "    <key>settings</key>\n    <array>\n      <dict>\n"
      = utf8 "    <key>settings</key>\n" ++ utf8 "    <array>\n" ++ utf8 "      <dict>\n" := rfl
  have h2 : utf8 "        <key>settings</key>\n        <dict>\n"
      = utf8 "        <key>settings</key>\n" ++ utf8 "        <dict>\n" := rfl
  have h3 : utf8 "        </dict>\n      </dict>\n"
      = utf8 "        </dict>\n" ++ utf8 "      </dict>\n" := rfl
  have h4 : utf8 "    </array>\n  </dict>\n</plist>\n"
      = utf8 "    </array>\n" ++ utf8 "  </dict>\n" ++ utf8 "</plist>\n" := rfl
  have hln : ∀ (buf : Str) (line : String), Fprintln buf line = buf ++ (utf8 line ++ utf8 "\n") :=
    fun buf line => by simp [Fprintln]
  have hl1 : utf8 "    <key>settings</key>" ++ utf8 "\n" = utf8 "    <key>settings</key>\n" := rfl
  have hl2 : utf8 "    <array>" ++ utf8 "\n" = utf8 "    <array>\n" := rfl
  have hl3 : utf8 "      <dict>" ++ utf8 "\n" = utf8 "      <dict>\n" := rfl
  have hl4 : utf8 "        <key>settings</key>" ++ utf8 "\n"
      = utf8 "        <key>settings</key>\n" := rfl
  have hl5 : utf8 "        <dict>" ++ utf8 "\n" = utf8 "        <dict>\n" := rfl
  have hl6 : utf8 "        </dict>" ++ utf8 "\n" = utf8 "        </dict>\n" := rfl
  have hl7 : utf8 "      </dict>" ++ utf8 "\n" = utf8 "      </dict>\n" := rfl
  have hl8 : utf8 "    </array>" ++ utf8 "\n" = utf8 "    </array>\n" := rfl
  have hl9 : utf8 "  </dict>" ++ utf8 "\n" = utf8 "  </dict>\n" := rfl
  have hl10 : utf8 "</plist>" ++ utf8 "\n" = utf8 "</plist>\n" := rfl
  simp only [Convert, writeBody, writeFooter, hln, hl1, hl2, hl3, hl4, hl5, hl6, hl7, hl8, hl9,
    hl10, h1, h2, h3, h4]
  rw [writeGlobals_append]
  constructor
  · intro h
    cases hg : writeGlobals lib t [] t.Globals.Keys with
    | none => rw [hg] at h; cases h
    | some g =>
      rw [hg] at h
      simp only [Option.map_some', Option.some_bind] at h
      rw [writeRules_append] at h
      cases hr : writeRules lib t [] t.Rules with
      | none => rw [hr] at h; cases h
      | some rules =>
        rw [hr] at h
        simp only [Option.map_some', Option.some_bind, Option.some.injEq] at h
        obtain ⟨dicts, hd, rfl⟩ := (writeRules_iff lib t _ _).1 hr
        refine ⟨g, dicts, rfl, hd, ?_⟩
        rw [← h]
        simp only [List.append_assoc]
  · rintro ⟨g, dicts, hg, hd, rfl⟩
    rw [hg]
    simp only [Option.map_some', Option.some_bind]
    rw [writeRules_append, (writeRules_iff lib t _ _).2 ⟨dicts, hd, rfl⟩]
    simp only [Option.map_some', Option.some_bind, Option.some.injEq, List.append_assoc]

/-! ## Lemmas: the output has balanced tags -/

theorem balanced_fieldWritten {lib : ColorLib} {t : Theme} {key : String} {raw text : Str}
    (h : FieldWritten lib t key raw text) : Balanced text := by
  rcases h with ⟨_, rfl⟩ | ⟨_, value, _, rfl⟩
  · exact balanced_nil
  · have ho1 : Opens (utf8 "          <key>") (utf8 "key") := fun _ _ => rfl
    have ho2 : Opens (utf8 "          <string>") (utf8 "string") := fun _ _ => rfl
    have e : utf8 "          <key>" ++ escape (utf8 key) ++ utf8 "</key>\n"
          ++ utf8 "          <string>" ++ escape value ++ utf8 "</string>\n"
        = (utf8 "          <key>" ++ escape (utf8 key) ++ utf8 "</key>\n")
          ++ (utf8 "          <string>" ++ escape value ++ utf8 "</string>\n") := by
      simp only [List.append_assoc]
    rw [e]
    exact balanced_append (balanced_elem ho1 (balanced_escape _) closes_key)
      (balanced_elem ho2 (balanced_escape _) closes_string)

theorem balanced_ruleDict {lib : ColorLib} {t : Theme} {r : Rule} {dict : Str}
    (h : RuleDict lib t r dict) : Balanced dict := by
  obtain ⟨f1, f2, f3, f4, h1, h2, h3, h4, rfl⟩ := h
  have ha : Opens (utf8 "      <dict>\n") (utf8 "dict") := fun _ _ => rfl
  have hb : Opens (utf8 "        <key>name</key>\n        <string>") (utf8 "string") :=
    fun _ _ => rfl
  have hc : Opens (utf8 "        <key>scope</key>\n        <string>") (utf8 "string") :=
    fun _ _ => rfl
  have hd : Opens (utf8 "        <key>settings</key>\n        <dict>\n") (utf8 "dict") :=
    fun _ _ => rfl
  have he : ∀ (stack : List Str) (rest : Str),
      scanTags (utf8 "dict" :: utf8 "dict" :: stack) none
        (utf8 "        </dict>\n      </dict>\n" ++ rest) = scanTags stack none rest :=
    fun _ _ => rfl
  intro stack rest
  simp only [List.append_assoc]
  rw [ha, hb, balanced_escape r.Name, closes_string, hc, balanced_escape r.Scope, closes_string,
    hd, balanced_fieldWritten h1, balanced_fieldWritten h2, balanced_fieldWritten h3,
    balanced_fieldWritten h4, he]

theorem balanced_ruleDicts {lib : ColorLib} {t : Theme} :
    ∀ {rules : List Rule} {dicts : List Str}, List.Forall₂ (RuleDict lib t) rules dicts →
      Balanced dicts.flatten := by
  intro rules dicts h
  apply balanced_flatten
  induction h with
  | nil => intro x hx; cases hx
  | cons hr _ ih =>
    intro x hx
    rcases List.mem_cons.1 hx with rfl | hx
    · exact balanced_ruleDict hr
    · exact ih x hx

theorem balanced_globals {lib : ColorLib} {t : Theme} {keys : List Str} {globals : Str}
    (h : writeGlobals lib t [] keys = some globals) : Balanced globals := by
  obtain ⟨values, _, rfl⟩ := (writeGlobals_iff lib t keys [] globals).1 h
  rw [List.nil_append, List.flatMap_def]
  apply balanced_flatten
  intro x hx
  obtain ⟨kv, _, rfl⟩ := List.mem_map.1 hx
  exact balanced_writeNode 5 kv.1 kv.2

theorem balanced_basicInfo (t : Theme) (uuid buf : Str) :
    ∃ info, writeBasicInfo buf t uuid = buf ++ info ∧ Balanced info := by
  unfold writeBasicInfo
  simp only []
  by_cases ha : t.Author = []
  · refine ⟨writeNode [] 2 (utf8 "name") t.Name
        ++ (writeNode [] 2 (utf8 "colorSpaceName") (utf8 "sRGB")
        ++ writeNode [] 2 (utf8 "uuid") uuid), ?_, ?_⟩
    · simp only [ha, ne_eq, not_true_eq_false, if_false]
      rw [writeNode_append _ 2 (utf8 "uuid"), writeNode_append _ 2 (utf8 "colorSpaceName"),
        writeNode_append _ 2 (utf8 "name")]
      simp only [List.append_assoc]
    · exact balanced_append (balanced_writeNode _ _ _)
        (balanced_append (balanced_writeNode _ _ _) (balanced_writeNode _ _ _))
  · refine ⟨writeNode [] 2 (utf8 "name") t.Name
        ++ (writeNode [] 2 (utf8 "author") t.Author
        ++ (writeNode [] 2 (utf8 "colorSpaceName") (utf8 "sRGB")
        ++ writeNode [] 2 (utf8 "uuid") uuid)), ?_, ?_⟩
    · simp only [ha, ne_eq, not_false_eq_true, if_true]
      rw [writeNode_append _ 2 (utf8 "uuid"), writeNode_append _ 2 (utf8 "colorSpaceName"),
        writeNode_append _ 2 (utf8 "author"), writeNode_append _ 2 (utf8 "name")]
      simp only [List.append_assoc]
    · exact balanced_append (balanced_writeNode _ _ _)
        (balanced_append (balanced_writeNode _ _ _)
          (balanced_append (balanced_writeNode _ _ _) (balanced_writeNode _ _ _)))

set_option maxRecDepth 100000 in
theorem scanTags_header (rest : Str) :
    scanTags [] none (writeHeader [] ++ rest)
      = scanTags [utf8 "dict", utf8 "plist"] none rest :=
  rfl

theorem scanTags_frame {t : Theme} {uuid globals : Str} {dicts : List Str}
    (hg : Balanced globals) (hd : Balanced dicts.flatten) :
    scanTags [] none (writeBasicInfo (writeHeader []) t uuid
        ++ utf8 "    <key>settings</key>\n    <array>\n      <dict>\n"
        ++ utf8 "        <key>settings</key>\n        <dict>\n"
        ++ globals
        ++ utf8 "        </dict>\n      </dict>\n"
        ++ dicts.flatten
        ++ utf8 "    </array>\n  </dict>\n</plist>\n") = some ([], none) := by
  obtain ⟨info, hinfo, hbal⟩ := balanced_basicInfo t uuid (writeHeader [])
  have h1 : ∀ (stack : List Str) (rest : Str),
      scanTags stack none (utf8 "    <key>settings</key>\n    <array>\n      <dict>\n" ++ rest)
        = scanTags (utf8 "dict" :: utf8 "array" :: stack) none rest := fun _ _ => rfl
  have h2 : Opens (utf8 "        <key>settings</key>\n        <dict>\n") (utf8 "dict") :=
    fun _ _ => rfl
  have h3 : ∀ (stack : List Str) (rest : Str),
      scanTags (utf8 "dict" :: utf8 "dict" :: stack) none
        (utf8 "        </dict>\n      </dict>\n" ++ rest) = scanTags stack none rest :=
    fun _ _ => rfl
  have h4 : scanTags [utf8 "array", utf8 "dict", utf8 "plist"] none
      (utf8 "    </array>\n  </dict>\n</plist>\n") = some ([], none) := rfl
  rw [hinfo]
  simp only [List.append_assoc]
  rw [scanTags_header, hbal, h1, h2, hg, h3, hd, h4]

/-! ## Lemmas: several references in one text -/

theorem append_cons_inj_left {c : Nat} : ∀ {x x2 y y2 : Str}, c ∉ x → c ∉ x2 →
    x ++ c :: y = x2 ++ c :: y2 → x = x2 ∧ y = y2 := by
  intro x
  induction x with
  | nil =>
    intro x2 y y2 _ h2 h
    cases x2 with
    | nil => exact ⟨rfl, by simpa using h⟩
    | cons d x2 =>
      have hd : c = d := by simpa using (List.cons.inj h).1
      exact absurd (by simp [hd]) h2
  | cons a x ih =>
    intro x2 y y2 h1 h2 h
    cases x2 with
    | nil =>
      have hd : a = c := by simpa using (List.cons.inj h).1
      exact absurd (by simp [hd]) h1
    | cons d x2 =>
      have h' := List.cons.inj h
      obtain ⟨e1, e2⟩ := ih (fun hc => h1 (List.mem_cons_of_mem _ hc))
        (fun hc => h2 (List.mem_cons_of_mem _ hc)) h'.2
      exact ⟨by rw [h'.1, e1], e2⟩

theorem append_cons_unique {c : Nat} : ∀ {x x2 y y2 : Str}, c ∉ x → c ∉ y →
    x ++ c :: y = x2 ++ c :: y2 → x = x2 ∧ y = y2 := by
  intro x
  induction x with
  | nil =>
    intro x2 y y2 _ hy h
    cases x2 with
    | nil => exact ⟨rfl, by simpa using h⟩
    | cons d x2 =>
      have h' := List.cons.inj h
      exact absurd (by rw [h'.2]; simp) hy
  | cons a x ih =>
    intro x2 y y2 h1 hy h
    cases x2 with
    | nil =>
      have hd : a = c := by simpa using (List.cons.inj h).1
      exact absurd (by simp [hd]) h1
    | cons d x2 =>
      have h' := List.cons.inj h
      obtain ⟨e1, e2⟩ := ih (fun hc => h1 (List.mem_cons_of_mem _ hc)) hy h'.2
      exact ⟨by rw [h'.1, e1], e2⟩

theorem var_bytes : utf8 "var(" = [118, 97, 114, 40] ∧ utf8 ")" = [41] := by decide

theorem no_straddle {q r : Str} (hq : 40 ∉ q) (hne : q ≠ []) (hr : StartsRef r) :
    HasPrefix (q ++ r) (utf8 "var(") = false := by
  rw [var_bytes.1]
  have hr2 : r = [] ∨ ∃ rest, r = 118 :: 97 :: 114 :: 40 :: rest := by
    rcases hr with h | ⟨rest, h⟩
    · exact Or.inl h
    · exact Or.inr ⟨rest, by rw [h, var_bytes.1]; rfl⟩
  cases q with
  | nil => exact absurd rfl hne
  | cons a q =>
    cases q with
    | nil => rcases hr2 with rfl | ⟨rest, rfl⟩ <;> simp [HasPrefix]
    | cons b q =>
      cases q with
      | nil => rcases hr2 with rfl | ⟨rest, rfl⟩ <;> simp [HasPrefix]
      | cons c q =>
        cases q with
        | nil => rcases hr2 with rfl | ⟨rest, rfl⟩ <;> simp [HasPrefix]
        | cons d q =>
          have hd : d ≠ 40 := fun h => hq (by simp [h])
          simp [HasPrefix, hd]

theorem hasPrefix_of_append {s p x : Str} (h : HasPrefix s (p ++ x) = true) :
    HasPrefix s p = true := by
  obtain ⟨t, rfl⟩ := (hasPrefix_iff _ _).1 h
  rw [List.append_assoc]
  exact hasPrefix_append _ _

theorem replaceScan_cons_false (old new : Str) (c : Nat) (s : Str)
    (h : HasPrefix (c :: s) old = false) :
    replaceScan old new 0 (c :: s) = c :: replaceScan old new 0 s := by
  simp [replaceScan, h]

theorem replaceScan_through (w new r : Str) (hr : StartsRef r) :
    ∀ q : Str, 40 ∉ q →
      replaceScan (utf8 "var(" ++ w) new 0 (q ++ r) = q ++ replaceScan (utf8 "var(" ++ w) new 0 r := by
  intro q
  induction q with
  | nil => intro _; rfl
  | cons c q ih =>
    intro hq
    have hp : HasPrefix (c :: (q ++ r)) (utf8 "var(" ++ w) = false := by
      cases h : HasPrefix (c :: (q ++ r)) (utf8 "var(" ++ w) with
      | false => rfl
      | true =>
        have h1 := hasPrefix_of_append h
        have h2 := no_straddle hq (List.cons_ne_nil c q) hr
        rw [List.cons_append, h1] at h2
        cases h2
    have := ih fun h => hq (List.mem_cons_of_mem _ h)
    rw [List.cons_append, replaceScan_cons_false _ _ _ _ hp, this, List.cons_append]

theorem findMatch_through (r : Str) (hr : StartsRef r) :
    ∀ q : Str, 40 ∉ q → findMatch varRegex (q ++ r) = findMatch varRegex r := by
  intro q
  induction q with
  | nil => intro _; rfl
  | cons c q ih =>
    intro hq
    have hm : matchItems varRegex (c :: (q ++ r)) [] [] [] = none := by
      cases h : matchItems varRegex (c :: (q ++ r)) [] [] [] with
      | none => rfl
      | some m =>
        have hre : varRegex = lit "var(" ++
            (Item.gopen :: Item.cls notParen 1 none :: Item.gclose :: (lit ")" ++ [])) := rfl
        rw [hre] at h
        obtain ⟨rest, hs, _⟩ := matchItems_lit_some _ _ _ _ _ _ h
        have h2 := no_straddle hq (List.cons_ne_nil c q) hr
        rw [List.cons_append, hs, hasPrefix_append] at h2
        cases h2
    have := ih fun h => hq (List.mem_cons_of_mem _ h)
    simp only [List.cons_append, findMatch, List.append_eq, hm, this]

theorem refs_cons (name : Str) (names : List Str) :
    refs (name :: names) = utf8 "var(" ++ name ++ utf8 ")" ++ refs names := by
  simp [refs]

theorem refs_append (a b : List Str) : refs (a ++ b) = refs a ++ refs b := by
  simp [refs]

theorem startsRef_refs (names : List Str) : StartsRef (refs names) := by
  cases names with
  | nil => exact Or.inl rfl
  | cons n ns => exact Or.inr ⟨n ++ utf8 ")" ++ refs ns, by simp [refs_cons]⟩

theorem replaceScan_head (old new rest : Str) (h : old ≠ []) :
    replaceScan old new 0 (old ++ rest) = new ++ replaceScan old new 0 rest := by
  cases old with
  | nil => exact absurd rfl h
  | cons c cs =>
    have hp : HasPrefix (c :: (cs ++ rest)) (c :: cs) = true := by
      simpa using hasPrefix_append (c :: cs) rest
    have hs := replaceScan_skip (c :: cs) new rest cs
    simp [replaceScan, hp, hs]

theorem replaceScan_other_refs (name new : Str) (hp : 41 ∉ name) :
    ∀ names : List Str, name ∉ names → (∀ x ∈ names, 40 ∉ x ∧ 41 ∉ x) →
      replaceScan (utf8 "var(" ++ (name ++ utf8 ")")) new 0 (refs names) = refs names := by
  intro names
  induction names with
  | nil => intro _ _; rfl
  | cons n ns ih =>
    intro hmem hall
    have hn := hall n (List.mem_cons_self _ _)
    have hne : n ≠ name := fun h => hmem (by simp [h])
    have ih2 := ih (fun h => hmem (List.mem_cons_of_mem _ h))
      (fun x hx => hall x (List.mem_cons_of_mem _ hx))
    have hW : utf8 "var(" ++ (name ++ utf8 ")") = 118 :: 97 :: 114 :: 40 :: (name ++ [41]) := rfl
    have hD : refs (n :: ns) = 118 :: 97 :: 114 :: 40 :: ((n ++ [41]) ++ refs ns) := by
      rw [refs_cons]
      have e1 : utf8 "var(" = [118, 97, 114, 40] := var_bytes.1
      have e2 : utf8 ")" = [41] := var_bytes.2
      simp [e1, e2]
    have h0 : HasPrefix (118 :: 97 :: 114 :: 40 :: ((n ++ [41]) ++ refs ns))
        (118 :: 97 :: 114 :: 40 :: (name ++ [41])) = false := by
      cases h : HasPrefix (118 :: 97 :: 114 :: 40 :: ((n ++ [41]) ++ refs ns))
          (118 :: 97 :: 114 :: 40 :: (name ++ [41])) with
      | false => rfl
      | true =>
        obtain ⟨t, ht⟩ := (hasPrefix_iff _ _).1 h
        simp only [List.cons_append, List.cons.injEq, true_and, List.append_assoc,
          List.nil_append] at ht
        exact absurd (append_cons_inj_left hn.2 hp ht).1 hne
    have hq : 40 ∉ n ++ [41] := by
      intro h
      rcases List.mem_append.1 h with h | h
      · exact hn.1 h
      · simp at h
    have hthrough := replaceScan_through (name ++ utf8 ")") new (refs ns) (startsRef_refs ns)
      (n ++ [41]) hq
    rw [hW] at hthrough ih2
    have h1 : ∀ s : Str, HasPrefix (97 :: s) (118 :: 97 :: 114 :: 40 :: (name ++ [41])) = false :=
      fun s => by simp [HasPrefix]
    have h2 : ∀ s : Str, HasPrefix (114 :: s) (118 :: 97 :: 114 :: 40 :: (name ++ [41])) = false :=
      fun s => by simp [HasPrefix]
    have h3 : ∀ s : Str, HasPrefix (40 :: s) (118 :: 97 :: 114 :: 40 :: (name ++ [41])) = false :=
      fun s => by simp [HasPrefix]
    rw [hW, hD, replaceScan_cons_false _ _ _ _ h0, replaceScan_cons_false _ _ _ _ (h1 _),
      replaceScan_cons_false _ _ _ _ (h2 _), replaceScan_cons_false _ _ _ _ (h3 _), hthrough, ih2]

theorem replaceAll_one_ref (p name new : Str) (names : List Str) (hp : 40 ∉ p)
    (hn : 41 ∉ name) (hmem : name ∉ names) (hall : ∀ x ∈ names, 40 ∉ x ∧ 41 ∉ x) :
    ReplaceAll (p ++ (utf8 "var(" ++ name ++ utf8 ")" ++ refs names))
        (utf8 "var(" ++ name ++ utf8 ")") new
      = p ++ (new ++ refs names) := by
  have hW : utf8 "var(" ++ name ++ utf8 ")" = utf8 "var(" ++ (name ++ utf8 ")") := by
    simp
  have hne : utf8 "var(" ++ (name ++ utf8 ")") ≠ [] := by
    rw [var_bytes.1]; simp
  rw [hW]
  unfold ReplaceAll
  rw [if_neg hne, replaceScan_through _ _ _ (Or.inr ⟨_, List.append_assoc _ _ _⟩) p hp,
    replaceScan_head _ _ _ hne, replaceScan_other_refs name new hn names hmem hall]

theorem findMatch_one_ref (p name : Str) (rest : Str) (hp : 40 ∉ p) (hne : name ≠ [])
    (hn : 41 ∉ name) :
    findMatch varRegex (p ++ (utf8 "var(" ++ name ++ utf8 ")" ++ rest))
      = some (utf8 "var(" ++ name ++ utf8 ")", [name]) := by
  rw [findMatch_through _ (Or.inr ⟨name ++ utf8 ")" ++ rest, by simp⟩) p hp]
  exact findMatch_var name rest hne hn

theorem matchItems_var_some {s whole : Str} {groups : List Str}
    (h : matchItems varRegex s [] [] [] = some (whole, groups)) :
    ∃ name rest : Str, groups = [name] ∧ name ≠ [] ∧ 41 ∉ name
      ∧ whole = utf8 "var(" ++ name ++ utf8 ")" ∧ s = whole ++ rest := by
  have hre : varRegex = lit "var(" ++
      (Item.gopen :: Item.cls notParen 1 none :: Item.gclose :: (lit ")" ++ [])) := rfl
  rw [hre] at h
  obtain ⟨s1, e1, h⟩ := matchItems_lit_some _ _ _ _ _ _ h
  rw [matchItems_gopen] at h
  obtain ⟨name, s2, e2, hlo, hname, _, h⟩ := matchItems_cls_some _ _ _ _ _ _ _ _ h
  simp only [List.map_cons, List.map_nil, List.nil_append] at h
  rw [matchItems_gclose] at h
  obtain ⟨s3, e3, h⟩ := matchItems_lit_some _ _ _ _ _ _ h
  rw [matchItems_nil] at h
  simp only [Option.some.injEq, Prod.mk.injEq, List.reverse_cons, List.reverse_nil,
    List.nil_append, List.singleton_append] at h
  refine ⟨name, s3, h.2.symm, ?_, ?_, h.1.symm, ?_⟩
  · intro h0
    subst h0
    simp at hlo
  · intro hm
    have := hname 41 hm
    simp [notParen] at this
  · rw [← h.1, e1, e2, e3]
    simp

theorem findMatch_leftmost {re : List Item} {m : Str × List Str} :
    ∀ {s : Str}, findMatch re s = some m →
      ∃ pre suf, s = pre ++ suf ∧ matchItems re suf [] [] [] = some m
        ∧ ∀ k, k < pre.length → matchItems re (s.drop k) [] [] [] = none := by
  intro s
  induction s with
  | nil => intro h; exact ⟨[], [], rfl, by simpa [findMatch] using h, by simp⟩
  | cons c s ih =>
    intro h
    unfold findMatch at h
    cases hm : matchItems re (c :: s) [] [] [] with
    | some m2 =>
      rw [hm] at h
      simp only [Option.some.injEq] at h
      subst h
      exact ⟨[], c :: s, rfl, hm, by simp⟩
    | none =>
      rw [hm] at h
      obtain ⟨pre, suf, hs, hsuf, hleft⟩ := ih h
      refine ⟨c :: pre, suf, by rw [hs]; rfl, hsuf, ?_⟩
      intro k hk
      cases k with
      | zero => exact hm
      | succ k => exact hleft k (by simpa using hk)

/-- One pass of `replaceVariables` on a text with a match: the leftmost match is a
reference `var(NAME)`, and every occurrence of its text is replaced by the value of
`NAME`. -/
theorem var_pass (t : Theme) {data : Str} (h : MatchString varRegex data = true) :
    ∃ pre name post : Str, data = pre ++ (utf8 "var(" ++ name ++ utf8 ")") ++ post
      ∧ (∀ k, k < pre.length → matchItems varRegex (data.drop k) [] [] [] = none)
      ∧ ∀ n, replaceVariablesLoop t (n + 1) data
          = replaceVariablesLoop t n
              (ReplaceAll data (utf8 "var(" ++ name ++ utf8 ")") (varValue t name)) := by
  unfold MatchString at h
  obtain ⟨⟨whole, groups⟩, hm⟩ := Option.isSome_iff_exists.1 h
  obtain ⟨pre, suf, hs, hsuf, hleft⟩ := findMatch_leftmost hm
  obtain ⟨name, rest, hg, _, _, hw, hrest⟩ := matchItems_var_some hsuf
  subst hg
  subst hw
  refine ⟨pre, name, rest, by rw [hs, hrest]; simp only [List.append_assoc], hleft, ?_⟩
  intro n
  exact replaceVariablesLoop_step t n hm

theorem contains_split {sub : Str} :
    ∀ {s : Str}, Contains s sub = true → ∃ pre post, s = pre ++ sub ++ post := by
  intro s
  induction s with
  | nil =>
    intro h
    obtain ⟨t, ht⟩ := (hasPrefix_iff sub []).1 (by simpa [Contains] using h)
    exact ⟨[], t, by simpa using ht⟩
  | cons c s ih =>
    intro h
    simp only [Contains, Bool.or_eq_true] at h
    rcases h with h | h
    · obtain ⟨t, ht⟩ := (hasPrefix_iff sub (c :: s)).1 h
      exact ⟨[], t, by simpa using ht⟩
    · obtain ⟨pre, post, hs⟩ := ih h
      exact ⟨c :: pre, post, by rw [hs]; simp⟩

theorem contains_single_paren {x y w : Str} (hx : 40 ∉ x) (hy : 40 ∉ y)
    (hw : ∀ pre, x ≠ pre ++ w) : Contains (x ++ 40 :: y) (w ++ [40]) = false := by
  cases h : Contains (x ++ 40 :: y) (w ++ [40]) with
  | false => rfl
  | true =>
    obtain ⟨pre, post, hs⟩ := contains_split h
    have hs2 : x ++ 40 :: y = (pre ++ w) ++ 40 :: post := by rw [hs]; simp
    exact absurd (append_cons_unique hx hy hs2).1 (hw pre)

theorem no_color_trigger {v name : Str} (hv : 40 ∉ v) (hn : 40 ∉ name) :
    Contains (v ++ (utf8 "var(" ++ name ++ utf8 ")")) (utf8 "color(") = false
    ∧ Contains (v ++ (utf8 "var(" ++ name ++ utf8 ")")) (utf8 "rgb(") = false
    ∧ Contains (v ++ (utf8 "var(" ++ name ++ utf8 ")")) (utf8 "rgba(") = false
    ∧ Contains (v ++ (utf8 "var(" ++ name ++ utf8 ")")) (utf8 "hsl(") = false
    ∧ Contains (v ++ (utf8 "var(" ++ name ++ utf8 ")")) (utf8 "hsla(") = false := by
  obtain ⟨_, h1, h2, h3, h4, h5, h6⟩ := trigger_bytes
  have hd : v ++ (utf8 "var(" ++ name ++ utf8 ")") = (v ++ [118, 97, 114]) ++ 40 :: (name ++ [41]) := by
    rw [h1, var_bytes.2]; simp
  have hx : 40 ∉ v ++ [118, 97, 114] := by
    intro h
    rcases List.mem_append.1 h with h | h
    · exact hv h
    · simp at h
  have hy : 40 ∉ name ++ [41] := by
    intro h
    rcases List.mem_append.1 h with h | h
    · exact hn h
    · simp at h
  rw [hd, h2, h3, h4, h5, h6]
  refine ⟨contains_single_paren (w := [99, 111, 108, 111, 114]) hx hy ?_,
    contains_single_paren (w := [114, 103, 98]) hx hy ?_,
    contains_single_paren (w := [114, 103, 98, 97]) hx hy ?_,
    contains_single_paren (w := [104, 115, 108]) hx hy ?_,
    contains_single_paren (w := [104, 115, 108, 97]) hx hy ?_⟩ <;>
  · intro pre h
    have := congrArg List.reverse h
    simp at this

theorem evalColors_of_no_trigger (lib : ColorLib) {s : Str}
    (h2 : Contains s (utf8 "color(") = false)
    (h3 : Contains s (utf8 "rgb(") = false) (h4 : Contains s (utf8 "rgba(") = false)
    (h5 : Contains s (utf8 "hsl(") = false) (h6 : Contains s (utf8 "hsla(") = false) :
    evalColors lib s = some (expandShort4 (expandShort3 s)) := by
  simp [evalColors, stageIf, h2, h3, h4, h5, h6]

/-- The passes on references written one after the other, behind a text `p` without
`(`: each pass expands the first reference left, when the names are pairwise
distinct and hold no parenthesis and the values hold no `(`. -/
theorem refs_loop (t : Theme) (tail : List Str) :
    ∀ (names : List Str) (p : Str) (n : Nat), 40 ∉ p → (names ++ tail).Nodup →
      (∀ x ∈ names ++ tail, x ≠ [] ∧ 40 ∉ x ∧ 41 ∉ x) →
      (∀ x ∈ names, (t.Variables x).isSome = true ∧ 40 ∉ (t.Variables x).getD []) →
      replaceVariablesLoop t (n + names.length) (p ++ refs (names ++ tail))
          = replaceVariablesLoop t n
              (p ++ ((names.flatMap fun x => (t.Variables x).getD []) ++ refs tail))
        ∧ replaceVariablesPasses t (n + names.length) (p ++ refs (names ++ tail))
          = replaceVariablesPasses t n
              (p ++ ((names.flatMap fun x => (t.Variables x).getD []) ++ refs tail))
            + names.length := by
  intro names
  induction names with
  | nil => intro p n _ _ _ _; simp
  | cons x xs ih =>
    intro p n hp hnd hall hdef
    have hx := hall x (by simp)
    have hdx := hdef x (by simp)
    obtain ⟨v, hv⟩ := Option.isSome_iff_exists.1 hdx.1
    have hv40 : 40 ∉ v := by simpa [hv] using hdx.2
    have hnd2 : (x :: (xs ++ tail)).Nodup := by simpa using hnd
    have hmem : x ∉ xs ++ tail := (List.nodup_cons.1 hnd2).1
    have hnd3 := (List.nodup_cons.1 hnd2).2
    have hall2 : ∀ y ∈ xs ++ tail, y ≠ [] ∧ 40 ∉ y ∧ 41 ∉ y :=
      fun y hy => hall y (by rw [List.cons_append]; exact List.mem_cons_of_mem _ hy)
    have hdata : p ++ refs (x :: xs ++ tail)
        = p ++ (utf8 "var(" ++ x ++ utf8 ")" ++ refs (xs ++ tail)) := by
      rw [List.cons_append, refs_cons]
    have hf := findMatch_one_ref p x (refs (xs ++ tail)) hp hx.1 hx.2.2
    have hr := replaceAll_one_ref p x v (xs ++ tail) hp hx.2.2 hmem
      (fun y hy => (hall2 y hy).2)
    have hp2 : 40 ∉ p ++ v := by
      intro h
      rcases List.mem_append.1 h with h | h
      · exact hp h
      · exact hv40 h
    obtain ⟨i1, i2⟩ := ih (p ++ v) n hp2 hnd3 hall2
      (fun y hy => hdef y (List.mem_cons_of_mem _ hy))
    rw [List.append_assoc, List.append_assoc] at i1 i2
    have e : n + (x :: xs).length = (n + xs.length) + 1 := by
      rw [List.length_cons]; omega
    have hval : (match t.Variables x with
        | some v => v
        | none => utf8 "[UNKNOWN-VAR:" ++ x ++ utf8 "]") = v := by rw [hv]
    have hflat : ((x :: xs).flatMap fun x => (t.Variables x).getD []) ++ refs tail
        = v ++ ((xs.flatMap fun x => (t.Variables x).getD []) ++ refs tail) := by
      simp [hv]
    rw [hdata, e, replaceVariablesLoop_step t _ hf, replaceVariablesPasses_step t _ hf, hval,
      hr, hflat, i1, i2]
    exact ⟨rfl, by rw [List.length_cons]; omega⟩

theorem refs_singleton (name : Str) : refs [name] = utf8 "var(" ++ name ++ utf8 ")" := by
  simp [refs]

theorem contains_refs_cons (name : Str) (names : List Str) :
    Contains (refs (name :: names)) (utf8 "var(") = true := by
  apply contains_of_hasPrefix
  rw [refs_cons, List.append_assoc, List.append_assoc]
  exact hasPrefix_append _ _

/-- The result of `eval` on the references to `names` followed by a reference to
`last`, when the passes of `replaceVariables` are used up by `names`. -/
theorem eval_refs_sixteen (lib : ColorLib) (t : Theme) (names : List Str) (last : Str)
    (hlen : names.length = 16) (hnd : (names ++ [last]).Nodup)
    (hnames : ∀ x ∈ names ++ [last], x ≠ [] ∧ 40 ∉ x ∧ 41 ∉ x)
    (hdef : ∀ x ∈ names, (t.Variables x).isSome = true ∧ 40 ∉ (t.Variables x).getD []) :
    replaceVariables (refs (names ++ [last])) t
        = some ((names.flatMap fun x => (t.Variables x).getD [])
            ++ (utf8 "var(" ++ last ++ utf8 ")"))
    ∧ replaceVariablesPasses t 16 (refs (names ++ [last])) = 16
    ∧ t.eval lib (refs (names ++ [last]))
        = some ((names.flatMap fun x => (t.Variables x).getD [])
            ++ (utf8 "var(" ++ last ++ utf8 ")")) := by
  obtain ⟨i1, i2⟩ := refs_loop t [last] names [] 0 (by simp) hnd hnames hdef
  rw [hlen, List.nil_append, List.nil_append, refs_singleton] at i1 i2
  have h1 : replaceVariables (refs (names ++ [last])) t
      = some ((names.flatMap fun x => (t.Variables x).getD [])
          ++ (utf8 "var(" ++ last ++ utf8 ")")) := by
    unfold replaceVariables
    exact i1
  have hv : 40 ∉ names.flatMap fun x => (t.Variables x).getD [] := by
    intro h
    obtain ⟨x, hx, hc⟩ := List.mem_flatMap.1 h
    exact (hdef x hx).2 hc
  have hl := hnames last (by simp)
  obtain ⟨c2, c3, c4, c5, c6⟩ := no_color_trigger hv hl.2.1
  have hcontains : Contains (refs (names ++ [last])) (utf8 "var(") = true := by
    cases names with
    | nil => simp at hlen
    | cons x xs => exact contains_refs_cons x _
  have hlong : 6 ≤ ((names.flatMap fun x => (t.Variables x).getD [])
      ++ (utf8 "var(" ++ last ++ utf8 ")")).length := by
    have : 1 ≤ last.length := List.length_pos.2 hl.1
    rw [var_bytes.1, var_bytes.2]
    simp only [List.length_append, List.length_cons, List.length_nil]
    omega
  refine ⟨h1, i2, ?_⟩
  rw [eval_eq]
  unfold stageIf
  rw [if_pos hcontains]
  dsimp only
  rw [h1, Option.some_bind, evalColors_of_no_trigger lib c2 c3 c4 c5 c6,
    expandShort3_of_not (fun h => by omega), expandShort4_of_not (fun h => by omega)]

/-! ## The claims -/

/-- Claim C1: `escape` does not replace each special character by exactly its own
entity.  It replaces the apostrophe and the double quote before the ampersand, so the
`&` of `&apos;` is escaped again: the rule name `O'Brien & Co. <test>` is written
with `&amp;apos;`, not as `O&apos;Brien &amp; Co. &lt;test&gt;`, although the name
itself does not contain `&amp;apos;`. -/
theorem escape_reescapes_apostrophe :
    escape (utf8 "O'Brien & Co. <test>") = utf8 "O&amp;apos;Brien &amp; Co. &lt;test&gt;"
    ∧ escape (utf8 "O'Brien & Co. <test>") ≠ utf8 "O&apos;Brien &amp; Co. &lt;test&gt;"
    ∧ Contains (utf8 "O'Brien & Co. <test>") (utf8 "&amp;apos;") = false
    ∧ Contains (escape (utf8 "O'Brien & Co. <test>")) (utf8 "&amp;apos;") = true := by
  decide

/-- Claim C2: `Theme.eval` is not total.  The pattern `rgbRegex` has no capture
group, so on `rgb(255, 0, 0)` the stage `convertRGBToHex` indexes the one-element
result of `FindStringSubmatch` at 1 and panics, for every theme. -/
theorem eval_rgb_panics (lib : ColorLib) (t : Theme) :
    t.eval lib (utf8 "rgb(255, 0, 0)") = none :=
  rfl

/-- Claim C3: for all numbers `r`, `g`, `b` (in particular those from 0 to 255) the
evaluation of `rgb(r, g, b)` panics instead of returning `#` and six hex digits. -/
theorem eval_rgb_notation_panics (lib : ColorLib) (t : Theme) (r g b : Nat) :
    t.eval lib (utf8 "rgb(" ++ decimal r ++ utf8 ", " ++ decimal g ++ utf8 ", " ++ decimal b
      ++ utf8 ")") = none := by
  have hm := findMatch_rgb (decimal r) (decimal g) (decimal b) (decimal_ne_nil r)
    (decimal_ne_nil g) (decimal_ne_nil b) (decimal_digits r) (decimal_digits g) (decimal_digits b)
  have hmem : ∀ c ∈ utf8 "rgb(" ++ decimal r ++ utf8 ", " ++ decimal g ++ utf8 ", " ++ decimal b
      ++ utf8 ")", c ≠ 118 ∧ c ≠ 99 := by
    intro c hc
    simp only [List.mem_append] at hc
    have hd : ∀ n, c ∈ decimal n → c ≠ 118 ∧ c ≠ 99 := fun n hn => by
      have := digit_bounds (decimal_digits n c hn)
      omega
    have hl : ∀ l : Str, (∀ x ∈ l, x ≠ 118 ∧ x ≠ 99) → c ∈ l → c ≠ 118 ∧ c ≠ 99 :=
      fun l hl h => hl c h
    rcases hc with (((((hc | hc) | hc) | hc) | hc) | hc) | hc
    · exact hl _ (by decide) hc
    · exact hd r hc
    · exact hl _ (by decide) hc
    · exact hd g hc
    · exact hl _ (by decide) hc
    · exact hd b hc
    · exact hl _ (by decide) hc
  have h1 : Contains (utf8 "rgb(" ++ decimal r ++ utf8 ", " ++ decimal g ++ utf8 ", "
      ++ decimal b ++ utf8 ")") (utf8 "var(") = false :=
    contains_eq_false (c := 118) (by decide) fun h => (hmem _ h).1 rfl
  have h2 : Contains (utf8 "rgb(" ++ decimal r ++ utf8 ", " ++ decimal g ++ utf8 ", "
      ++ decimal b ++ utf8 ")") (utf8 "color(") = false :=
    contains_eq_false (c := 99) (by decide) fun h => (hmem _ h).2 rfl
  have h3 : Contains (utf8 "rgb(" ++ decimal r ++ utf8 ", " ++ decimal g ++ utf8 ", "
      ++ decimal b ++ utf8 ")") (utf8 "rgb(") = true := by
    apply contains_of_hasPrefix
    simp only [List.append_assoc]
    exact hasPrefix_append _ _
  exact eval_none_of_rgb_match lib t h1 h2 h3 hm

/-- Claim C4: for a non-empty name without a closing parenthesis (byte 41) that is
not a key of `Variables`, `var(NAME)` evaluates to exactly `[UNKNOWN-VAR:NAME]`. -/
theorem eval_unknown_var (lib : ColorLib) (t : Theme) (name : Str) (hne : name ≠ [])
    (hp : 41 ∉ name) (hkey : t.Variables name = none) :
    t.eval lib (utf8 "var(" ++ name ++ utf8 ")")
      = some (utf8 "[UNKNOWN-VAR:" ++ name ++ utf8 "]") := by
  have hnp : 41 ∉ utf8 "[UNKNOWN-VAR:" ++ name ++ utf8 "]" := by
    intro h
    simp only [List.mem_append] at h
    rcases h with (h | h) | h
    · revert h; decide
    · exact hp h
    · revert h; decide
  have hv : (match t.Variables name with
      | some v => v
      | none => utf8 "[UNKNOWN-VAR:" ++ name ++ utf8 "]")
      = utf8 "[UNKNOWN-VAR:" ++ name ++ utf8 "]" := by rw [hkey]
  rw [eval_eq, stageVar_single t name _ hne hp hv
    (matchString_eq_false_of_no_paren closeParen_mem_varRegex hnp)]
  simp only [Option.some_bind, evalColors_no_paren lib hnp]
  rfl

/-- The witness of claim C4: `var(missing)` gives `[UNKNOWN-VAR:missing]`. -/
theorem eval_unknown_var_witness :
    utf8 "missing" ≠ [] ∧ 41 ∉ utf8 "missing" ∧ sampleTheme.Variables (utf8 "missing") = none
    ∧ sampleTheme.eval specColor (utf8 "var(missing)") = some (utf8 "[UNKNOWN-VAR:missing]") :=
  ⟨by decide, by decide, by decide,
    eval_unknown_var specColor sampleTheme (utf8 "missing") (by decide) (by decide) (by decide)⟩

/-- Claim C5: a reference evaluates like its value.  For a non-empty name without a
closing parenthesis whose value `v` holds no reference `var(...)`, the evaluation of
`var(NAME)` and the evaluation of `v` agree (in the result, and in panicking). -/
theorem eval_var_inline (lib : ColorLib) (t : Theme) (name v : Str) (hne : name ≠ [])
    (hp : 41 ∉ name) (hkey : t.Variables name = some v)
    (hv : MatchString varRegex v = false) :
    t.eval lib (utf8 "var(" ++ name ++ utf8 ")") = t.eval lib v := by
  have hval : (match t.Variables name with
      | some v => v
      | none => utf8 "[UNKNOWN-VAR:" ++ name ++ utf8 "]") = v := by rw [hkey]
  rw [eval_eq, eval_eq, stageVar_single t name v hne hp hval hv,
    stageIf_noMatch "var(" (fun d => replaceVariables d t) v
      (replaceVariablesLoop_noMatch t 16 hv)]

/-- The witness of claim C5: with `Variables = {X: "#fff"}`, `var(X)` evaluates like
`#fff`, to `#ffffff`. -/
theorem eval_var_inline_witness :
    utf8 "X" ≠ [] ∧ 41 ∉ utf8 "X" ∧ sampleTheme.Variables (utf8 "X") = some (utf8 "#fff")
    ∧ MatchString varRegex (utf8 "#fff") = false
    ∧ sampleTheme.eval specColor (utf8 "var(X)") = sampleTheme.eval specColor (utf8 "#fff")
    ∧ sampleTheme.eval specColor (utf8 "var(X)") = some (utf8 "#ffffff") :=
  ⟨by decide, by decide, by decide, by decide,
    eval_var_inline specColor sampleTheme (utf8 "X") (utf8 "#fff") (by decide) (by decide)
      (by decide) (by decide),
    by decide⟩

/-- Claim C6: for hex digits `a`, `b`, `c`, `d` and every theme, `#abc` evaluates to
`#aabbcc` and `#abcd` to `#aabbccdd`. -/
theorem eval_short_hex (lib : ColorLib) (t : Theme) (a b c d : Nat)
    (ha : isHexDigit a = true) (hb : isHexDigit b = true) (hc : isHexDigit c = true)
    (hd : isHexDigit d = true) :
    t.eval lib (utf8 "#" ++ [a, b, c]) = some (utf8 "#" ++ [a, a, b, b, c, c])
    ∧ t.eval lib (utf8 "#" ++ [a, b, c, d]) = some (utf8 "#" ++ [a, a, b, b, c, c, d, d]) := by
  have ha0 := not_hexDigit_open_paren ha
  have hb0 := not_hexDigit_open_paren hb
  have hc0 := not_hexDigit_open_paren hc
  have hd0 := not_hexDigit_open_paren hd
  have h3 : 40 ∉ utf8 "#" ++ [a, b, c] := by
    intro h
    have h0 : utf8 "#" = [35] := rfl
    simp only [h0, List.singleton_append, List.mem_cons, List.mem_singleton] at h
    rcases h with h | h | h | h | h
    · exact absurd h (by decide)
    · exact ha0 h.symm
    · exact hb0 h.symm
    · exact hc0 h.symm
    · cases h
  have h4 : 40 ∉ utf8 "#" ++ [a, b, c, d] := by
    intro h
    have h0 : utf8 "#" = [35] := rfl
    simp only [h0, List.singleton_append, List.mem_cons, List.mem_singleton] at h
    rcases h with h | h | h | h | h | h
    · exact absurd h (by decide)
    · exact ha0 h.symm
    · exact hb0 h.symm
    · exact hc0 h.symm
    · exact hd0 h.symm
    · cases h
  exact ⟨by rw [eval_of_no_open_paren lib t _ h3]; rfl,
    by rw [eval_of_no_open_paren lib t _ h4]; rfl⟩

/-- The witness of claim C6: `#1aF` gives `#11aaFF` and `#1aF9` gives `#11aaFF99`. -/
theorem eval_short_hex_witness :
    isHexDigit 49 = true ∧ isHexDigit 97 = true ∧ isHexDigit 70 = true ∧ isHexDigit 57 = true
    ∧ sampleTheme.eval specColor (utf8 "#1aF") = some (utf8 "#11aaFF")
    ∧ sampleTheme.eval specColor (utf8 "#1aF9") = some (utf8 "#11aaFF99") :=
  ⟨by decide, by decide, by decide, by decide,
    (eval_short_hex specColor sampleTheme 49 97 70 57 (by decide) (by decide) (by decide)
      (by decide)).1,
    (eval_short_hex specColor sampleTheme 49 97 70 57 (by decide) (by decide) (by decide)
      (by decide)).2⟩

/-- Claim C7: `eval` returns unchanged every text that holds none of the six
triggers and is not a text of 4 or 5 bytes starting with `#`; in particular `#`
followed by 6 or 8 hex digits is returned unchanged. -/
theorem eval_resolved_unchanged (lib : ColorLib) (t : Theme) :
    (∀ s : Str, Contains s (utf8 "var(") = false → Contains s (utf8 "color(") = false →
      Contains s (utf8 "rgb(") = false → Contains s (utf8 "rgba(") = false →
      Contains s (utf8 "hsl(") = false → Contains s (utf8 "hsla(") = false →
      ¬ (HasPrefix s (utf8 "#") = true ∧ (s.length = 4 ∨ s.length = 5)) →
      t.eval lib s = some s)
    ∧ (∀ ds : Str, (∀ d ∈ ds, isHexDigit d = true) → (ds.length = 6 ∨ ds.length = 8) →
      t.eval lib (utf8 "#" ++ ds) = some (utf8 "#" ++ ds)) := by
  constructor
  · intro s h1 h2 h3 h4 h5 h6 hs
    rw [eval_of_no_trigger lib t s h1 h2 h3 h4 h5 h6,
      expandShort3_of_not fun h => hs ⟨h.1, Or.inl h.2⟩,
      expandShort4_of_not fun h => hs ⟨h.1, Or.inr h.2⟩]
  · intro ds hds hlen
    have h0 : utf8 "#" = [35] := rfl
    have hp : 40 ∉ utf8 "#" ++ ds := by
      intro h
      simp only [h0, List.singleton_append, List.mem_cons] at h
      rcases h with h | h
      · exact absurd h (by decide)
      · exact not_hexDigit_open_paren (hds 40 h) rfl
    have hl : (utf8 "#" ++ ds).length = ds.length + 1 := by simp [h0]
    rw [eval_of_no_open_paren lib t _ hp,
      expandShort3_of_not fun h => by omega, expandShort4_of_not fun h => by omega]

/-- The witness of claim C7: `bold italic`, `#aabbcc` and `#aabbccdd` are returned
unchanged. -/
theorem eval_resolved_unchanged_witness :
    sampleTheme.eval specColor (utf8 "bold italic") = some (utf8 "bold italic")
    ∧ sampleTheme.eval specColor (utf8 "#aabbcc") = some (utf8 "#aabbcc")
    ∧ sampleTheme.eval specColor (utf8 "#aabbccdd") = some (utf8 "#aabbccdd") :=
  ⟨(eval_resolved_unchanged specColor sampleTheme).1 (utf8 "bold italic") (by decide)
      (by decide) (by decide) (by decide) (by decide) (by decide) (by decide),
    (eval_resolved_unchanged specColor sampleTheme).2 (utf8 "aabbcc") (by decide) (by decide),
    (eval_resolved_unchanged specColor sampleTheme).2 (utf8 "aabbccdd") (by decide) (by decide)⟩

/-- Claim C8: `Map.UnmarshalJSON` keeps the source order.  Decoding, into the zero
`Map` that `Read` starts from, an object whose members have pairwise distinct,
non-empty string keys and string values returns no error, `Keys` is the sequence
of the member keys in document order, and `Data` maps each key to its own value
and has no other key. -/
theorem unmarshal_keeps_order (members : List (Str × Str))
    (hne : ∀ kv ∈ members, kv.1 ≠ []) (hd : (members.map Prod.fst).Nodup) :
    (Map.zero.UnmarshalJSON (objectTokens members)).2 = false
    ∧ (Map.zero.UnmarshalJSON (objectTokens members)).1.Keys = members.map Prod.fst
    ∧ (∀ kv ∈ members, (Map.zero.UnmarshalJSON (objectTokens members)).1.Data kv.1 = some kv.2)
    ∧ (∀ k, k ∉ members.map Prod.fst →
        (Map.zero.UnmarshalJSON (objectTokens members)).1.Data k = none) := by
  rw [unmarshal_object Map.zero members hne]
  refine ⟨rfl, ?_, ?_, ?_⟩
  · simp [recordAll_keys, Map.zero]
  · exact recordAll_data_of_mem members _ hd
  · intro k hk
    rw [recordAll_data_of_not_mem members _ k hk]

/-- The witness of claim C8: the object with the keys `b`, `a`, `c` decodes to the
keys `b`, `a`, `c`. -/
theorem unmarshal_keeps_order_witness :
    (Map.zero.UnmarshalJSON (objectTokens
      [(utf8 "b", utf8 "var(X)"), (utf8 "a", utf8 "#abc"), (utf8 "c", utf8 "<&>")])).1.Keys
      = [utf8 "b", utf8 "a", utf8 "c"] :=
  (unmarshal_keeps_order
    [(utf8 "b", utf8 "var(X)"), (utf8 "a", utf8 "#abc"), (utf8 "c", utf8 "<&>")]
    (by decide) (by decide)).2.1

/-- The counterexample to claim C10: the object `{"a": "1", "a": "2"}` decodes to the
keys `a`, `a`, which holds a duplicate. -/
theorem unmarshal_duplicate_key :
    (Map.zero.UnmarshalJSON (objectTokens
      [(utf8 "a", utf8 "1"), (utf8 "a", utf8 "2")])).1.Keys = [utf8 "a", utf8 "a"]
    ∧ ¬ (Map.zero.UnmarshalJSON (objectTokens
      [(utf8 "a", utf8 "1"), (utf8 "a", utf8 "2")])).1.Keys.Nodup := by
  constructor
  · rfl
  · have h : (Map.zero.UnmarshalJSON (objectTokens
        [(utf8 "a", utf8 "1"), (utf8 "a", utf8 "2")])).1.Keys = [utf8 "a", utf8 "a"] := rfl
    rw [h]
    decide

/-- Claim C10, amended: after decoding any token stream into the zero `Map`, the
elements of `Keys` are exactly the keys of `Data`; and `Keys` has no duplicate when
the stream is an object whose members have pairwise distinct, non-empty string keys
and string values. -/
theorem unmarshal_keys_match_data (d : Decoder) :
    (∀ k, k ∈ (Map.zero.UnmarshalJSON d).1.Keys
      ↔ ((Map.zero.UnmarshalJSON d).1.Data k).isSome = true)
    ∧ (∀ members : List (Str × Str), d = objectTokens members →
        (∀ kv ∈ members, kv.1 ≠ []) → (members.map Prod.fst).Nodup →
        (Map.zero.UnmarshalJSON d).1.Keys.Nodup) := by
  constructor
  · exact unmarshalLoop_invariant d.tokens d.fail [] _ (by simp [Map.zero])
  · intro members hd hne hnd
    subst hd
    rw [unmarshal_object Map.zero members hne]
    simpa [recordAll_keys, Map.zero] using hnd

/-- The witness of the amended claim C10, at the object with the keys `b`, `a`, `c`. -/
theorem unmarshal_keys_match_data_witness :
    (Map.zero.UnmarshalJSON (objectTokens
      [(utf8 "b", utf8 "var(X)"), (utf8 "a", utf8 "#abc"), (utf8 "c", utf8 "<&>")])).1.Keys.Nodup :=
  (unmarshal_keys_match_data (objectTokens
    [(utf8 "b", utf8 "var(X)"), (utf8 "a", utf8 "#abc"), (utf8 "c", utf8 "<&>")])).2
    [(utf8 "b", utf8 "var(X)"), (utf8 "a", utf8 "#abc"), (utf8 "c", utf8 "<&>")]
    rfl (by decide) (by decide)

/-- Claim C9: `Convert` returns `out` exactly when every global value evaluates and
`out` is the fixed frame around the global settings dict, which holds one key line
and one string line per element of `Globals.Keys`, in the order of `Globals.Keys`,
with `escape key` and `escape (eval (Globals.Data[key]))`; `rules` is the text of
the rule dicts. -/
theorem convert_globals_in_key_order (lib : ColorLib) (t : Theme) (uuid out : Str) :
    Convert lib t uuid = some out ↔
      ∃ (values : List Str) (rules : Str),
        List.Forall₂ (fun key value => t.eval lib ((t.Globals.Data key).getD []) = some value)
          t.Globals.Keys values
        ∧ writeRules lib t [] t.Rules = some rules
        ∧ out = writeBasicInfo (writeHeader []) t uuid
            ++ utf8 "    <key>settings</key>\n    <array>\n      <dict>\n"
            ++ utf8 "        <key>settings</key>\n        <dict>\n"
            ++ ((List.zip t.Globals.Keys values).flatMap fun kv =>
                  utf8 "          <key>" ++ escape kv.1 ++ utf8 "</key>\n"
                    ++ utf8 "          <string>" ++ escape kv.2 ++ utf8 "</string>\n")
            ++ utf8 "        </dict>\n      </dict>\n"
            ++ rules
            ++ utf8 "    </array>\n  </dict>\n</plist>\n" := by
  have hnode : (fun kv : Str × Str => writeNode [] 5 kv.1 kv.2)
      = fun kv => utf8 "          <key>" ++ escape kv.1 ++ utf8 "</key>\n"
          ++ utf8 "          <string>" ++ escape kv.2 ++ utf8 "</string>\n" := by
    funext kv
    exact writeNode_five kv.1 kv.2
  have h1 : utf8 "    <key>settings</key>\n    <array>\n      <dict>\n"
      = utf8 "    <key>settings</key>\n" ++ utf8 "    <array>\n" ++ utf8 "      <dict>\n" := rfl
  have h2 : utf8 "        <key>settings</key>\n        <dict>\n"
      = utf8 "        <key>settings</key>\n" ++ utf8 "        <dict>\n" := rfl
  have h3 : utf8 "        </dict>\n      </dict>\n"
      = utf8 "        </dict>\n" ++ utf8 "      </dict>\n" := rfl
  have h4 : utf8 "    </array>\n  </dict>\n</plist>\n"
      = utf8 "    </array>\n" ++ utf8 "  </dict>\n" ++ utf8 "</plist>\n" := rfl
  have hln : ∀ (buf : Str) (line : String), Fprintln buf line = buf ++ (utf8 line ++ utf8 "\n") :=
    fun buf line => by simp [Fprintln]
  have hl1 : utf8 "    <key>settings</key>" ++ utf8 "\n" = utf8 "    <key>settings</key>\n" := rfl
  have hl2 : utf8 "    <array>" ++ utf8 "\n" = utf8 "    <array>\n" := rfl
  have hl3 : utf8 "      <dict>" ++ utf8 "\n" = utf8 "      <dict>\n" := rfl
  have hl4 : utf8 "        <key>settings</key>" ++ utf8 "\n"
      = utf8 "        <key>settings</key>\n" := rfl
  have hl5 : utf8 "        <dict>" ++ utf8 "\n" = utf8 "        <dict>\n" := rfl
  have hl6 : utf8 "        </dict>" ++ utf8 "\n" = utf8 "        </dict>\n" := rfl
  have hl7 : utf8 "      </dict>" ++ utf8 "\n" = utf8 "      </dict>\n" := rfl
  have hl8 : utf8 "    </array>" ++ utf8 "\n" = utf8 "    </array>\n" := rfl
  have hl9 : utf8 "  </dict>" ++ utf8 "\n" = utf8 "  </dict>\n" := rfl
  have hl10 : utf8 "</plist>" ++ utf8 "\n" = utf8 "</plist>\n" := rfl
  simp only [Convert, writeBody, writeFooter, hln, hl1, hl2, hl3, hl4, hl5, hl6, hl7, hl8, hl9,
    hl10, h1, h2, h3, h4]
  constructor
  · intro h
    cases hg : writeGlobals lib t
        (writeBasicInfo (writeHeader []) t uuid ++ utf8 "    <key>settings</key>\n"
          ++ utf8 "    <array>\n" ++ utf8 "      <dict>\n" ++ utf8 "        <key>settings</key>\n"
          ++ utf8 "        <dict>\n") t.Globals.Keys with
    | none => rw [hg] at h; cases h
    | some g =>
      rw [hg, Option.some_bind, writeRules_append] at h
      obtain ⟨values, hv, rfl⟩ := (writeGlobals_iff lib t _ _ _).1 hg
      cases hr : writeRules lib t [] t.Rules with
      | none => rw [hr] at h; cases h
      | some rules =>
        rw [hr] at h
        simp only [Option.map_some', Option.some_bind, Option.some.injEq] at h
        refine ⟨values, rules, hv, rfl, ?_⟩
        rw [← h, hnode]
        simp only [List.append_assoc]
  · rintro ⟨values, rules, hv, hr, rfl⟩
    have hg := (writeGlobals_iff lib t t.Globals.Keys
      (writeBasicInfo (writeHeader []) t uuid ++ utf8 "    <key>settings</key>\n"
          ++ utf8 "    <array>\n" ++ utf8 "      <dict>\n" ++ utf8 "        <key>settings</key>\n"
          ++ utf8 "        <dict>\n") _).2 ⟨values, hv, rfl⟩
    rw [hg, Option.some_bind, writeRules_append, hr]
    simp only [Option.map_some', Option.some_bind, Option.some.injEq, hnode, List.append_assoc]

set_option maxRecDepth 100000 in
/-- The witness of claim C9: the global settings `b`, `a`, `c` of the sample theme
are written in the order b, a, c. -/
theorem convert_globals_in_key_order_witness :
    Convert specColor sampleTheme (utf8 "00000000-0000-4000-8000-000000000000") = some
      (utf8 "<?xml version=\"1.0\" encoding=\"UTF-8\"?>\n"
      ++ utf8 "<!DOCTYPE plist PUBLIC \"-//Apple Computer//DTD PLIST 1.0//EN\" \"http://www.apple.com/DTDs/PropertyList-1.0.dtd\">\n"
      ++ utf8 "\n"
      ++ utf8 "<!--\n"
      ++ utf8 "  This theme converted from sublime-color-scheme by detheme (https://kaos.sh/detheme)\n"
      ++ utf8 "-->\n"
      ++ utf8 "\n"
      ++ utf8 "<plist version=\"1.0\">\n"
      ++ utf8 "  <dict>\n"
      ++ utf8 "    <key>name</key>\n"
      ++ utf8 "    <string>Sample</string>\n"
      ++ utf8 "    <key>colorSpaceName</key>\n"
      ++ utf8 "    <string>sRGB</string>\n"
      ++ utf8 "    <key>uuid</key>\n"
      ++ utf8 "    <string>00000000-0000-4000-8000-000000000000</string>\n"
      ++ utf8 "    <key>settings</key>\n"
      ++ utf8 "    <array>\n"
      ++ utf8 "      <dict>\n"
      ++ utf8 "        <key>settings</key>\n"
      ++ utf8 "        <dict>\n"
      ++ utf8 "          <key>b</key>\n"
      ++ utf8 "          <string>#ffffff</string>\n"
      ++ utf8 "          <key>a</key>\n"
      ++ utf8 "          <string>#aabbcc</string>\n"
      ++ utf8 "          <key>c</key>\n"
      ++ utf8 "          <string>&lt;&amp;&gt;</string>\n"
      ++ utf8 "        </dict>\n"
      ++ utf8 "      </dict>\n"
      ++ utf8 "    </array>\n"
      ++ utf8 "  </dict>\n"
      ++ utf8 "</plist>\n") :=
  (convert_globals_in_key_order specColor sampleTheme (utf8 "00000000-0000-4000-8000-000000000000") _).2
    ⟨[utf8 "#ffffff", utf8 "#aabbcc", utf8 "<&>"], [],
      List.Forall₂.cons (by decide) (List.Forall₂.cons (by decide)
        (List.Forall₂.cons (by decide) List.Forall₂.nil)),
      rfl, rfl⟩

set_option maxRecDepth 100000 in
/-- The counterexample to claim C11: the rule without a name is written with the key
`name` and an empty string. -/
theorem rule_without_name_has_name_node :
    writeRule specColor [] ruledTheme
        { Name := [], Scope := utf8 "string", FontStyle := [], Foreground := [],
          Background := utf8 "#abc", SelectionForeground := utf8 "hsl(0, 100%, 50%)" }
      = some (utf8 "      <dict>\n"
          ++ utf8 "        <key>name</key>\n"
          ++ utf8 "        <string></string>\n"
          ++ utf8 "        <key>scope</key>\n"
          ++ utf8 "        <string>string</string>\n"
          ++ utf8 "        <key>settings</key>\n"
          ++ utf8 "        <dict>\n"
          ++ utf8 "          <key>background</key>\n"
          ++ utf8 "          <string>#aabbcc</string>\n"
          ++ utf8 "          <key>selectionForeground</key>\n"
          ++ utf8 "          <string>#ff0000</string>\n"
          ++ utf8 "        </dict>\n"
          ++ utf8 "      </dict>\n")
    ∧ Contains (utf8 "      <dict>\n"
          ++ utf8 "        <key>name</key>\n"
          ++ utf8 "        <string></string>\n"
          ++ utf8 "        <key>scope</key>\n"
          ++ utf8 "        <string>string</string>\n"
          ++ utf8 "        <key>settings</key>\n"
          ++ utf8 "        <dict>\n"
          ++ utf8 "          <key>background</key>\n"
          ++ utf8 "          <string>#aabbcc</string>\n"
          ++ utf8 "          <key>selectionForeground</key>\n"
          ++ utf8 "          <string>#ff0000</string>\n"
          ++ utf8 "        </dict>\n"
          ++ utf8 "      </dict>\n")
        (utf8 "<key>name</key>") = true :=
  ⟨rfl, rfl⟩

/-- Claim C11, amended: the dict `writeRule` writes for a rule always holds the key
`name` and the key `scope`, each followed by the escaped field as string, whether
the field is empty or not; then comes the settings dict. -/
theorem rule_dict_always_names (lib : ColorLib) (t : Theme) (r : Rule) (buf out : Str) :
    writeRule lib buf t r = some out ↔
      ∃ f1 f2 f3 f4 : Str,
        FieldWritten lib t "fontStyle" r.FontStyle f1
        ∧ FieldWritten lib t "foreground" r.Foreground f2
        ∧ FieldWritten lib t "background" r.Background f3
        ∧ FieldWritten lib t "selectionForeground" r.SelectionForeground f4
        ∧ out = buf ++ (utf8 "      <dict>\n"
            ++ utf8 "        <key>name</key>\n        <string>" ++ escape r.Name
            ++ utf8 "</string>\n"
            ++ utf8 "        <key>scope</key>\n        <string>" ++ escape r.Scope
            ++ utf8 "</string>\n"
            ++ utf8 "        <key>settings</key>\n        <dict>\n"
            ++ f1 ++ f2 ++ f3 ++ f4
            ++ utf8 "        </dict>\n      </dict>\n") := by
  rw [writeRule_append]
  constructor
  · intro h
    cases hr : writeRule lib [] t r with
    | none => rw [hr] at h; cases h
    | some dict =>
      rw [hr] at h
      simp only [Option.map_some', Option.some.injEq] at h
      obtain ⟨f1, f2, f3, f4, h1, h2, h3, h4, rfl⟩ := (writeRule_iff lib t r dict).1 hr
      exact ⟨f1, f2, f3, f4, h1, h2, h3, h4, h.symm⟩
  · rintro ⟨f1, f2, f3, f4, h1, h2, h3, h4, rfl⟩
    rw [(writeRule_iff lib t r _).2 ⟨f1, f2, f3, f4, h1, h2, h3, h4, rfl⟩]
    rfl

/-- Claim C12: `Convert` returns `out` exactly when `out` is the fixed frame, the
global settings, and one dict per element of `Rules` in the order of `Rules`, each
dict as `RuleDict` says: its settings dict holds those of `fontStyle`, `foreground`,
`background`, `selectionForeground` whose raw field is not empty, in this order,
each with the string `escape (eval field)`. -/
theorem convert_rules_in_order (lib : ColorLib) (t : Theme) (uuid out : Str) :
    Convert lib t uuid = some out ↔
      ∃ (globals : Str) (dicts : List Str),
        writeGlobals lib t [] t.Globals.Keys = some globals
        ∧ List.Forall₂ (RuleDict lib t) t.Rules dicts
        ∧ out = writeBasicInfo (writeHeader []) t uuid
            ++ utf8 "    <key>settings</key>\n    <array>\n      <dict>\n"
            ++ utf8 "        <key>settings</key>\n        <dict>\n"
            ++ globals
            ++ utf8 "        </dict>\n      </dict>\n"
            ++ dicts.flatten
            ++ utf8 "    </array>\n  </dict>\n</plist>\n" :=
  convert_frame_iff lib t uuid out

set_option maxRecDepth 100000 in
/-- The witness of claim C12: the two rules of the theme `ruledTheme` are written in
their order, the first with `fontStyle` and `foreground`, the second with
`background` and `selectionForeground`. -/
theorem convert_rules_in_order_witness :
    Convert specColor ruledTheme (utf8 "00000000-0000-4000-8000-000000000000") = some
      (utf8 "<?xml version=\"1.0\" encoding=\"UTF-8\"?>\n"
      ++ utf8 "<!DOCTYPE plist PUBLIC \"-//Apple Computer//DTD PLIST 1.0//EN\" \"http://www.apple.com/DTDs/PropertyList-1.0.dtd\">\n"
      ++ utf8 "\n"
      ++ utf8 "<!--\n"
      ++ utf8 "  This theme converted from sublime-color-scheme by detheme (https://kaos.sh/detheme)\n"
      ++ utf8 "-->\n"
      ++ utf8 "\n"
      ++ utf8 "<plist version=\"1.0\">\n"
      ++ utf8 "  <dict>\n"
      ++ utf8 "    <key>name</key>\n"
      ++ utf8 "    <string>Ruled</string>\n"
      ++ utf8 "    <key>author</key>\n"
      ++ utf8 "    <string>A &amp; B</string>\n"
      ++ utf8 "    <key>colorSpaceName</key>\n"
      ++ utf8 "    <string>sRGB</string>\n"
      ++ utf8 "    <key>uuid</key>\n"
      ++ utf8 "    <string>00000000-0000-4000-8000-000000000000</string>\n"
      ++ utf8 "    <key>settings</key>\n"
      ++ utf8 "    <array>\n"
      ++ utf8 "      <dict>\n"
      ++ utf8 "        <key>settings</key>\n"
      ++ utf8 "        <dict>\n"
      ++ utf8 "        </dict>\n"
      ++ utf8 "      </dict>\n"
      ++ utf8 "      <dict>\n"
      ++ utf8 "        <key>name</key>\n"
      ++ utf8 "        <string>Comment</string>\n"
      ++ utf8 "        <key>scope</key>\n"
      ++ utf8 "        <string>comment</string>\n"
      ++ utf8 "        <key>settings</key>\n"
      ++ utf8 "        <dict>\n"
      ++ utf8 "          <key>fontStyle</key>\n"
      ++ utf8 "          <string>italic</string>\n"
      ++ utf8 "          <key>foreground</key>\n"
      ++ utf8 "          <string>#ffffff</string>\n"
      ++ utf8 "        </dict>\n"
      ++ utf8 "      </dict>\n"
      ++ utf8 "      <dict>\n"
      ++ utf8 "        <key>name</key>\n"
      ++ utf8 "        <string></string>\n"
      ++ utf8 "        <key>scope</key>\n"
      ++ utf8 "        <string>string</string>\n"
      ++ utf8 "        <key>settings</key>\n"
      ++ utf8 "        <dict>\n"
      ++ utf8 "          <key>background</key>\n"
      ++ utf8 "          <string>#aabbcc</string>\n"
      ++ utf8 "          <key>selectionForeground</key>\n"
      ++ utf8 "          <string>#ff0000</string>\n"
      ++ utf8 "        </dict>\n"
      ++ utf8 "      </dict>\n"
      ++ utf8 "    </array>\n"
      ++ utf8 "  </dict>\n"
      ++ utf8 "</plist>\n") :=
  (convert_rules_in_order specColor ruledTheme (utf8 "00000000-0000-4000-8000-000000000000") _).2
    ⟨[], [utf8 "      <dict>\n"
          ++ utf8 "        <key>name</key>\n"
          ++ utf8 "        <string>Comment</string>\n"
          ++ utf8 "        <key>scope</key>\n"
          ++ utf8 "        <string>comment</string>\n"
          ++ utf8 "        <key>settings</key>\n"
          ++ utf8 "        <dict>\n"
          ++ utf8 "          <key>fontStyle</key>\n"
          ++ utf8 "          <string>italic</string>\n"
          ++ utf8 "          <key>foreground</key>\n"
          ++ utf8 "          <string>#ffffff</string>\n"
          ++ utf8 "        </dict>\n"
          ++ utf8 "      </dict>\n",
        utf8 "      <dict>\n"
          ++ utf8 "        <key>name</key>\n"
          ++ utf8 "        <string></string>\n"
          ++ utf8 "        <key>scope</key>\n"
          ++ utf8 "        <string>string</string>\n"
          ++ utf8 "        <key>settings</key>\n"
          ++ utf8 "        <dict>\n"
          ++ utf8 "          <key>background</key>\n"
          ++ utf8 "          <string>#aabbcc</string>\n"
          ++ utf8 "          <key>selectionForeground</key>\n"
          ++ utf8 "          <string>#ff0000</string>\n"
          ++ utf8 "        </dict>\n"
          ++ utf8 "      </dict>\n"],
      rfl,
      List.Forall₂.cons
        ⟨_, _, _, _, Or.inr ⟨by decide, utf8 "italic", by decide, rfl⟩,
          Or.inr ⟨by decide, utf8 "#ffffff", by decide, rfl⟩,
          Or.inl ⟨rfl, rfl⟩, Or.inl ⟨rfl, rfl⟩, rfl⟩
        (List.Forall₂.cons
          ⟨_, _, _, _, Or.inl ⟨rfl, rfl⟩, Or.inl ⟨rfl, rfl⟩,
            Or.inr ⟨by decide, utf8 "#aabbcc", by decide, rfl⟩,
            Or.inr ⟨by decide, utf8 "#ff0000", by decide, rfl⟩, rfl⟩
          List.Forall₂.nil),
      rfl⟩

set_option maxRecDepth 100000 in
/-- Claim C13: `Convert` returns `out` exactly when `out` is the header, which ends
with the opening of the root dict, then the nodes `name`, `author`,
`colorSpaceName`, `uuid` in this order, then the body and the footer; the `name`
node is always written, the `author` node is there if and only if `Author` is not
empty, and the string of `colorSpaceName` is `sRGB`. -/
theorem convert_basic_info (lib : ColorLib) (t : Theme) (uuid out : Str) :
    Convert lib t uuid = some out ↔
      ∃ body : Str, writeBody lib [] t = some body
        ∧ out = (utf8 "<?xml version=\"1.0\" encoding=\"UTF-8\"?>\n"
          ++ utf8 "<!DOCTYPE plist PUBLIC \"-//Apple Computer//DTD PLIST 1.0//EN\" \"http://www.apple.com/DTDs/PropertyList-1.0.dtd\">\n"
          ++ utf8 "\n"
          ++ utf8 "<!--\n"
          ++ utf8 "  This theme converted from sublime-color-scheme by detheme (https://kaos.sh/detheme)\n"
          ++ utf8 "-->\n"
          ++ utf8 "\n"
          ++ utf8 "<plist version=\"1.0\">\n"
          ++ utf8 "  <dict>\n")
            ++ utf8 "    <key>name</key>\n    <string>" ++ escape t.Name ++ utf8 "</string>\n"
            ++ (if t.Author = [] then []
                else utf8 "    <key>author</key>\n    <string>" ++ escape t.Author
                  ++ utf8 "</string>\n")
            ++ utf8 "    <key>colorSpaceName</key>\n    <string>sRGB</string>\n"
            ++ utf8 "    <key>uuid</key>\n    <string>" ++ escape uuid ++ utf8 "</string>\n"
            ++ body
            ++ utf8 "  </dict>\n</plist>\n" := by
  have hbasic : writeBasicInfo (writeHeader []) t uuid
      = (utf8 "<?xml version=\"1.0\" encoding=\"UTF-8\"?>\n"
          ++ utf8 "<!DOCTYPE plist PUBLIC \"-//Apple Computer//DTD PLIST 1.0//EN\" \"http://www.apple.com/DTDs/PropertyList-1.0.dtd\">\n"
          ++ utf8 "\n"
          ++ utf8 "<!--\n"
          ++ utf8 "  This theme converted from sublime-color-scheme by detheme (https://kaos.sh/detheme)\n"
          ++ utf8 "-->\n"
          ++ utf8 "\n"
          ++ utf8 "<plist version=\"1.0\">\n"
          ++ utf8 "  <dict>\n")
        ++ utf8 "    <key>name</key>\n    <string>" ++ escape t.Name ++ utf8 "</string>\n"
        ++ (if t.Author = [] then []
            else utf8 "    <key>author</key>\n    <string>" ++ escape t.Author
              ++ utf8 "</string>\n")
        ++ utf8 "    <key>colorSpaceName</key>\n    <string>sRGB</string>\n"
        ++ utf8 "    <key>uuid</key>\n    <string>" ++ escape uuid ++ utf8 "</string>\n" := by
    have hnode : ∀ (key : String) (value : Str), escape (utf8 key) = utf8 key →
        writeNode [] 2 (utf8 key) value
          = utf8 "    <key>" ++ utf8 key ++ utf8 "</key>\n"
            ++ utf8 "    <string>" ++ escape value ++ utf8 "</string>\n" := by
      intro key value hkey
      have h1 : (List.replicate 2 (utf8 "  ")).flatten ++ utf8 "<key>" = utf8 "    <key>" := rfl
      have h2 : (List.replicate 2 (utf8 "  ")).flatten ++ utf8 "<string>"
          = utf8 "    <string>" := rfl
      simp only [writeNode, List.nil_append, ← h1, ← h2, List.append_assoc, hkey]
    have hhead : writeHeader [] = (utf8 "<?xml version=\"1.0\" encoding=\"UTF-8\"?>\n"
          ++ utf8 "<!DOCTYPE plist PUBLIC \"-//Apple Computer//DTD PLIST 1.0//EN\" \"http://www.apple.com/DTDs/PropertyList-1.0.dtd\">\n"
          ++ utf8 "\n"
          ++ utf8 "<!--\n"
          ++ utf8 "  This theme converted from sublime-color-scheme by detheme (https://kaos.sh/detheme)\n"
          ++ utf8 "-->\n"
          ++ utf8 "\n"
          ++ utf8 "<plist version=\"1.0\">\n"
          ++ utf8 "  <dict>\n") := rfl
    unfold writeBasicInfo
    simp only []
    by_cases ha : t.Author = []
    · simp only [ha, ne_eq, not_true_eq_false, if_false, if_true, List.append_nil]
      rw [writeNode_append _ 2 (utf8 "uuid"), writeNode_append _ 2 (utf8 "colorSpaceName"),
        writeNode_append _ 2 (utf8 "name"), hnode "uuid" _ rfl, hnode "name" _ rfl, hhead]
      have hcs : writeNode [] 2 (utf8 "colorSpaceName") (utf8 "sRGB")
          = utf8 "    <key>colorSpaceName</key>\n    <string>sRGB</string>\n" := by decide
      rw [hcs]
      simp only [List.append_assoc]
      rfl
    · simp only [ha, ne_eq, not_false_eq_true, if_false, if_true]
      rw [writeNode_append _ 2 (utf8 "uuid"), writeNode_append _ 2 (utf8 "colorSpaceName"),
        writeNode_append _ 2 (utf8 "author"), writeNode_append _ 2 (utf8 "name"),
        hnode "uuid" _ rfl, hnode "name" _ rfl, hnode "author" _ rfl, hhead]
      have hcs : writeNode [] 2 (utf8 "colorSpaceName") (utf8 "sRGB")
          = utf8 "    <key>colorSpaceName</key>\n    <string>sRGB</string>\n" := by decide
      rw [hcs]
      simp only [List.append_assoc]
      rfl
  have hfoot : ∀ buf : Str, writeFooter buf = buf ++ utf8 "  </dict>\n</plist>\n" := by
    intro buf
    have h : utf8 "  </dict>\n</plist>\n"
        = utf8 "  </dict>" ++ utf8 "\n" ++ (utf8 "</plist>" ++ utf8 "\n") := rfl
    simp [writeFooter, Fprintln, h, List.append_assoc]
  simp only [Convert]
  rw [writeBody_append, hbasic]
  constructor
  · intro h
    cases hb : writeBody lib [] t with
    | none => rw [hb] at h; cases h
    | some body =>
      rw [hb] at h
      simp only [Option.map_some', Option.some_bind, Option.some.injEq] at h
      exact ⟨body, rfl, by rw [← h, hfoot]⟩
  · rintro ⟨body, hb, rfl⟩
    rw [hb]
    simp only [Option.map_some', Option.some_bind, Option.some.injEq, hfoot]

set_option maxRecDepth 100000 in
/-- The witness of claim C13: a theme with the author `A & B` is written with the
nodes `name`, `author`, `colorSpaceName`, `uuid`; the theme `sampleTheme`, without
an author, has no `author` node. -/
theorem convert_basic_info_witness :
    (∃ body, Convert specColor ruledTheme (utf8 "00000000-0000-4000-8000-000000000000") = some
      ((utf8 "<?xml version=\"1.0\" encoding=\"UTF-8\"?>\n"
          ++ utf8 "<!DOCTYPE plist PUBLIC \"-//Apple Computer//DTD PLIST 1.0//EN\" \"http://www.apple.com/DTDs/PropertyList-1.0.dtd\">\n"
          ++ utf8 "\n"
          ++ utf8 "<!--\n"
          ++ utf8 "  This theme converted from sublime-color-scheme by detheme (https://kaos.sh/detheme)\n"
          ++ utf8 "-->\n"
          ++ utf8 "\n"
          ++ utf8 "<plist version=\"1.0\">\n"
          ++ utf8 "  <dict>\n")
      ++ utf8 "    <key>name</key>\n    <string>Ruled</string>\n"
      ++ utf8 "    <key>author</key>\n    <string>A &amp; B</string>\n"
      ++ utf8 "    <key>colorSpaceName</key>\n    <string>sRGB</string>\n"
      ++ utf8 "    <key>uuid</key>\n    <string>00000000-0000-4000-8000-000000000000</string>\n"
      ++ body ++ utf8 "  </dict>\n</plist>\n"))
    ∧ (∃ body, Convert specColor sampleTheme (utf8 "00000000-0000-4000-8000-000000000000") = some
      ((utf8 "<?xml version=\"1.0\" encoding=\"UTF-8\"?>\n"
          ++ utf8 "<!DOCTYPE plist PUBLIC \"-//Apple Computer//DTD PLIST 1.0//EN\" \"http://www.apple.com/DTDs/PropertyList-1.0.dtd\">\n"
          ++ utf8 "\n"
          ++ utf8 "<!--\n"
          ++ utf8 "  This theme converted from sublime-color-scheme by detheme (https://kaos.sh/detheme)\n"
          ++ utf8 "-->\n"
          ++ utf8 "\n"
          ++ utf8 "<plist version=\"1.0\">\n"
          ++ utf8 "  <dict>\n")
      ++ utf8 "    <key>name</key>\n    <string>Sample</string>\n"
      ++ utf8 "    <key>colorSpaceName</key>\n    <string>sRGB</string>\n"
      ++ utf8 "    <key>uuid</key>\n    <string>00000000-0000-4000-8000-000000000000</string>\n"
      ++ body ++ utf8 "  </dict>\n</plist>\n")) :=
  ⟨⟨_, (convert_basic_info specColor ruledTheme (utf8 "00000000-0000-4000-8000-000000000000") _).2
      ⟨(writeBody specColor [] ruledTheme).getD [], rfl, rfl⟩⟩,
    ⟨_, (convert_basic_info specColor sampleTheme (utf8 "00000000-0000-4000-8000-000000000000") _).2
      ⟨(writeBody specColor [] sampleTheme).getD [], rfl, rfl⟩⟩⟩

/-- Claim C15: a chain that ends in an undefined variable gives the placeholder.  For
non-empty names `A`, `B` without a closing parenthesis, with `Variables[A] = "var(B)"`
and `B` not a key, `var(A)` evaluates to `[UNKNOWN-VAR:B]`, and the loop of
`replaceVariables` makes 2 replacement passes, which is within its 16. -/
theorem eval_chain_to_unknown (lib : ColorLib) (t : Theme) (a b : Str) (ha : a ≠ [])
    (hpa : 41 ∉ a) (hb : b ≠ []) (hpb : 41 ∉ b)
    (hka : t.Variables a = some (utf8 "var(" ++ b ++ utf8 ")")) (hkb : t.Variables b = none) :
    t.eval lib (utf8 "var(" ++ a ++ utf8 ")") = some (utf8 "[UNKNOWN-VAR:" ++ b ++ utf8 "]")
    ∧ replaceVariables (utf8 "var(" ++ a ++ utf8 ")") t
        = some (utf8 "[UNKNOWN-VAR:" ++ b ++ utf8 "]")
    ∧ replaceVariablesPasses t 16 (utf8 "var(" ++ a ++ utf8 ")") = 2
    ∧ 2 ≤ 16 := by
  have hnp := placeholder_no_paren hpb
  have hno := matchString_eq_false_of_no_paren closeParen_mem_varRegex hnp
  have s1 := var_ref_step t 15 a ha hpa
  have s2 := var_ref_step t 14 b hb hpb
  rw [hka] at s1
  rw [hkb] at s2
  have hloop : replaceVariables (utf8 "var(" ++ a ++ utf8 ")") t
      = some (utf8 "[UNKNOWN-VAR:" ++ b ++ utf8 "]") := by
    unfold replaceVariables
    rw [s1.1, s2.1]
    exact replaceVariablesLoop_noMatch t 14 hno
  refine ⟨?_, hloop, ?_, by decide⟩
  · rw [eval_eq]
    simp only [stageIf, contains_var_ref, if_true, hloop, Option.some_bind,
      evalColors_no_paren lib hnp]
    rfl
  · rw [s1.2, s2.2, replaceVariablesPasses_noMatch t 14 hno]

/-- The witness of claim C15: with `Variables = {A: "var(B)"}`, `var(A)` gives
`[UNKNOWN-VAR:B]`. -/
theorem eval_chain_to_unknown_witness :
    ({ sampleTheme with
        Variables := fun k => if k = utf8 "A" then some (utf8 "var(B)") else none } : Theme).eval
      specColor (utf8 "var(A)") = some (utf8 "[UNKNOWN-VAR:B]") :=
  (eval_chain_to_unknown specColor
    { sampleTheme with
      Variables := fun k => if k = utf8 "A" then some (utf8 "var(B)") else none }
    (utf8 "A") (utf8 "B") (by decide) (by decide) (by decide) (by decide) (by decide)
    (by decide)).1

/-- The counterexample to claim C18: in a theme where every `X` is defined as
`var(X)`, the name `hsl(0, 100%, 50%` has no closing parenthesis, and the evaluation
of `var(hsl(0, 100%, 50%)` does not return that text: after the 16 passes the `hsl`
stage rewrites the inside (with the name `rgb(1, 2, 3` the `rgb` stage panics). -/
theorem eval_cyclic_not_returned :
    utf8 "hsl(0, 100%, 50%" ≠ [] ∧ 41 ∉ utf8 "hsl(0, 100%, 50%"
    ∧ cyclicTheme.Variables (utf8 "hsl(0, 100%, 50%") = some (utf8 "var(hsl(0, 100%, 50%)")
    ∧ cyclicTheme.eval specColor (utf8 "var(hsl(0, 100%, 50%)") = some (utf8 "var(#ff0000")
    ∧ cyclicTheme.eval specColor (utf8 "var(hsl(0, 100%, 50%)")
        ≠ some (utf8 "var(hsl(0, 100%, 50%)")
    ∧ 41 ∉ utf8 "rgb(1, 2, 3"
    ∧ cyclicTheme.eval specColor (utf8 "var(rgb(1, 2, 3)") = none := by
  decide

/-- Claim C18, amended: for a non-empty name `X` without a closing parenthesis and
`Variables[X] = "var(X)"`, `replaceVariables` makes exactly 16 replacement passes on
`var(X)` and returns `var(X)`; `eval` returns `var(X)` as well when none of the five
colour patterns matches the text `var(X)`. -/
theorem eval_cyclic_truncated (lib : ColorLib) (t : Theme) (x : Str) (hx : x ≠ [])
    (hp : 41 ∉ x) (hkey : t.Variables x = some (utf8 "var(" ++ x ++ utf8 ")")) :
    replaceVariables (utf8 "var(" ++ x ++ utf8 ")") t = some (utf8 "var(" ++ x ++ utf8 ")")
    ∧ replaceVariablesPasses t 16 (utf8 "var(" ++ x ++ utf8 ")") = 16
    ∧ (MatchString colorRegex (utf8 "var(" ++ x ++ utf8 ")") = false →
        MatchString rgbRegex (utf8 "var(" ++ x ++ utf8 ")") = false →
        MatchString rgbaRegex (utf8 "var(" ++ x ++ utf8 ")") = false →
        MatchString hslRegex (utf8 "var(" ++ x ++ utf8 ")") = false →
        MatchString hslaRegex (utf8 "var(" ++ x ++ utf8 ")") = false →
        t.eval lib (utf8 "var(" ++ x ++ utf8 ")") = some (utf8 "var(" ++ x ++ utf8 ")")) := by
  have hl := cyclic_loop t x hx hp hkey 16
  have hloop : replaceVariables (utf8 "var(" ++ x ++ utf8 ")") t
      = some (utf8 "var(" ++ x ++ utf8 ")") := hl.1
  refine ⟨hloop, hl.2, ?_⟩
  intro h1 h2 h3 h4 h5
  rw [eval_eq]
  simp only [stageIf, contains_var_ref, if_true]
  rw [hloop, Option.some_bind, evalColors_noMatch lib h1 h2 h3 h4 h5]
  have h0 : utf8 "var(" ++ x ++ utf8 ")" = 118 :: (utf8 "ar(" ++ x ++ utf8 ")") := rfl
  rw [expandShort3_of_not (by rw [h0]; simp [HasPrefix, utf8, utf8EncodeNat])]
  rw [expandShort4_of_not (by rw [h0]; simp [HasPrefix, utf8, utf8EncodeNat])]

/-- The witness of the amended claim C18: with `Variables[X] = "var(X)"`, `var(X)`
is returned after 16 passes. -/
theorem eval_cyclic_truncated_witness :
    cyclicTheme.Variables (utf8 "X") = some (utf8 "var(X)")
    ∧ replaceVariablesPasses cyclicTheme 16 (utf8 "var(X)") = 16
    ∧ cyclicTheme.eval specColor (utf8 "var(X)") = some (utf8 "var(X)") :=
  ⟨rfl,
    (eval_cyclic_truncated specColor cyclicTheme (utf8 "X") (by decide) (by decide) rfl).2.1,
    (eval_cyclic_truncated specColor cyclicTheme (utf8 "X") (by decide) (by decide) rfl).2.2
      (by decide) (by decide) (by decide) (by decide) (by decide)⟩

/-- The counterexample to claim C19: `#xyz` holds no hex digit and is not returned
unchanged, its three bytes are doubled. -/
theorem eval_hash_xyz_doubled :
    isHexDigit 120 = false ∧ isHexDigit 121 = false ∧ isHexDigit 122 = false
    ∧ sampleTheme.eval specColor (utf8 "#xyz") = some (utf8 "#xxyyzz")
    ∧ sampleTheme.eval specColor (utf8 "#xyz") ≠ some (utf8 "#xyz") := by
  decide

/-- Claim C19, amended: the short form is expanded for every text of exactly 4 or
exactly 5 bytes that starts with `#`, whatever the bytes after `#` are (hex digits
or not): each of them is doubled, in order.  Every other result passes through the
final stage unchanged. -/
theorem short_expansion_any_bytes (lib : ColorLib) (t : Theme) :
    (∀ a b c : Nat, t.eval lib (utf8 "#" ++ [a, b, c]) = some (utf8 "#" ++ [a, a, b, b, c, c]))
    ∧ (∀ a b c d : Nat,
        t.eval lib (utf8 "#" ++ [a, b, c, d]) = some (utf8 "#" ++ [a, a, b, b, c, c, d, d]))
    ∧ (∀ data : Str, ¬ (HasPrefix data (utf8 "#") = true ∧ (data.length = 4 ∨ data.length = 5)) →
        expandShort4 (expandShort3 data) = data)
    ∧ (∀ s : Str, ¬ (HasPrefix s (utf8 "#") = true ∧ (s.length = 4 ∨ s.length = 5)) →
        41 ∉ s → t.eval lib s = some s) := by
  refine ⟨eval_hash3 lib t, eval_hash4 lib t, ?_, ?_⟩
  · intro data h
    rw [expandShort3_of_not fun h3 => h ⟨h3.1, Or.inl h3.2⟩,
      expandShort4_of_not fun h4 => h ⟨h4.1, Or.inr h4.2⟩]
  · intro s h hp
    rw [eval_of_no_close_paren lib t s hp,
      expandShort3_of_not fun h3 => h ⟨h3.1, Or.inl h3.2⟩,
      expandShort4_of_not fun h4 => h ⟨h4.1, Or.inr h4.2⟩]

/-- The witness of the amended claim C19: `#xyz` becomes `#xxyyzz`, `#wxyz` becomes
`#wwxxyyzz`, and `#ghijkl` and `xyz` are returned unchanged. -/
theorem short_expansion_any_bytes_witness :
    sampleTheme.eval specColor (utf8 "#xyz") = some (utf8 "#xxyyzz")
    ∧ sampleTheme.eval specColor (utf8 "#wxyz") = some (utf8 "#wwxxyyzz")
    ∧ sampleTheme.eval specColor (utf8 "#ghijkl") = some (utf8 "#ghijkl")
    ∧ sampleTheme.eval specColor (utf8 "xyz") = some (utf8 "xyz") :=
  ⟨(short_expansion_any_bytes specColor sampleTheme).1 120 121 122,
    (short_expansion_any_bytes specColor sampleTheme).2.1 119 120 121 122,
    (short_expansion_any_bytes specColor sampleTheme).2.2.2 (utf8 "#ghijkl") (by decide)
      (by decide),
    (short_expansion_any_bytes specColor sampleTheme).2.2.2 (utf8 "xyz") (by decide)
      (by decide)⟩

/-- Claim C16 (on the colour package modelled from the spec): `rgba(255,0,0,0.5)`
evaluates to `#ff000080`, the alpha factor 0.5 being scaled to 0..255 and rounded
to `0x80` = 128; and for all components `r`, `g`, `b` from 0 to 255, any spaces after
the commas and any alpha text of digits and dots, `rgba(r,g,b,a)` evaluates to `#`
and eight hex digits: two for each component and two for the alpha byte. -/
theorem eval_rgba_spec (t : Theme) (r g b : Nat) (sg sb sa a : Str) (hr : r ≤ 255)
    (hg : g ≤ 255) (hb : b ≤ 255) (hsg : ∀ c ∈ sg, isSpace c = true)
    (hsb : ∀ c ∈ sb, isSpace c = true) (hsa : ∀ c ∈ sa, isSpace c = true) (ha : a ≠ [])
    (had : ∀ c ∈ a, isDigitOrDot c = true) :
    t.eval specColor (utf8 "rgba(" ++ decimal r ++ utf8 "," ++ sg ++ decimal g ++ utf8 ","
        ++ sb ++ decimal b ++ utf8 "," ++ sa ++ a ++ utf8 ")")
      = some (utf8 "#" ++ (hex2 r ++ hex2 g ++ hex2 b ++ hex2 (parseDecimalFrac a).toByte))
    ∧ (hex2 r ++ hex2 g ++ hex2 b ++ hex2 (parseDecimalFrac a).toByte).length = 8
    ∧ (∀ c ∈ hex2 r ++ hex2 g ++ hex2 b ++ hex2 (parseDecimalFrac a).toByte,
        isHexDigit c = true)
    ∧ (parseDecimalFrac (utf8 "0.5")).toByte = 128
    ∧ t.eval specColor (utf8 "rgba(255,0,0,0.5)") = some (utf8 "#ff000080") := by
  have hhex : ∀ c ∈ hex2 r ++ hex2 g ++ hex2 b ++ hex2 (parseDecimalFrac a).toByte,
      isHexDigit c = true := by
    intro c hc
    simp only [List.mem_append] at hc
    rcases hc with ((hc | hc) | hc) | hc <;> exact hex2_isHex _ c hc
  refine ⟨?_, by simp [hex2], hhex, by decide, rfl⟩
  have hm := findMatch_rgba (decimal r) (decimal g) (decimal b) sg sb sa a (decimal_ne_nil r)
    (decimal_ne_nil g) (decimal_ne_nil b) ha (decimal_digits r) (decimal_digits g)
    (decimal_digits b) had hsg hsb hsa
  have hbytes := rgba_text_bytes (decimal r) (decimal g) (decimal b) sg sb sa a (decimal_digits r)
    (decimal_digits g) (decimal_digits b) had hsg hsb hsa
  have hdata : utf8 "rgba(" ++ decimal r ++ utf8 "," ++ sg ++ decimal g ++ utf8 ","
        ++ sb ++ decimal b ++ utf8 "," ++ sa ++ a ++ utf8 ")"
      = utf8 "rgba(" ++ (decimal r ++ utf8 "," ++ sg ++ decimal g ++ utf8 ","
        ++ sb ++ decimal b ++ utf8 "," ++ sa ++ a ++ utf8 ")") := by
    simp only [List.append_assoc]
  have hout : specColor.rgbaWeb (uint8 (Atoi (decimal r))) (uint8 (Atoi (decimal g)))
      (uint8 (Atoi (decimal b))) (specColor.ParseFloat a)
      = utf8 "#" ++ (hex2 r ++ hex2 g ++ hex2 b ++ hex2 (parseDecimalFrac a).toByte) := by
    rw [atoi_decimal r hr, atoi_decimal g hg, atoi_decimal b hb]
    exact webRGBA_eq r g b (parseDecimalFrac a)
  have hnp := hash_hex_no_paren _ hhex
  have hconv := convertRGBAToHex_single specColor hm
    (by rw [hdata]; exact fun h => by simpa [utf8, utf8EncodeNat] using congrArg List.length h)
    (by rw [hout]; exact matchString_eq_false_of_no_paren closeParen_mem_rgbaRegex hnp.2)
  rw [hout] at hconv
  have hall : ∀ c ∈ utf8 "rgba(" ++ decimal r ++ utf8 "," ++ sg ++ decimal g ++ utf8 ","
        ++ sb ++ decimal b ++ utf8 "," ++ sa ++ a ++ utf8 ")", c ≠ 118 ∧ c ≠ 99 := by
    intro c hc
    rw [hdata] at hc
    rcases List.mem_append.1 hc with hc | hc
    · exact (show ∀ x ∈ utf8 "rgba(", x ≠ 118 ∧ x ≠ 99 by decide) c hc
    · exact (hbytes c hc).2
  apply eval_of_rgba_stage specColor t
    (contains_eq_false (c := 118) (by decide) fun h => (hall _ h).1 rfl)
    (contains_eq_false (c := 99) (by decide) fun h => (hall _ h).2 rfl)
    (by rw [hdata]; exact contains_rgb_in_rgba _ fun h => (hbytes _ h).1 rfl)
    (by rw [hdata]; exact contains_of_hasPrefix (hasPrefix_append _ _))
    hconv hnp.1
  intro h
  have hl : (utf8 "#" ++ (hex2 r ++ hex2 g ++ hex2 b ++ hex2 (parseDecimalFrac a).toByte)).length
      = 9 := by simp [hex2, utf8, utf8EncodeNat]
  omega

/-- The witness of claim C16: `rgba(255,0,0,0.5)` gives `#ff000080`. -/
theorem eval_rgba_spec_witness :
    sampleTheme.eval specColor (utf8 "rgba(255,0,0,0.5)") = some (utf8 "#ff000080") :=
  (eval_rgba_spec sampleTheme 255 0 0 [] [] [] (utf8 "0.5") (by decide) (by decide) (by decide)
    (by decide) (by decide) (by decide) (by decide) (by decide)).1

/-- Claim C17 (on the colour package modelled from the spec): `hsl(0, 100%, 50%)`
evaluates to `#ff0000`; in general `hsl(h, s%, l%)` evaluates to the opaque hex
colour of the red, green and blue bytes computed from the hue `h` in degrees and
the saturation `s` and lightness `l` in percent. -/
theorem eval_hsl_spec (t : Theme) (h s l : Nat) (s1 s2 : Str)
    (hs1 : ∀ c ∈ s1, isSpace c = true) (hs2 : ∀ c ∈ s2, isSpace c = true) :
    t.eval specColor (utf8 "hsl(" ++ decimal h ++ utf8 "," ++ s1 ++ decimal s ++ utf8 "%,"
        ++ s2 ++ decimal l ++ utf8 "%)")
      = some (utf8 "#" ++ (hex2 (hslToRGB ⟨h, 1⟩ ⟨s, 1⟩ ⟨l, 1⟩).1
          ++ hex2 (hslToRGB ⟨h, 1⟩ ⟨s, 1⟩ ⟨l, 1⟩).2.1
          ++ hex2 (hslToRGB ⟨h, 1⟩ ⟨s, 1⟩ ⟨l, 1⟩).2.2))
    ∧ hslToRGB ⟨0, 1⟩ ⟨100, 1⟩ ⟨50, 1⟩ = (255, 0, 0)
    ∧ t.eval specColor (utf8 "hsl(0, 100%, 50%)") = some (utf8 "#ff0000") := by
  refine ⟨?_, by decide, rfl⟩
  have hm := findMatch_hsl (decimal h) (decimal s) (decimal l) s1 s2 (decimal_ne_nil h)
    (decimal_ne_nil s) (decimal_ne_nil l) (decimal_digits h) (decimal_digits s)
    (decimal_digits l) hs1 hs2
  have hbytes := hsl_text_bytes (decimal h) (decimal s) (decimal l) s1 s2 (decimal_digits h)
    (decimal_digits s) (decimal_digits l) hs1 hs2
  have hhex : ∀ c ∈ hex2 (hslToRGB ⟨h, 1⟩ ⟨s, 1⟩ ⟨l, 1⟩).1
      ++ hex2 (hslToRGB ⟨h, 1⟩ ⟨s, 1⟩ ⟨l, 1⟩).2.1
      ++ hex2 (hslToRGB ⟨h, 1⟩ ⟨s, 1⟩ ⟨l, 1⟩).2.2, isHexDigit c = true := by
    intro c hc
    simp only [List.mem_append] at hc
    rcases hc with (hc | hc) | hc <;> exact hex2_isHex _ c hc
  have hout : specColor.hslWeb (specColor.ParseFloat (decimal h))
      (specColor.ParseFloat (decimal s)) (specColor.ParseFloat (decimal l))
      = utf8 "#" ++ (hex2 (hslToRGB ⟨h, 1⟩ ⟨s, 1⟩ ⟨l, 1⟩).1
          ++ hex2 (hslToRGB ⟨h, 1⟩ ⟨s, 1⟩ ⟨l, 1⟩).2.1
          ++ hex2 (hslToRGB ⟨h, 1⟩ ⟨s, 1⟩ ⟨l, 1⟩).2.2) := by
    change webRGB
      (hslToRGB (parseDecimalFrac (decimal h)) (parseDecimalFrac (decimal s))
        (parseDecimalFrac (decimal l))).1
      (hslToRGB (parseDecimalFrac (decimal h)) (parseDecimalFrac (decimal s))
        (parseDecimalFrac (decimal l))).2.1
      (hslToRGB (parseDecimalFrac (decimal h)) (parseDecimalFrac (decimal s))
        (parseDecimalFrac (decimal l))).2.2 = _
    rw [parseDecimalFrac_decimal, parseDecimalFrac_decimal, parseDecimalFrac_decimal]
    exact webRGB_eq _ _ _
  have hnp := hash_hex_no_paren _ hhex
  have hconv := convertHSLToHex_single specColor hm
    (by
      intro h0
      have := congrArg List.length h0
      simp [utf8, utf8EncodeNat] at this)
    (by rw [hout]; exact matchString_eq_false_of_no_paren closeParen_mem_hslRegex hnp.2)
  rw [hout] at hconv
  apply eval_of_hsl_stage specColor t
    (contains_eq_false (c := 118) (by decide) fun h0 => (hbytes _ h0).1 rfl)
    (contains_eq_false (c := 99) (by decide) fun h0 => (hbytes _ h0).2.1 rfl)
    (contains_eq_false (c := 114) (by decide) fun h0 => (hbytes _ h0).2.2 rfl)
    (contains_eq_false (c := 114) (by decide) fun h0 => (hbytes _ h0).2.2 rfl)
    (by
      apply contains_of_hasPrefix
      simp only [List.append_assoc]
      exact hasPrefix_append _ _)
    hconv hnp.1
  intro h0
  have hl : (utf8 "#" ++ (hex2 (hslToRGB ⟨h, 1⟩ ⟨s, 1⟩ ⟨l, 1⟩).1
      ++ hex2 (hslToRGB ⟨h, 1⟩ ⟨s, 1⟩ ⟨l, 1⟩).2.1
      ++ hex2 (hslToRGB ⟨h, 1⟩ ⟨s, 1⟩ ⟨l, 1⟩).2.2)).length = 7 := by
    simp [hex2, utf8, utf8EncodeNat]
  omega

/-- The witness of claim C17: `hsl(0, 100%, 50%)` gives `#ff0000`. -/
theorem eval_hsl_spec_witness :
    sampleTheme.eval specColor (utf8 "hsl(0, 100%, 50%)") = some (utf8 "#ff0000") :=
  (eval_hsl_spec sampleTheme 0 100 50 (utf8 " ") (utf8 " ") (by decide) (by decide)).1

/-- The alpha groups the colour pattern admits: it matches
`color(#fff alpha(1.2.3))` and `color(#fff alpha(.))` with the alpha groups `1.2.3`
and `.`, and neither is a floating-point literal. -/
theorem color_alpha_not_a_literal :
    findMatch colorRegex (utf8 "color(#fff alpha(1.2.3))")
      = some (utf8 "color(#fff alpha(1.2.3))", [utf8 "#fff", utf8 "1.2.3"])
    ∧ isDecimalLiteral (utf8 "1.2.3") = false
    ∧ findMatch colorRegex (utf8 "color(#fff alpha(.))")
      = some (utf8 "color(#fff alpha(.))", [utf8 "#fff", utf8 "."])
    ∧ isDecimalLiteral (utf8 ".") = false
    ∧ isDecimalLiteral (utf8 "0.5") = true := by
  decide

/-- The slip of `convertColorToHex` on every text: the alpha capture group of a
match is one or more bytes from the digits and the dot, and the
error of `strconv.ParseFloat` on it is discarded, the second `if err != nil` tests
the error of `color.Parse` again.  So a pass never makes the substitution of
`[COLOR-ALPHA]` that the source writes down: it substitutes `[COLOR-VALUE]` when
`color.Parse` fails and the colour otherwise, with whatever value
`strconv.ParseFloat` returned for the group. -/
theorem color_alpha_branch_dead (lib : ColorLib) :
    (∀ (data whole : Str) (groups : List Str),
      findMatch colorRegex data = some (whole, groups) →
      ∃ base alpha : Str, groups = [base, alpha] ∧ alpha ≠ []
        ∧ ∀ c ∈ alpha, isDigitOrDot c = true)
    ∧ (∀ (n : Nat) (data whole base alpha : Str),
      findMatch colorRegex data = some (whole, [base, alpha]) →
      convertColorToHexLoop lib (n + 1) data
        = convertColorToHexLoop lib n (ReplaceAll data whole
            (if (lib.Parse base).2 = true then utf8 "[COLOR-VALUE]"
             else lib.hexAlphaWeb (lib.Parse base).1 (lib.ParseFloat alpha)))) := by
  constructor
  · intro data whole groups h
    obtain ⟨pre, suf, _, hm⟩ := findMatch_some h
    obtain ⟨hex, alpha, hg, _, _, _, hne, hal, _⟩ := matchItems_color_some hm
    exact ⟨_, alpha, hg, hne, hal⟩
  · intro n data whole base alpha h
    cases hp : (lib.Parse base).2 <;>
      simp [convertColorToHexLoop, MatchString, FindStringSubmatch, h, hp]

/-- An instance of `color_alpha_branch_dead`: on `color(#fff alpha(1.2.3))` the pass
substitutes a colour, built from the value 0 of the failed parse, and the evaluation
gives `#ffffff00`. -/
theorem color_alpha_branch_dead_witness :
    convertColorToHexLoop specColor 1 (utf8 "color(#fff alpha(1.2.3))")
      = convertColorToHexLoop specColor 0 (ReplaceAll (utf8 "color(#fff alpha(1.2.3))")
          (utf8 "color(#fff alpha(1.2.3))")
          (if (specColor.Parse (utf8 "#fff")).2 = true then utf8 "[COLOR-VALUE]"
           else specColor.hexAlphaWeb (specColor.Parse (utf8 "#fff")).1
             (specColor.ParseFloat (utf8 "1.2.3"))))
    ∧ sampleTheme.eval specColor (utf8 "color(#fff alpha(1.2.3))") = some (utf8 "#ffffff00") :=
  ⟨(color_alpha_branch_dead specColor).2 0 (utf8 "color(#fff alpha(1.2.3))")
      (utf8 "color(#fff alpha(1.2.3))") (utf8 "#fff") (utf8 "1.2.3") (by decide),
    by decide⟩

/-- Claim C20, code bug: the colour pattern matches `color(#fff alpha(1.2.3))` with
the alpha group `1.2.3`, which is no floating-point literal, so that
`strconv.ParseFloat` fails on it.  The source writes down the substitution of
`[COLOR-ALPHA]` for that failure and never makes it: the error is discarded and the
test reads the error of `color.Parse` again.  With every colour package one pass of
`convertColorToHex` gives `[COLOR-VALUE]` when `color.Parse` fails on `#fff` and
otherwise the colour built from the value left by the failed parse; with the colour
package of the specification `eval` gives `#ffffff00`, alpha 0 and no marker. -/
theorem color_alpha_error_discarded :
    findMatch colorRegex (utf8 "color(#fff alpha(1.2.3))")
      = some (utf8 "color(#fff alpha(1.2.3))", [utf8 "#fff", utf8 "1.2.3"])
    ∧ isDecimalLiteral (utf8 "1.2.3") = false
    ∧ (∀ lib : ColorLib,
        convertColorToHexLoop lib 1 (utf8 "color(#fff alpha(1.2.3))")
          = some (if (lib.Parse (utf8 "#fff")).2 = true then utf8 "[COLOR-VALUE]"
              else lib.hexAlphaWeb (lib.Parse (utf8 "#fff")).1
                (lib.ParseFloat (utf8 "1.2.3"))))
    ∧ sampleTheme.eval specColor (utf8 "color(#fff alpha(1.2.3))") = some (utf8 "#ffffff00")
    ∧ sampleTheme.eval specColor (utf8 "color(#fff alpha(1.2.3))")
        ≠ some (utf8 "[COLOR-ALPHA]") := by
  have hm : findMatch colorRegex (utf8 "color(#fff alpha(1.2.3))")
      = some (utf8 "color(#fff alpha(1.2.3))", [utf8 "#fff", utf8 "1.2.3"]) := by decide
  refine ⟨hm, by decide, ?_, by decide, by decide⟩
  intro lib
  have hne : utf8 "color(#fff alpha(1.2.3))" ≠ [] := by decide
  cases hp : (lib.Parse (utf8 "#fff")).2 <;>
    simp [convertColorToHexLoop, MatchString, FindStringSubmatch, hm, hp,
      replaceAll_self _ _ hne]

/-- Claim C14: whatever the theme holds, an output of `Convert` has balanced,
properly nested tags (the scan of its `<` and `>` ends with no element open), and
an escaped key or value holds neither `<` nor `>`, so that every `<` and `>` of the
output comes from the fixed template. -/
theorem convert_tags_balanced (lib : ColorLib) (t : Theme) (uuid out : Str)
    (h : Convert lib t uuid = some out) :
    tagsBalanced out = true ∧ ∀ s : Str, 60 ∉ escape s ∧ 62 ∉ escape s := by
  refine ⟨?_, escape_no_angle⟩
  obtain ⟨globals, dicts, hg, hd, rfl⟩ := (convert_frame_iff lib t uuid out).1 h
  have hscan := @scanTags_frame t uuid globals dicts (balanced_globals hg)
    (balanced_ruleDicts hd)
  unfold tagsBalanced
  rw [hscan]
  rfl

set_option maxRecDepth 100000 in
/-- The witness of claim C14: the theme `markupTheme` has `<`, `>`, `&` and quotes
in its name, author, keys, values and rule fields; `Convert` returns an output and
its tags are balanced. -/
theorem convert_tags_balanced_witness :
    (Convert specColor markupTheme (utf8 "<uuid>")).isSome = true
    ∧ tagsBalanced ((Convert specColor markupTheme (utf8 "<uuid>")).getD []) = true :=
  ⟨rfl, (convert_tags_balanced specColor markupTheme (utf8 "<uuid>")
    ((Convert specColor markupTheme (utf8 "<uuid>")).getD []) rfl).1⟩

set_option maxRecDepth 100000 in
/-- The counterexample to claim C21: the 17 variables `a` to `q` of `splitTheme` are
pairwise distinct and defined and no value contains `var(`, but the values `va` of
`a` and `r(` of `b` read `var(` once they stand side by side.  On the 17 references
`var(a)` to `var(q)` the first two passes leave `var(var(c)var(d)...`, the later
passes match names such as `var(c` and `c]var(d` that are not defined, and the
result of `eval` is not the text of the first 16 values followed by `var(q)`: the
references to `c` up to `p` are not expanded to their value `x`. -/
theorem eval_seventeen_split :
    seventeenNames.length = 17 ∧ seventeenNames.Nodup
    ∧ (∀ x ∈ seventeenNames, (splitTheme.Variables x).isSome = true
        ∧ Contains ((splitTheme.Variables x).getD []) (utf8 "var(") = false)
    ∧ refs seventeenNames
        = utf8 "var(a)var(b)var(c)var(d)var(e)var(f)var(g)var(h)var(i)var(j)var(k)var(l)var(m)var(n)var(o)var(p)var(q)"
    ∧ ((seventeenNames.take 16).flatMap fun x => (splitTheme.Variables x).getD [])
        = utf8 "var(xxxxxxxxxxxxxx"
    ∧ replaceVariablesLoop splitTheme 2 (refs seventeenNames)
        = some (utf8 "var(var(c)var(d)var(e)var(f)var(g)var(h)var(i)var(j)var(k)var(l)var(m)var(n)var(o)var(p)var(q)")
    ∧ replaceVariablesLoop splitTheme 3 (refs seventeenNames)
        = some (utf8 "[UNKNOWN-VAR:var(c]var(d)var(e)var(f)var(g)var(h)var(i)var(j)var(k)var(l)var(m)var(n)var(o)var(p)var(q)")
    ∧ splitTheme.eval specColor (refs seventeenNames)
        = some (utf8 "[UNKNOWN-VAR:[UNKNOWN-VAR:c][UNKNOWN-VAR:d][UNKNOWN-VAR:e][UNKNOWN-VAR:f][UNKNOWN-VAR:g][UNKNOWN-VAR:h][UNKNOWN-VAR:i][UNKNOWN-VAR:j][UNKNOWN-VAR:k][UNKNOWN-VAR:l][UNKNOWN-VAR:m][UNKNOWN-VAR:n][UNKNOWN-VAR:o]var(p]var(q)")
    ∧ splitTheme.eval specColor (refs seventeenNames)
        ≠ some (utf8 "var(xxxxxxxxxxxxxx" ++ utf8 "var(q)") := by
  refine ⟨rfl, by decide, by decide, by decide, by decide, by decide, by decide, by decide,
    by decide⟩

set_option maxRecDepth 100000 in
/-- A second example for claim C21, on the names: the 17 variables of `nestedTheme`
are pairwise distinct and defined with the value `x`, which holds no parenthesis, but
the name `var(a` holds the text of a reference to `a`.  The first pass replaces both
occurrences of `var(a)`, also the one inside `var(var(a)`; the later passes match
names that are not defined, and the last reference ends as `var(q]`. -/
theorem eval_seventeen_nested :
    nestedNames.length = 17 ∧ nestedNames.Nodup
    ∧ (∀ x ∈ nestedNames, nestedTheme.Variables x = some (utf8 "x"))
    ∧ refs nestedNames
        = utf8 "var(a)var(var(a)var(c)var(d)var(e)var(f)var(g)var(h)var(i)var(j)var(k)var(l)var(m)var(n)var(o)var(p)var(q)"
    ∧ replaceVariablesLoop nestedTheme 1 (refs nestedNames)
        = some (utf8 "xvar(xvar(c)var(d)var(e)var(f)var(g)var(h)var(i)var(j)var(k)var(l)var(m)var(n)var(o)var(p)var(q)")
    ∧ nestedTheme.eval specColor (refs nestedNames)
        = some (utf8 "x[UNKNOWN-VAR:x[UNKNOWN-VAR:c][UNKNOWN-VAR:d][UNKNOWN-VAR:e][UNKNOWN-VAR:f][UNKNOWN-VAR:g][UNKNOWN-VAR:h][UNKNOWN-VAR:i][UNKNOWN-VAR:j][UNKNOWN-VAR:k][UNKNOWN-VAR:l][UNKNOWN-VAR:m][UNKNOWN-VAR:n][UNKNOWN-VAR:o][UNKNOWN-VAR:p]var(q]") := by
  refine ⟨rfl, by decide, by decide, by decide, by decide, by decide⟩

/-- Claim C21, amended: each pass of `replaceVariables` on a text with a match
replaces every occurrence of the text `var(NAME)` of the single leftmost match by
the value of `NAME`; so for an input that consists of 17 references written one
after the other to 17 pairwise distinct defined variables, whose names are not empty
and hold no parenthesis and whose values hold no `(`, `replaceVariables` makes
exactly 16 passes, and in the result of `eval` the first 16 references are expanded
to their values and the 17th reference is left verbatim. -/
theorem eval_seventeen_refs (lib : ColorLib) (t : Theme) (names : List Str) (last : Str)
    (hlen : names.length = 16) (hnd : (names ++ [last]).Nodup)
    (hnames : ∀ x ∈ names ++ [last], x ≠ [] ∧ 40 ∉ x ∧ 41 ∉ x)
    (hdef : ∀ x ∈ names ++ [last],
      (t.Variables x).isSome = true ∧ 40 ∉ (t.Variables x).getD []) :
    (∀ data, MatchString varRegex data = true →
      ∃ pre name post : Str, data = pre ++ (utf8 "var(" ++ name ++ utf8 ")") ++ post
        ∧ (∀ k, k < pre.length → matchItems varRegex (data.drop k) [] [] [] = none)
        ∧ ∀ n, replaceVariablesLoop t (n + 1) data
            = replaceVariablesLoop t n
                (ReplaceAll data (utf8 "var(" ++ name ++ utf8 ")") (varValue t name)))
    ∧ replaceVariablesPasses t 16 (refs (names ++ [last])) = 16
    ∧ t.eval lib (refs (names ++ [last]))
        = some ((names.flatMap fun x => (t.Variables x).getD [])
            ++ (utf8 "var(" ++ last ++ utf8 ")")) := by
  have h := eval_refs_sixteen lib t names last hlen hnd hnames
    (fun x hx => hdef x (List.mem_append_left _ hx))
  exact ⟨fun data hm => var_pass t hm, h.2.1, h.2.2⟩

set_option maxRecDepth 100000 in
/-- The witness of the amended claim C21: with the 17 variables `a` to `q` of
`seventeenTheme`, each `#fff`, the references to `a` up to `p` are expanded in 16
passes and `var(q)` is left. -/
theorem eval_seventeen_refs_witness :
    seventeenNames = seventeenNames.take 16 ++ [utf8 "q"]
    ∧ replaceVariablesPasses seventeenTheme 16 (refs seventeenNames) = 16
    ∧ seventeenTheme.eval specColor (refs seventeenNames)
        = some (utf8 "#fff#fff#fff#fff#fff#fff#fff#fff#fff#fff#fff#fff#fff#fff#fff#fffvar(q)") :=
  ⟨rfl,
    (eval_seventeen_refs specColor seventeenTheme (seventeenNames.take 16) (utf8 "q")
      (by decide) (by decide) (by decide) (by decide)).2.1,
    (eval_seventeen_refs specColor seventeenTheme (seventeenNames.take 16) (utf8 "q")
      (by decide) (by decide) (by decide) (by decide)).2.2⟩

end Detheme
